import Mathlib

/-!
# Pintos user-program system calls and the frame table

A shallow embedding of `src/userprog/syscall.c` and `src/vm/frame.c`.

* Addresses and machine words are natural numbers below `2 ^ 32`; pointer
  arithmetic is reduced modulo `2 ^ 32`, `NULL` is `0`.
* The kernel code of `syscall.c` runs in the state monad `K` over `Kernel`.
  Everything `syscall.c` calls but does not define (page directory,
  supplemental page table, file system, console, process management) is a
  field of `Collab`, acting on an abstract world `W`; every such call is
  appended to `Kernel.trace`.
* `frame.c` is embedded over its own small state `vm_state`.
-/

set_option linter.dupNamespace false

namespace Pintos

/-! ## Machine constants (threads/vaddr.h, threads/palloc.h, syscall-nr.h) -/

/-- Modelled from the spec: `threads/vaddr.h` is not among the sources; the
size of one page in bytes. -/
def PGSIZE : Nat := 4096

/-- Modelled from the spec: `threads/vaddr.h` is not among the sources; the
first address of the kernel half of the address space. -/
def PHYS_BASE : Nat := 0xC0000000

/-- Number of values of a 32-bit word (pointers, `unsigned`, `uint32_t`). -/
def WORD : Nat := 4294967296

/-- Largest value of `int` / `int32_t`. -/
def INT_MAX : Int := 2147483647

/-- Modelled from the spec: `is_user_vaddr` of `threads/vaddr.h`, the test
"lies in the user half of the address space". -/
def is_user_vaddr (p : Nat) : Bool := decide (p < PHYS_BASE)

/-- Modelled from the spec: `pg_ofs` of `threads/vaddr.h`, offset within the page. -/
def pg_ofs (p : Nat) : Nat := p % PGSIZE

/-- Modelled from the spec: `pg_round_down` of `threads/vaddr.h`, start of the page. -/
def pg_round_down (p : Nat) : Nat := p - p % PGSIZE

/-- Pointer plus a byte count, in 32-bit arithmetic. -/
def ptr_add (p n : Nat) : Nat := (p + n) % WORD

/-- Pointer minus a byte count, in 32-bit arithmetic. -/
def ptr_sub (p n : Nat) : Nat := (p + (WORD - n % WORD)) % WORD

/-- Conversion of a 32-bit word to `int`. -/
def to_int32 (n : Nat) : Int :=
  if n % WORD < 2147483648 then (n % WORD : Nat) else ((n % WORD : Nat) : Int) - 4294967296

/-- Conversion of an `int` to a 32-bit word. -/
def of_int32 (i : Int) : Nat := (i % 4294967296).toNat

def STDIN_FILENO : Int := 0
def STDOUT_FILENO : Int := 1

def SYS_HALT : Int := 0
def SYS_EXIT : Int := 1
def SYS_EXEC : Int := 2
def SYS_WAIT : Int := 3
def SYS_CREATE : Int := 4
def SYS_REMOVE : Int := 5
def SYS_OPEN : Int := 6
def SYS_FILESIZE : Int := 7
def SYS_READ : Int := 8
def SYS_WRITE : Int := 9
def SYS_SEEK : Int := 10
def SYS_TELL : Int := 11
def SYS_CLOSE : Int := 12
def SYS_MMAP : Int := 13
def SYS_MUNMAP : Int := 14

/-! ## Data model -/

/-- One entry of a parent's child list (`struct child`). -/
structure child where
  cid : Int
  exit_call : Bool
  exit_status : Int
deriving DecidableEq, Repr

/-- The fields of `struct thread` that `syscall.c` touches directly. -/
structure thread where
  tid : Int
  pid : Int
  name : String
  children : List child
deriving DecidableEq, Repr

/-- One entry of `open_file_list` (`struct file_descriptor`). -/
structure file_descriptor where
  fd_num : Int
  file_owner : Int
  file : Nat
deriving DecidableEq, Repr

/-- The fields of `struct supple_page_table_entry` that `syscall.c` reads. -/
structure supple_page_table_entry where
  uvaddr : Nat
  is_loaded : Bool
deriving DecidableEq, Repr

/-- The fields of `struct intr_frame` that `syscall_handler` uses. -/
structure intr_frame where
  esp : Nat
  eax : Nat
deriving DecidableEq, Repr

/-- The locks `syscall.c` takes: the global `fileLock` and the `child_lock`
of the thread with the given tid. -/
inductive Lock where
  | fileLock
  | child_lock (tid : Int)
deriving DecidableEq, Repr

/-- Calls that leave `syscall.c`, with their arguments. -/
inductive Event where
  | pagedir_get_page (uaddr : Nat)
  | find_supple_entry (uvaddr : Nat)
  | load_data (e : supple_page_table_entry)
  | increase_stack (uaddr : Nat)
  | add_mmf (address file : Nat) (length : Int)
  | remove_mmfs (map : Int)
  | printf (line : String)
  | thread_exit
  | shutdown_power_off
  | panic
  | lock_acquire (l : Lock)
  | lock_release (l : Lock)
  | cond_wait (l : Lock)
  | set_child_load_success (v : Int)
  | process_execute (cmd_line : Nat)
  | process_wait (pid : Int)
  | filesys_create (name size : Nat)
  | filesys_remove (name : Nat)
  | filesys_open (name : Nat)
  | calloc
  | file_length (file : Nat)
  | file_read (file buffer size : Nat)
  | file_write (file buffer size : Nat)
  | file_seek (file position : Nat)
  | file_tell (file : Nat)
  | file_close (file : Nat)
  | file_reopen (file : Nat)
  | input_getc
  | putbuf (buffer size : Nat)
  | store_byte (addr val : Nat)
deriving DecidableEq, Repr

/-- The collaborators of `syscall.c`, over an abstract world `W`: queries read
the world, commands also change it. -/
structure Collab (W : Type) where
  /-- Kernel address mapped at a user address in the caller's page directory, `0` if none. -/
  pagedir_get_page : W → Nat → Nat
  /-- Entry of the caller's supplemental page table for a page, if any. -/
  find_supple_entry : W → Nat → Option supple_page_table_entry
  load_data : W → supple_page_table_entry → W
  increase_stack : W → Nat → W
  add_mmf : W → Nat → Nat → Int → W × Int
  remove_mmfs : W → Int → W
  /-- The 32-bit word stored at a user address. -/
  user_word : W → Nat → Nat
  store_byte : W → Nat → Nat → W
  /-- The caller's `child_load_success`, which the child thread writes. -/
  child_load_success : W → Int
  set_child_load_success : W → Int → W
  cond_wait : W → W
  process_execute : W → Nat → W × Int
  process_wait : W → Int → W × Int
  filesys_create : W → Nat → Nat → W × Bool
  filesys_remove : W → Nat → W × Bool
  filesys_open : W → Nat → W × Nat
  /-- Whether `calloc` hands out memory. -/
  calloc : W → W × Bool
  file_length : W → Nat → Int
  file_read : W → Nat → Nat → Nat → W × Int
  file_write : W → Nat → Nat → Nat → W × Int
  file_seek : W → Nat → Nat → W
  file_tell : W → Nat → Int
  file_close : W → Nat → W
  file_reopen : W → Nat → W × Nat
  input_getc : W → W × Nat
  putbuf : W → Nat → Nat → W
  /-- The `int` that `list_entry` reads as `fd_num` when applied to the tail
  sentinel of `open_file_list`. -/
  tail_fd_num : W → Int

/-- State of the system-call layer. -/
structure Kernel (W : Type) where
  /-- State of the collaborators. -/
  world : W
  /-- Calls made so far, oldest first. -/
  trace : List Event
  /-- The static `esp` of `syscall.c`. -/
  esp : Nat
  /-- The trap frame `f` handed to `syscall_handler`. -/
  intr : intr_frame
  /-- The list `open_file_list`, head first. -/
  open_file_list : List file_descriptor
  /-- The static `fd_current` of `fd_allocation`. -/
  fd_current : Int
  /-- The running thread, `thread_current ()`. -/
  cur : thread
  /-- The other live threads. -/
  threads : List thread

/-- How a piece of kernel code ends. -/
inductive Res (W : Type) (α : Type) where
  /-- It returns a value. -/
  | ret (a : α) (k : Kernel W)
  /-- It reached `thread_exit`: the calling process is gone. -/
  | exited (k : Kernel W)
  /-- It reached `shutdown_power_off` or a failed kernel assertion. -/
  | halted (k : Kernel W)
  /-- It reached behaviour that C leaves undefined. -/
  | undefined (k : Kernel W)
  /-- The iteration budget of a loop ran out. -/
  | out_of_fuel (k : Kernel W)

/-- Kernel code returning an `α`. -/
def K (W : Type) (α : Type) : Type := Kernel W → Res W α

/-- Sequencing: what follows runs only if the first part returns. -/
def K.bind {W α β : Type} (m : K W α) (f : α → K W β) : K W β := fun k =>
  match m k with
  | .ret a k1 => f a k1
  | .exited k1 => .exited k1
  | .halted k1 => .halted k1
  | .undefined k1 => .undefined k1
  | .out_of_fuel k1 => .out_of_fuel k1

def K.pure {W α : Type} (a : α) : K W α := fun k => .ret a k

instance K.instMonad (W : Type) : Monad (K W) where
  pure := K.pure
  bind := K.bind

/-- The final state of a run, however it ended. -/
def Res.state {W α : Type} : Res W α → Kernel W
  | .ret _ k => k
  | .exited k => k
  | .halted k => k
  | .undefined k => k
  | .out_of_fuel k => k

/-- A call that returns nothing and leaves the world as it is. -/
def emit {W : Type} (e : Event) : K W Unit := fun k =>
  .ret () { k with trace := k.trace ++ [e] }

/-- A call that reads the world. -/
def query {W α : Type} (e : Event) (q : W → α) : K W α := fun k =>
  .ret (q k.world) { k with trace := k.trace ++ [e] }

/-- A call that changes the world and returns a value. -/
def command {W α : Type} (e : Event) (c : W → W × α) : K W α := fun k =>
  .ret (c k.world).2 { k with world := (c k.world).1, trace := k.trace ++ [e] }

/-- A call that changes the world and returns nothing. -/
def effect {W : Type} (e : Event) (c : W → W) : K W Unit := fun k =>
  .ret () { k with world := c k.world, trace := k.trace ++ [e] }

def get_state {W : Type} : K W (Kernel W) := fun k => .ret k k

def thread_exit {W : Type} : K W Unit := fun k =>
  .exited { k with trace := k.trace ++ [Event.thread_exit] }

def shutdown_power_off {W : Type} : K W Unit := fun k =>
  .halted { k with trace := k.trace ++ [Event.shutdown_power_off] }

/-- A failed `ASSERT`: the kernel panics. -/
def kernel_panic {W α : Type} : K W α := fun k =>
  .halted { k with trace := k.trace ++ [Event.panic] }

def undefined_behaviour {W α : Type} : K W α := fun k => .undefined k

def out_of_fuel {W α : Type} : K W α := fun k => .out_of_fuel k

def pagedir_get_page {W : Type} (x : Collab W) (uaddr : Nat) : K W Nat :=
  query (.pagedir_get_page uaddr) (fun w => x.pagedir_get_page w uaddr)

def find_supple_entry {W : Type} (x : Collab W) (uvaddr : Nat) :
    K W (Option supple_page_table_entry) :=
  query (.find_supple_entry uvaddr) (fun w => x.find_supple_entry w uvaddr)

def load_data {W : Type} (x : Collab W) (e : supple_page_table_entry) : K W Unit :=
  effect (.load_data e) (fun w => x.load_data w e)

def increase_stack {W : Type} (x : Collab W) (uaddr : Nat) : K W Unit :=
  effect (.increase_stack uaddr) (fun w => x.increase_stack w uaddr)

def lock_acquire {W : Type} (l : Lock) : K W Unit := emit (.lock_acquire l)

def lock_release {W : Type} (l : Lock) : K W Unit := emit (.lock_release l)

/-! ## syscall.c -/

/-- Modelled from the spec: `get_thread` is not among the sources; the position
in the thread list of the live thread with the given tid, if there is one. -/
def get_thread (ts : List thread) (tid : Int) : Option Nat :=
  ts.findIdx? (fun t => decide (t.tid = tid))

/-- The line `printf ("%s: exit(%d)\n", name, status)` prints. -/
def exit_line (name : String) (status : Int) : String :=
  name ++ ": exit(" ++ toString status ++ ")\n"

/-- The loop of `exit` over the parent's children, given from the tail towards
the head: the children as they are left, and the lock calls made. -/
def exit_loop (parent cur_tid status : Int) : List child → List child × List Event
  | [] => ([], [])
  | c :: rest =>
    if c.cid = cur_tid then
      ({ c with exit_call := true, exit_status := status } :: (exit_loop parent cur_tid status rest).1,
        [Event.lock_acquire (.child_lock parent), Event.lock_release (.child_lock parent)]
          ++ (exit_loop parent cur_tid status rest).2)
    else
      (c :: (exit_loop parent cur_tid status rest).1, (exit_loop parent cur_tid status rest).2)

/-- The state in which `exit (status)` calls `thread_exit`. -/
def exit_record {W : Type} (status : Int) (k : Kernel W) : Kernel W :=
  let k1 := { k with trace := k.trace ++ [Event.printf (exit_line k.cur.name status)] }
  match get_thread k1.threads k1.cur.pid with
  | none => k1
  | some i =>
    match k1.threads.get? i with
    | none => k1
    | some parent =>
      let r := exit_loop parent.tid k1.cur.tid status parent.children.reverse
      { k1 with
        threads := k1.threads.set i { parent with children := r.1.reverse },
        trace := k1.trace ++ r.2 }

/-- The function `exit` (lines 117-143). -/
def exit {W : Type} (status : Int) : K W Unit := fun k =>
  thread_exit (exit_record status k)

/-- The state in which `exit (status)` leaves the kernel. -/
def exit_state {W : Type} (status : Int) (k : Kernel W) : Kernel W :=
  { exit_record status k with trace := (exit_record status k).trace ++ [Event.thread_exit] }

/-- The address is non-null, in user space and mapped in the caller's page directory. -/
def mapped_user {W : Type} (x : Collab W) (w : W) (p : Nat) : Prop :=
  p ≠ 0 ∧ is_user_vaddr p = true ∧ x.pagedir_get_page w p ≠ 0

instance {W : Type} (x : Collab W) (w : W) (p : Nat) : Decidable (mapped_user x w p) := by
  unfold mapped_user; infer_instance

/-- The function `is_valid_pointer` (lines 390-399). -/
def is_valid_pointer {W : Type} (x : Collab W) (pointer : Nat) : K W Bool :=
  if pointer ≠ 0 && is_user_vaddr pointer then do
    let page ← pagedir_get_page x pointer
    pure (decide (page ≠ 0))
  else
    pure false

/-- The function `is_valid_vaddr` (lines 400-404). -/
def is_valid_vaddr (pointer : Nat) : Bool :=
  pointer ≠ 0 && is_user_vaddr pointer

/-- The function `halt` (lines 112-115). -/
def halt {W : Type} : K W Unit := shutdown_power_off

/-- The loop `while (cur->child_load_success == 0) cond_wait (...)` of `exec`. -/
def exec_wait {W : Type} (x : Collab W) (l : Lock) : Nat → K W Unit
  | 0 => fun k => if x.child_load_success k.world = 0 then .out_of_fuel k else .ret () k
  | fuel + 1 => fun k =>
    if x.child_load_success k.world = 0 then
      ((effect (.cond_wait l) x.cond_wait).bind (fun _ => exec_wait x l fuel)) k
    else .ret () k

/-- The function `exec` (lines 145-164); `fuel` bounds the number of wake-ups
of the wait loop. -/
def exec {W : Type} (x : Collab W) (fuel : Nat) (cmd_line : Nat) : K W Int := do
  let ok ← is_valid_pointer x cmd_line
  if !ok then exit (-1)
  effect (.set_child_load_success 0) (fun w => x.set_child_load_success w 0)
  let tid ← command (.process_execute cmd_line) (fun w => x.process_execute w cmd_line)
  let k ← get_state
  lock_acquire (.child_lock k.cur.tid)
  exec_wait x (.child_lock k.cur.tid) fuel
  let k2 ← get_state
  let tid2 := if x.child_load_success k2.world = -1 then -1 else tid
  lock_release (.child_lock k.cur.tid)
  pure tid2

/-- The function `wait` (lines 166-169). -/
def wait {W : Type} (x : Collab W) (pid : Int) : K W Int :=
  command (.process_wait pid) (fun w => x.process_wait w pid)

/-- The function `create` (lines 171-181). -/
def create {W : Type} (x : Collab W) (file initial_size : Nat) : K W Bool := do
  let ok ← is_valid_pointer x file
  if !ok then exit (-1)
  lock_acquire .fileLock
  let status ← command (.filesys_create file initial_size)
    (fun w => x.filesys_create w file initial_size)
  lock_release .fileLock
  pure status

/-- The function `remove` (lines 183-193). -/
def remove {W : Type} (x : Collab W) (file : Nat) : K W Bool := do
  let ok ← is_valid_pointer x file
  if !ok then exit (-1)
  lock_acquire .fileLock
  let status ← command (.filesys_remove file) (fun w => x.filesys_remove w file)
  lock_release .fileLock
  pure status

/-- The function `fd_allocation` (lines 406-410); incrementing `INT_MAX` is
undefined. -/
def fd_allocation {W : Type} : K W Int := fun k =>
  if k.fd_current + 1 ≤ INT_MAX then
    .ret (k.fd_current + 1) { k with fd_current := k.fd_current + 1 }
  else .undefined k

/-- The call `list_push_back (&open_file_list, &fd->file_elem)`. -/
def push_open_file {W : Type} (d : file_descriptor) : K W Unit := fun k =>
  .ret () { k with open_file_list := k.open_file_list ++ [d] }

/-- The function `open` (lines 195-217); a `calloc` that returns `NULL` is
dereferenced. -/
def «open» {W : Type} (x : Collab W) (file : Nat) : K W Int := do
  let ok ← is_valid_pointer x file
  if !ok then exit (-1)
  lock_acquire .fileLock
  let f ← command (.filesys_open file) (fun w => x.filesys_open w file)
  let status ←
    if f ≠ 0 then do
      let got ← command .calloc x.calloc
      if !got then undefined_behaviour
      let n ← fd_allocation
      let k ← get_state
      push_open_file { fd_num := n, file_owner := k.cur.tid, file := f }
      pure n
    else pure (-1)
  lock_release .fileLock
  pure status

/-- The function `get_current_file` (lines 412-424): the list is searched from
its tail towards its head. -/
def get_current_file (fd : Int) (l : List file_descriptor) : Option file_descriptor :=
  l.reverse.find? (fun d => decide (d.fd_num = fd))

/-- The function `filesize` (lines 220-232). -/
def filesize {W : Type} (x : Collab W) (fd : Int) : K W Int := do
  lock_acquire .fileLock
  let k ← get_state
  let status ←
    match get_current_file fd k.open_file_list with
    | some d => query (.file_length d.file) (fun w => x.file_length w d.file)
    | none => pure (-1)
  lock_release .fileLock
  pure status

/-- The body of one pass of the validation loop of `read` (lines 245-258). -/
def read_probe {W : Type} (x : Collab W) (buffer_ptr : Nat) : K W Unit := do
  if !is_valid_vaddr buffer_ptr then exit (-1)
  let page ← pagedir_get_page x buffer_ptr
  if page = 0 then do
    let entry ← find_supple_entry x (pg_round_down buffer_ptr)
    let k ← get_state
    match entry with
    | some e => if !e.is_loaded then load_data x e else exit (-1)
    | none =>
      if ptr_sub k.esp (32 * 4) ≤ buffer_ptr then increase_stack x buffer_ptr else exit (-1)

/-- The validation loop of `read` (lines 243-274), with the loop variables
`size_of_buffer` and `buffer_ptr`. -/
def read_loop {W : Type} (x : Collab W) (buffer size : Nat) : Nat → Nat → Nat → K W Unit
  | 0, _, buffer_ptr => if buffer_ptr = 0 then pure () else out_of_fuel
  | fuel + 1, size_of_buffer, buffer_ptr =>
    if buffer_ptr = 0 then pure ()
    else do
      read_probe x buffer_ptr
      if size_of_buffer = 0 then
        read_loop x buffer size fuel size_of_buffer 0
      else if PGSIZE ≤ size_of_buffer then
        read_loop x buffer size fuel (size_of_buffer - PGSIZE) (ptr_add buffer_ptr PGSIZE)
      else
        read_loop x buffer size fuel 0 (ptr_sub (ptr_add buffer size) 1)

/-- The keyboard loop of `read` (lines 285-290), with the loop variables
`counter` and `buffer`; `buf` is never advanced. Returns the final `counter`. -/
def read_stdin_loop {W : Type} (x : Collab W) (buf : Nat) : Nat → Nat → Nat → K W Nat
  | 0, counter, _ => if 1 < counter then out_of_fuel else pure counter
  | fuel + 1, counter, buffer =>
    if 1 < counter then do
      let c ← command .input_getc x.input_getc
      if c % 256 ≠ 0 then do
        effect (.store_byte buf (c % 256)) (fun w => x.store_byte w buf (c % 256))
        read_stdin_loop x buf fuel (counter - 1) (ptr_add buffer 1)
      else pure counter
    else pure counter

/-- The part of `read` that follows the validation loop (lines 275-302). -/
def read_transfer {W : Type} (x : Collab W) (fd : Int) (buffer size : Nat) : K W Int := do
  lock_acquire .fileLock
  let status ←
    if fd = STDOUT_FILENO then pure (-1)
    else if fd = STDIN_FILENO then do
      let counter ← read_stdin_loop x buffer size size buffer
      effect (.store_byte buffer 0) (fun w => x.store_byte w buffer 0)
      pure (to_int32 (ptr_sub size counter))
    else do
      let k ← get_state
      match get_current_file fd k.open_file_list with
      | some d =>
        command (.file_read d.file buffer size) (fun w => x.file_read w d.file buffer size)
      | none => pure 0
  lock_release .fileLock
  pure status

/-- The function `read` (lines 234-303). -/
def read {W : Type} (x : Collab W) (fd : Int) (buffer size : Nat) : K W Int := do
  read_loop x buffer size (size / PGSIZE + 3) size buffer
  read_transfer x fd buffer size

/-- The validation loop of `write` (lines 312-331). -/
def write_loop {W : Type} (x : Collab W) (buffer size : Nat) : Nat → Nat → Nat → K W Unit
  | 0, _, buffer_ptr => if buffer_ptr = 0 then pure () else out_of_fuel
  | fuel + 1, size_of_buffer, buffer_ptr =>
    if buffer_ptr = 0 then pure ()
    else do
      let ok ← is_valid_pointer x buffer_ptr
      if !ok then exit (-1)
      if PGSIZE < size_of_buffer then
        write_loop x buffer size fuel (size_of_buffer - PGSIZE) (ptr_add buffer_ptr PGSIZE)
      else if size_of_buffer = 0 then
        write_loop x buffer size fuel size_of_buffer 0
      else
        write_loop x buffer size fuel 0 (ptr_sub (ptr_add buffer size) 1)

/-- The part of `write` that follows the validation loop (lines 332-351). -/
def write_transfer {W : Type} (x : Collab W) (fd : Int) (buffer size : Nat) : K W Int := do
  lock_acquire .fileLock
  let status ←
    if fd = STDIN_FILENO then pure (-1)
    else if fd = STDOUT_FILENO then do
      effect (.putbuf buffer size) (fun w => x.putbuf w buffer size)
      pure (to_int32 size)
    else do
      let k ← get_state
      match get_current_file fd k.open_file_list with
      | some d =>
        command (.file_write d.file buffer size) (fun w => x.file_write w d.file buffer size)
      | none => pure 0
  lock_release .fileLock
  pure status

/-- The function `write` (lines 306-352). -/
def write {W : Type} (x : Collab W) (fd : Int) (buffer size : Nat) : K W Int := do
  write_loop x buffer size (size / PGSIZE + 3) size buffer
  write_transfer x fd buffer size

/-- The function `seek` (lines 354-363). -/
def seek {W : Type} (x : Collab W) (fd : Int) (position : Nat) : K W Unit := do
  lock_acquire .fileLock
  let k ← get_state
  match get_current_file fd k.open_file_list with
  | some d => effect (.file_seek d.file position) (fun w => x.file_seek w d.file position)
  | none => pure ()
  lock_release .fileLock

/-- The function `tell` (lines 365-375). -/
def tell {W : Type} (x : Collab W) (fd : Int) : K W Nat := do
  lock_acquire .fileLock
  let k ← get_state
  let status ←
    match get_current_file fd k.open_file_list with
    | some d => query (.file_tell d.file) (fun w => x.file_tell w d.file)
    | none => pure 0
  lock_release .fileLock
  pure (of_int32 status)

/-- The search of `close_current_file` among the records, given from the tail
towards the head: the record unlinked, if any, and the records that stay. -/
def close_scan (fd : Int) : List file_descriptor → Option file_descriptor × List file_descriptor
  | [] => (none, [])
  | d :: rest =>
    if d.fd_num = fd then (some d, rest)
    else ((close_scan fd rest).1, d :: (close_scan fd rest).2)

/-- The function `close_current_file` (lines 426-446). The scan starts at
`list_end`, the tail sentinel, so the first `fd_num` compared is not that of a
record; `list_remove` of the sentinel fails its assertion. -/
def close_current_file {W : Type} (x : Collab W) (fd : Int) : K W Unit := do
  let k ← get_state
  if x.tail_fd_num k.world = fd then kernel_panic
  else
    match close_scan fd k.open_file_list.reverse with
    | (some d, rest) =>
      (fun k1 => (effect (.file_close d.file) (fun w => x.file_close w d.file))
        { k1 with open_file_list := rest.reverse })
    | (none, _) => pure ()

/-- The function `close` (lines 377-388). -/
def close {W : Type} (x : Collab W) (fd : Int) : K W Unit := do
  lock_acquire .fileLock
  let k ← get_state
  match get_current_file fd k.open_file_list with
  | some d => if d.file_owner = k.cur.tid then close_current_file x fd else pure ()
  | none => pure ()
  lock_release .fileLock

/-- The loop of `mmap` (lines 469-477) with the loop variable `ofs`: `true`
when the loop runs to its end, `false` when it returns `fail`. -/
def mmap_loop {W : Type} (x : Collab W) (address : Nat) (length : Int) : Nat → Int → K W Bool
  | 0, ofs => if ofs < length then out_of_fuel else pure true
  | fuel + 1, ofs =>
    if ofs < length then do
      let entry ← find_supple_entry x (ptr_add address ofs.toNat)
      if entry.isSome then pure false
      else do
        let page ← pagedir_get_page x (ptr_add address ofs.toNat)
        if page ≠ 0 then pure false
        else if INT_MAX < ofs + PGSIZE then undefined_behaviour
        else mmap_loop x address length fuel (ofs + PGSIZE)
    else pure true

/-- The function `mmap` (lines 448-486). -/
def mmap {W : Type} (x : Collab W) (file_desc : Int) (address : Nat) : K W Int := do
  if address = 0 || pg_ofs address ≠ 0 || address = 0 then pure (-1)
  else if file_desc = 0 || file_desc = 1 then pure (-1)
  else do
    let k ← get_state
    match get_current_file file_desc k.open_file_list with
    | none => pure (-1)
    | some fd => do
      let length ← query (.file_length fd.file) (fun w => x.file_length w fd.file)
      if length ≤ 0 then pure (-1)
      else do
        let free ← mmap_loop x address length (length / PGSIZE + 1).toNat 0
        if !free then pure (-1)
        else do
          lock_acquire .fileLock
          let f ← command (.file_reopen fd.file) (fun w => x.file_reopen w fd.file)
          lock_release .fileLock
          if f = 0 then pure (-1)
          else command (.add_mmf address f length) (fun w => x.add_mmf w address f length)

/-- The function `munmap` (lines 487-490). -/
def munmap {W : Type} (x : Collab W) (map : Int) : K W Unit :=
  effect (.remove_mmfs map) (fun w => x.remove_mmfs w map)

/-- The assignment `esp = f->esp`. -/
def capture_esp {W : Type} : K W Unit := fun k => .ret () { k with esp := k.intr.esp }

/-- The assignment `f->eax = v`. -/
def set_eax {W : Type} (v : Nat) : K W Unit := fun k =>
  .ret () { k with intr := { k.intr with eax := v } }

/-- The word `*(esp + n)`. -/
def arg {W : Type} (x : Collab W) (n : Nat) : K W Nat := fun k =>
  .ret (x.user_word k.world (ptr_add k.esp (4 * n))) k

/-- The condition of line 51-52, evaluated left to right. -/
def args_valid {W : Type} (x : Collab W) : K W Bool := do
  let k ← get_state
  let v0 ← is_valid_pointer x k.esp
  if !v0 then pure false
  else do
    let v1 ← is_valid_pointer x (ptr_add k.esp 4)
    if !v1 then pure false
    else do
      let v2 ← is_valid_pointer x (ptr_add k.esp 8)
      if !v2 then pure false
      else is_valid_pointer x (ptr_add k.esp 12)

/-- The `switch` of `syscall_handler` (lines 58-108). -/
def syscall_switch {W : Type} (x : Collab W) (fuel : Nat) : K W Unit := do
  let syscall_number := to_int32 (← arg x 0)
  if syscall_number = SYS_HALT then halt
  else if syscall_number = SYS_EXIT then exit (to_int32 (← arg x 1))
  else if syscall_number = SYS_EXEC then do
    let r ← exec x fuel (← arg x 1)
    set_eax (of_int32 r)
  else if syscall_number = SYS_WAIT then do
    let r ← wait x (to_int32 (← arg x 1))
    set_eax (of_int32 r)
  else if syscall_number = SYS_CREATE then do
    let r ← create x (← arg x 1) (← arg x 2)
    set_eax (if r then 1 else 0)
  else if syscall_number = SYS_REMOVE then do
    let r ← remove x (← arg x 1)
    set_eax (if r then 1 else 0)
  else if syscall_number = SYS_OPEN then do
    let r ← «open» x (← arg x 1)
    set_eax (of_int32 r)
  else if syscall_number = SYS_FILESIZE then do
    let r ← filesize x (to_int32 (← arg x 1))
    set_eax (of_int32 r)
  else if syscall_number = SYS_READ then do
    let r ← read x (to_int32 (← arg x 1)) (← arg x 2) (← arg x 3)
    set_eax (of_int32 r)
  else if syscall_number = SYS_WRITE then do
    let r ← write x (to_int32 (← arg x 1)) (← arg x 2) (← arg x 3)
    set_eax (of_int32 r)
  else if syscall_number = SYS_SEEK then
    seek x (to_int32 (← arg x 1)) (← arg x 2)
  else if syscall_number = SYS_TELL then do
    let r ← tell x (to_int32 (← arg x 1))
    set_eax r
  else if syscall_number = SYS_CLOSE then
    close x (to_int32 (← arg x 1))
  else if syscall_number = SYS_MMAP then do
    let r ← mmap x (to_int32 (← arg x 1)) (← arg x 2)
    set_eax (of_int32 r)
  else if syscall_number = SYS_MUNMAP then
    munmap x (to_int32 (← arg x 1))
  else pure ()

/-- The function `syscall_handler` (lines 46-110), acting on the trap frame
`Kernel.intr`. -/
def syscall_handler {W : Type} (x : Collab W) (fuel : Nat) : K W Unit := do
  capture_esp
  let ok ← args_valid x
  if !ok then exit (-1)
  else syscall_switch x fuel

/-! ## frame.c -/

/-- Modelled from the spec: `PAL_ZERO` of `threads/palloc.h`, "zero page contents". -/
def PAL_ZERO : Nat := 2

/-- Modelled from the spec: `PAL_USER` of `threads/palloc.h`, "user page". -/
def PAL_USER : Nat := 4

/-- One record of the frame table (`struct frame`). -/
structure frame where
  thread : Int
  frame : Nat
  page_table_entry : Nat
  uvpaddr : Nat
deriving DecidableEq, Repr

/-- Calls of `frame.c` to the physical page allocator; `get_page` with the
page it answered, `0` for `NULL`. -/
inductive palloc_call where
  | get_page (flags : Nat) (page : Nat)
  | free_page (page : Nat)
deriving DecidableEq, Repr

/-- State of `frame.c`: the list `frames`, head first, and the calls made to
the page allocator, oldest first. -/
structure vm_state where
  frames : List frame
  palloc : List palloc_call
deriving DecidableEq, Repr

/-- The pages the allocator has handed out and not got back, after the given calls. -/
def checked_out_after : List palloc_call → List Nat → List Nat
  | [], acc => acc
  | .get_page _ page :: rest, acc =>
    checked_out_after rest (if page = 0 then acc else page :: acc)
  | .free_page page :: rest, acc => checked_out_after rest (acc.filter (fun q => q ≠ page))

/-- The pages currently checked out of the allocator. -/
def checked_out (s : vm_state) : List Nat := checked_out_after s.palloc []

/-- The function `init_vm_frame` (lines 21-26). -/
def init_vm_frame (s : vm_state) : vm_state := { s with frames := [] }

/-- The function `insert_frame` (lines 70-87); `calloc_ok` tells whether
`calloc` hands out memory, `tid` is `thread_current ()->tid`. -/
def insert_frame (tid : Int) (calloc_ok : Bool) (frame : Nat) (s : vm_state) :
    Bool × vm_state :=
  if !calloc_ok then (false, s)
  else (true, { s with frames := s.frames ++
    [{ thread := tid, frame := frame, page_table_entry := 0, uvpaddr := 0 }] })

/-- The loop of `delete_frame` over the records from the head. -/
def delete_frame_loop (frame : Nat) : List Pintos.frame → List Pintos.frame
  | [] => []
  | r :: rest => if r.frame = frame then rest else r :: delete_frame_loop frame rest

/-- The function `delete_frame` (lines 88-106). -/
def delete_frame (frame : Nat) (s : vm_state) : vm_state :=
  { s with frames := delete_frame_loop frame s.frames }

/-- A value of type `struct frame *`. -/
inductive frame_ptr where
  /-- `NULL`. -/
  | null
  /-- The record at a position of the frame table. -/
  | record (i : Nat)
  /-- The value of a local variable that was never assigned. -/
  | indeterminate (v : Nat)
deriving DecidableEq, Repr

/-- The loop of `get_frame` over the records from the head, with the loop
variable `vm_frame` and the position reached. -/
def get_frame_loop (frame : Nat) : frame_ptr → Nat → List Pintos.frame → frame_ptr
  | vm_frame, _, [] => vm_frame
  | _, i, r :: rest =>
    if r.frame = frame then .record i else get_frame_loop frame .null (i + 1) rest

/-- The function `get_frame` (lines 107-124); `junk` is what the local
`vm_frame` holds before its first assignment. -/
def get_frame (junk : Nat) (frame : Nat) (s : vm_state) : frame_ptr :=
  get_frame_loop frame (.indeterminate junk) 0 s.frames

/-- How a call of `allocate_frame` ends. -/
inductive alloc_result where
  | returned (frame : Nat) (s : vm_state)
  /-- `PANIC ("NO FRAME")`. -/
  | panic (s : vm_state)
deriving DecidableEq, Repr

/-- The call `palloc_get_page (flags)` answering `page`. -/
def palloc_get_page (flags page : Nat) (s : vm_state) : vm_state :=
  { s with palloc := s.palloc ++ [.get_page flags page] }

/-- The function `allocate_frame` (lines 27-48); `page` is what
`palloc_get_page` answers if it is called. -/
def allocate_frame (tid : Int) (page : Nat) (calloc_ok : Bool) (pflags : Nat)
    (s : vm_state) : alloc_result :=
  let r : Nat × vm_state :=
    if pflags &&& PAL_USER ≠ 0 then
      if pflags &&& PAL_ZERO ≠ 0 then (page, palloc_get_page (PAL_USER ||| PAL_ZERO) page s)
      else (page, palloc_get_page PAL_USER page s)
    else (0, s)
  if r.1 ≠ 0 then .returned r.1 (insert_frame tid calloc_ok r.1 r.2).2
  else .panic r.2

/-- The function `free_vm_frame` (lines 49-57). -/
def free_vm_frame (frame : Nat) (s : vm_state) : vm_state :=
  let s1 := delete_frame frame s
  { s1 with palloc := s1.palloc ++ [.free_page frame] }

/-- The function `set_frame_usr` (lines 58-67); `none` when the stores go
through a pointer that was never assigned. -/
def set_frame_usr (junk : Nat) (frame page_table_entry paddr : Nat) (s : vm_state) :
    Option vm_state :=
  match get_frame junk frame s with
  | .null => some s
  | .record i =>
    let bind_record : Pintos.frame → Pintos.frame :=
      fun r => { r with page_table_entry := page_table_entry, uvpaddr := paddr }
    some { s with frames := s.frames.modify bind_record i }
  | .indeterminate v => if v = 0 then some s else none

/-! ## A small concrete world -/

/-- A world that knows which pages are resident, which pages have a
supplemental entry, and what the keyboard will deliver. -/
structure Demo where
  resident : List Nat
  entries : List Nat
  keys : List Nat
deriving DecidableEq, Repr

/-- The page starts of a mapping of `length` bytes at `address`. -/
def demo_pages (address : Nat) (length : Int) : List Nat :=
  (List.range ((length.toNat + PGSIZE - 1) / PGSIZE)).map (fun i => ptr_add address (i * PGSIZE))

/-- Collaborators over `Demo`: every file is 5000 bytes long, file handles are
never `NULL`, mappings get the identifier 7. -/
def demo : Collab Demo where
  pagedir_get_page w a := if a / PGSIZE ∈ w.resident then PHYS_BASE + a % PGSIZE else 0
  find_supple_entry w a := if a ∈ w.entries then some { uvaddr := a, is_loaded := false } else none
  load_data w e := { w with resident := e.uvaddr / PGSIZE :: w.resident }
  increase_stack w a := { w with resident := a / PGSIZE :: w.resident }
  add_mmf w address _ length := ({ w with entries := demo_pages address length ++ w.entries }, 7)
  remove_mmfs w _ := w
  user_word _ _ := 0
  store_byte w _ _ := w
  child_load_success _ := 1
  set_child_load_success w _ := w
  cond_wait w := w
  process_execute w _ := (w, 3)
  process_wait w _ := (w, 0)
  filesys_create w _ _ := (w, true)
  filesys_remove w _ := (w, true)
  filesys_open w _ := (w, 100)
  calloc w := (w, true)
  file_length _ _ := 5000
  file_read w _ _ size := (w, size)
  file_write w _ _ size := (w, size)
  file_seek w _ _ := w
  file_tell _ _ := 0
  file_close w _ := w
  file_reopen w f := (w, f + 1)
  input_getc w := ({ w with keys := w.keys.tail }, w.keys.headD 0)
  putbuf w _ _ := w
  tail_fd_num _ := -1

/-- A kernel state over `Demo`: thread 2 "child" with parent 1 "main", stack
pointer `esp`, no open file. -/
def demo_kernel (w : Demo) (esp : Nat) : Kernel Demo where
  world := w
  trace := []
  esp := esp
  intr := { esp := esp, eax := 0 }
  open_file_list := []
  fd_current := 1
  cur := { tid := 2, pid := 1, name := "child", children := [] }
  threads := [⟨1, 0, "main", [⟨2, false, 0⟩]⟩]

/-- The four argument words at `esp`, `esp + 1`, `esp + 2`, `esp + 3` all pass
`is_valid_pointer`. -/
def four_args_mapped {W : Type} (x : Collab W) (w : W) (esp : Nat) : Prop :=
  mapped_user x w esp ∧ mapped_user x w (ptr_add esp 4) ∧
  mapped_user x w (ptr_add esp 8) ∧ mapped_user x w (ptr_add esp 12)

instance {W : Type} (x : Collab W) (w : W) (esp : Nat) : Decidable (four_args_mapped x w esp) := by
  unfold four_args_mapped; infer_instance

/-- The calls by which `read` and `write` take the file-table lock or move
bytes: `lock_acquire (&fileLock)`, keyboard input, stores to the buffer, file
reads and writes, console output. -/
def Event.is_transfer : Event → Bool
  | .lock_acquire .fileLock => true
  | .input_getc => true
  | .store_byte _ _ => true
  | .file_read _ _ _ => true
  | .file_write _ _ _ => true
  | .putbuf _ _ => true
  | _ => false

/-- The lowest address for which `read` grows the stack: `esp - 32` on a
`uint32_t *`, 128 bytes below the recorded stack pointer. -/
def stack_window_low (esp : Nat) : Nat := ptr_sub esp (32 * 4)

/-- In world `w` a pass of `read`'s loop at `a` goes on to the next pass: `a`
is a non-null user address and its page is resident, or has a supplemental
entry that is not loaded, or has no entry and `a` is not below the window
under `esp`. -/
def read_probe_passes {W : Type} (x : Collab W) (w : W) (esp a : Nat) : Prop :=
  a ≠ 0 ∧ is_user_vaddr a = true ∧
  (x.pagedir_get_page w a ≠ 0 ∨
    (∃ e, x.find_supple_entry w (pg_round_down a) = some e ∧ e.is_loaded = false) ∨
    (x.find_supple_entry w (pg_round_down a) = none ∧ stack_window_low esp ≤ a))

/-- Among the calls `evs` there is a page-directory look-up of an address in
the page of `a`, made in a world in which `ok` held of that address. -/
def probed {W : Type} (ok : W → Nat → Prop) (evs : List Event) (a : Nat) : Prop :=
  ∃ b w, Event.pagedir_get_page b ∈ evs ∧ b / PGSIZE = a / PGSIZE ∧ ok w b

/-- Whether a run returned. -/
def Res.is_ret {W α : Type} : Res W α → Bool
  | .ret _ _ => true
  | _ => false

/-- Whether a run ended in `thread_exit`. -/
def Res.is_exited {W α : Type} : Res W α → Bool
  | .exited _ => true
  | _ => false

/-- A kernel state over `Demo` in which nothing is resident and nothing has a
supplemental entry, with the stack pointer at `0xB0000000`. -/
def bare_kernel : Kernel Demo := demo_kernel { resident := [], entries := [], keys := [] } 0xB0000000

/-- What a validation loop started in state `k` at address `lo` with `n` bytes
to go has done when it ends as `r`: either the process ended in `thread_exit`,
or the loop returned after a passing look-up in the page of `lo` and in the
page of every byte of `[lo, lo + n)`, each made in a world satisfying `inv`;
in both cases without taking the file-table lock or moving a byte, and never
by running out of fuel. -/
def validation_outcome {W : Type} (inv : W → Prop) (ok : W → Nat → Prop) (k : Kernel W)
    (lo n : Nat) (r : Res W Unit) : Prop :=
  (∃ k1 evs, r = .exited k1 ∧ k1.trace = k.trace ++ evs ∧
    ∀ e ∈ evs, e.is_transfer = false) ∨
  (∃ k1 evs, r = .ret () k1 ∧ k1.trace = k.trace ++ evs ∧ k1.esp = k.esp ∧
    k1.open_file_list = k.open_file_list ∧ inv k1.world ∧
    (∀ e ∈ evs, e.is_transfer = false) ∧
    probed (fun w b => inv w ∧ ok w b) evs lo ∧
    ∀ i, i < n → probed (fun w b => inv w ∧ ok w b) evs (lo + i))

/-- The property `inv` of worlds survives every `load_data` and
`increase_stack` that a passing look-up of `read`'s loop can make. -/
def kept_by_read_probe {W : Type} (x : Collab W) (esp : Nat) (inv : W → Prop) : Prop :=
  (∀ w a e, inv w → x.pagedir_get_page w a = 0 →
    x.find_supple_entry w (pg_round_down a) = some e → e.is_loaded = false →
    inv (x.load_data w e)) ∧
  (∀ w a, inv w → x.pagedir_get_page w a = 0 →
    x.find_supple_entry w (pg_round_down a) = none → stack_window_low esp ≤ a →
    inv (x.increase_stack w a))

/-- A kernel state over `Demo` in which the page at `0xB0000000` and the stack
page under `PHYS_BASE` are resident and nothing has a supplemental entry, with
the stack pointer at `0xBFFFF000`. -/
def two_page_kernel : Kernel Demo :=
  demo_kernel { resident := [0xB0000, 0xBFFFF], entries := [], keys := [] } 0xBFFFF000

/-- In the world the page at `0xB0001000` is neither resident nor known to the
supplemental page table. -/
def second_page_unmapped (w : Demo) : Prop :=
  0xB0001 ∉ w.resident ∧ 0xB0001000 ∉ w.entries

/-- In world `w` the page at `p` already has a supplemental entry or a
resident mapping. -/
def occupied {W : Type} (x : Collab W) (w : W) (p : Nat) : Prop :=
  x.find_supple_entry w p ≠ none ∨ x.pagedir_get_page w p ≠ 0

/-- The look-ups the loop of `mmap` makes. -/
def Event.is_lookup : Event → Bool
  | .find_supple_entry _ => true
  | .pagedir_get_page _ => true
  | _ => false

/-- A mapping that `add_mmf` reports as made has a supplemental entry for every
page of its range. -/
def installs_entries {W : Type} (x : Collab W) : Prop :=
  ∀ (w : W) (address f : Nat) (length : Int), (x.add_mmf w address f length).2 ≠ -1 →
    ∀ m : Nat, ((m * PGSIZE : Nat) : Int) < length →
      x.find_supple_entry (x.add_mmf w address f length).1 (ptr_add address (m * PGSIZE)) ≠ none

/-- Every supplemental entry of world `w` is still there in world `v`: nothing
was unmapped in between. -/
def entries_persist {W : Type} (x : Collab W) (w v : W) : Prop :=
  ∀ p, x.find_supple_entry w p ≠ none → x.find_supple_entry v p ≠ none

/-- A kernel state over `Demo` with nothing mapped, in which thread 2 has the
file with handle 55 open as descriptor 3. -/
def one_file_kernel : Kernel Demo :=
  { demo_kernel { resident := [], entries := [], keys := [] } 0xBFFFF000 with
    open_file_list := [{ fd_num := 3, file_owner := 2, file := 55 }] }

/-- The frame-table states that can be reached from `init_vm_frame` at boot,
when nothing is checked out yet, by calls of `allocate_frame`, `set_frame_usr`
and `free_vm_frame`: the page allocator never answers with a page that is
checked out, and `free_vm_frame` is given a page that is. -/
inductive reachable : vm_state → Prop where
  | init (s : vm_state) (h : s.palloc = []) : reachable (init_vm_frame s)
  | alloc (s s1 : vm_state) (tid : Int) (page : Nat) (calloc_ok : Bool) (pflags frame : Nat)
      (hs : reachable s) (hfresh : page ∉ checked_out s)
      (hr : allocate_frame tid page calloc_ok pflags s = .returned frame s1) : reachable s1
  | set (s s1 : vm_state) (junk frame page_table_entry paddr : Nat)
      (hs : reachable s)
      (hr : set_frame_usr junk frame page_table_entry paddr s = some s1) : reachable s1
  | free (s : vm_state) (frame : Nat) (hs : reachable s) (hout : frame ∈ checked_out s) :
      reachable (free_vm_frame frame s)

/-- The frame table right after boot. -/
def boot_frames : vm_state := init_vm_frame { frames := [], palloc := [] }

/-- The frame table after thread 1 allocated the pages `0xC0100000` and
`0xC0101000`, bound the first and released it. -/
def sample_frames : vm_state :=
  { frames := [{ thread := 1, frame := 0xC0101000, page_table_entry := 0, uvpaddr := 0 }],
    palloc := [.get_page PAL_USER 0xC0100000, .get_page (PAL_USER ||| PAL_ZERO) 0xC0101000,
      .free_page 0xC0100000] }

/-- The world after `n` returns of `cond_wait`. -/
def wait_world {W : Type} (x : Collab W) : W → Nat → W
  | w, 0 => w
  | w, n + 1 => wait_world x (x.cond_wait w) n

/-- Collaborators like `demo`, except that the word which `list_entry` reads
as `fd_num` at the tail sentinel of `open_file_list` is 3. -/
def sentinel_demo : Collab Demo := { demo with tail_fd_num := fun _ => 3 }

/-- A kernel state over `Demo` in which the page at `0xB0000000` and the stack
page are resident, the caller is thread 2, and the only open file, descriptor 3
with handle 55, was opened by thread 9. -/
def foreign_file_kernel : Kernel Demo :=
  { two_page_kernel with open_file_list := [{ fd_num := 3, file_owner := 9, file := 55 }] }

/-- A kernel state over `Demo` in which the page at `0xB0000000` and the stack
page are resident and the keyboard will deliver the characters `a`, `b`, `c`. -/
def keyboard_kernel : Kernel Demo :=
  demo_kernel { resident := [0xB0000, 0xBFFFF], entries := [], keys := [97, 98, 99] } 0xBFFFF000

/-- A call of the descriptor interface: `open (file)` or `close (fd)`. -/
inductive fd_op where
  | «open» (file : Nat)
  | close (fd : Int)
deriving DecidableEq, Repr

/-- A sequence of `open` and `close` calls, run in order; the values returned
by the `open` calls, in order. -/
def run_fd_ops {W : Type} (x : Collab W) : List fd_op → K W (List Int)
  | [] => pure []
  | .open file :: rest => do
    let r ← «open» x file
    let rs ← run_fd_ops x rest
    pure (r :: rs)
  | .close fd :: rest => do
    close x fd
    run_fd_ops x rest

/-- The values returned by `n` calls of `fd_allocation` in a row. -/
def fd_allocations {W : Type} : Nat → K W (List Int)
  | 0 => pure []
  | n + 1 => do
    let r ← fd_allocation
    let rs ← fd_allocations n
    pure (r :: rs)

/-- The descriptors among the values returned by `open`: those that are not
the failure value -1. -/
def descriptors (rs : List Int) : List Int := rs.filter (fun r => decide (r ≠ -1))

/-- Collaborators like `demo`, except that the file named at `0xB0000020` does
not exist. -/
def picky_demo : Collab Demo :=
  { demo with filesys_open := fun w name => (w, if name = 0xB0000020 then 0 else 100) }

/-- Thread 2 opens a file, tries to open the file named at `0xB0000020`,
closes descriptor 2 and opens a file again. -/
def sample_fd_ops : List fd_op :=
  [.open 0xB0000010, .open 0xB0000020, .close 2, .open 0xB0000010]

/-- The calls by which `exit` announces and completes a termination: the
`printf` of the exit line and `thread_exit`. -/
def Event.is_exit_call : Event → Bool
  | .printf _ => true
  | .thread_exit => true
  | _ => false

/-- From state `k` to state `k0` the kernel has printed nothing, has not called
`thread_exit`, and has changed neither a thread's child list nor the running
thread. -/
def quiet_step {W : Type} (k k0 : Kernel W) : Prop :=
  ∃ evs, k0.trace = k.trace ++ evs ∧ k0.threads = k.threads ∧ k0.cur = k.cur ∧
    ∀ e ∈ evs, e.is_exit_call = false

/-- A run from state `k` that ends the process does so as `exit (status)`,
called after a quiet stretch, for a status satisfying `P`; any other run is
quiet throughout. -/
def tidy_run {W α : Type} (P : Int → Prop) (k : Kernel W) : Res W α → Prop
  | .exited k1 => ∃ status k0, P status ∧ quiet_step k k0 ∧ k1 = exit_state status k0
  | .ret _ k1 => quiet_step k k1
  | .halted k1 => quiet_step k k1
  | .undefined k1 => quiet_step k k1
  | .out_of_fuel k1 => quiet_step k k1

/-- Every run of `m` is tidy. -/
@[irreducible] def tidy {W α : Type} (P : Int → Prop) (m : K W α) : Prop :=
  ∀ k, tidy_run P k (m k)

/-- The run from state `k` that ended in state `k1` was ended by `exit (status)`:
up to the call of `exit`, in state `k0`, nothing was printed, `thread_exit` was
not called and no thread's child list was changed; `exit` then printed the one
line made of the running thread's name, `: exit(`, the status in decimal, `)`
and a newline, after it made only lock calls on child locks (those around the
update of the parent's child record), and `thread_exit` came last. -/
def exit_announced {W : Type} (k k1 : Kernel W) (status : Int) : Prop :=
  ∃ k0 evs locks, k0.trace = k.trace ++ evs ∧ k0.threads = k.threads ∧ k0.cur = k.cur ∧
    (∀ e ∈ evs, e.is_exit_call = false) ∧
    k1 = exit_state status k0 ∧
    k1.trace = k.trace ++ evs ++ [Event.printf (k.cur.name ++ ": exit(" ++ toString status ++ ")\n")]
      ++ locks ++ [Event.thread_exit] ∧
    (∀ e ∈ locks, ∃ t, e = Event.lock_acquire (.child_lock t) ∨
      e = Event.lock_release (.child_lock t))

/-! # Theorems -/

/-! ## Laws of the kernel monad -/

theorem bind_apply {W α β : Type} (m : K W α) (f : α → K W β) (k : Kernel W) :
    (m >>= f) k = K.bind m f k := rfl

theorem pure_apply {W α : Type} (a : α) (k : Kernel W) : (pure a : K W α) k = .ret a k := rfl

/-- Specification of `is_valid_pointer` as a function of the state. -/
theorem is_valid_pointer_eval {W : Type} (x : Collab W) (pointer : Nat) (k : Kernel W) :
    is_valid_pointer x pointer k =
      if pointer ≠ 0 ∧ is_user_vaddr pointer = true then
        .ret (decide (x.pagedir_get_page k.world pointer ≠ 0))
          { k with trace := k.trace ++ [Event.pagedir_get_page pointer] }
      else .ret false k := by
  unfold is_valid_pointer
  by_cases h0 : pointer = 0
  · simp [h0, pure_apply]
  · by_cases hu : is_user_vaddr pointer = true
    · simp [h0, hu, bind_apply, K.bind, pure_apply, pagedir_get_page, query]
    · simp [h0, hu, pure_apply]

/-- C1. `is_valid_pointer (p)` always returns; it returns true exactly when `p`
is non-null, lies below `PHYS_BASE` and the caller's page directory maps it;
for a null or kernel address it returns false and leaves the state, and with it
the record of page-directory look-ups, as it was. -/
theorem is_valid_pointer_spec {W : Type} (x : Collab W) (pointer : Nat) (k : Kernel W) :
    (∃ b k1, is_valid_pointer x pointer k = .ret b k1 ∧ k1.world = k.world ∧
      (b = true ↔ (pointer ≠ 0 ∧ is_user_vaddr pointer = true ∧
        x.pagedir_get_page k.world pointer ≠ 0))) ∧
    ((pointer = 0 ∨ is_user_vaddr pointer = false) →
      is_valid_pointer x pointer k = .ret false k ∧
      Event.pagedir_get_page pointer ∉ (is_valid_pointer x pointer k).state.trace.drop k.trace.length) := by
  rw [is_valid_pointer_eval]
  constructor
  · by_cases h : pointer ≠ 0 ∧ is_user_vaddr pointer = true
    · rw [if_pos h]
      exact ⟨_, _, rfl, rfl, by simp [h.1, h.2]⟩
    · rw [if_neg h]
      refine ⟨_, _, rfl, rfl, ?_⟩
      constructor
      · intro hf; cases hf
      · intro hp; exact absurd ⟨hp.1, hp.2.1⟩ h
  · intro h
    have hn : ¬ (pointer ≠ 0 ∧ is_user_vaddr pointer = true) := by
      rintro ⟨h0, hu⟩
      rcases h with h | h
      · exact h0 h
      · rw [hu] at h; cases h
    rw [if_neg hn]
    simp [Res.state]

theorem exit_eval {W : Type} (status : Int) (k : Kernel W) :
    exit status k = .exited (exit_state status k) := rfl

theorem exit_loop_events (parent cur_tid status : Int) (l : List child) :
    ∀ e ∈ (exit_loop parent cur_tid status l).2,
      e = Event.lock_acquire (.child_lock parent) ∨ e = Event.lock_release (.child_lock parent) := by
  induction l with
  | nil => intro e he; simp [exit_loop] at he
  | cons c rest ih =>
    intro e he
    unfold exit_loop at he
    split_ifs at he with hc
    · simp only [List.cons_append, List.nil_append, List.mem_cons] at he
      rcases he with he | he | he
      · exact Or.inl he
      · exact Or.inr he
      · exact ih e he
    · exact ih e he

/-- What `exit` leaves behind: only the trace and the thread list change, and
the trace grows by the exit line, lock calls on child locks, and `thread_exit`. -/
theorem exit_state_frame {W : Type} (status : Int) (k : Kernel W) :
    (exit_state status k).world = k.world ∧ (exit_state status k).intr = k.intr ∧
    (exit_state status k).esp = k.esp ∧
    (exit_state status k).open_file_list = k.open_file_list ∧
    (exit_state status k).fd_current = k.fd_current ∧
    (exit_state status k).cur = k.cur ∧
    ∃ evs, (exit_state status k).trace =
        k.trace ++ [Event.printf (exit_line k.cur.name status)] ++ evs ++ [Event.thread_exit] ∧
      ∀ e ∈ evs, ∃ t, e = Event.lock_acquire (.child_lock t) ∨ e = Event.lock_release (.child_lock t) := by
  unfold exit_state exit_record
  simp only
  split
  · exact ⟨rfl, rfl, rfl, rfl, rfl, rfl, [], by simp, by simp⟩
  · split
    · exact ⟨rfl, rfl, rfl, rfl, rfl, rfl, [], by simp, by simp⟩
    · rename_i parent _
      refine ⟨rfl, rfl, rfl, rfl, rfl, rfl, _, rfl, ?_⟩
      intro e he
      exact ⟨parent.tid, exit_loop_events _ _ _ _ e he⟩
/-- C2, at the failing input. With a null buffer the validation loops of
`write` and `read` are not entered at all: `write (STDOUT_FILENO, NULL, size)`
hands the null pointer to `putbuf` and returns `size`, and
`read (STDIN_FILENO, NULL, 1)` stores the terminating zero through the null
pointer and returns 0; neither call ends in `exit (-1)`. -/
theorem null_buffer_not_rejected {W : Type} (x : Collab W) (size : Nat) (k : Kernel W) :
    write x STDOUT_FILENO 0 size k =
      .ret (to_int32 size) { k with
        world := x.putbuf k.world 0 size,
        trace := k.trace ++ [Event.lock_acquire .fileLock, Event.putbuf 0 size,
          Event.lock_release .fileLock] } ∧
    read x STDIN_FILENO 0 1 k =
      .ret 0 { k with
        world := x.store_byte k.world 0 0,
        trace := k.trace ++ [Event.lock_acquire .fileLock, Event.store_byte 0 0,
          Event.lock_release .fileLock] } := by
  constructor
  · simp [write, write_loop, write_transfer, bind_apply, K.bind, pure_apply, lock_acquire,
      lock_release, emit, effect, STDOUT_FILENO, STDIN_FILENO]
  · simp [read, read_loop, read_transfer, read_stdin_loop, bind_apply, K.bind, pure_apply,
      lock_acquire, lock_release, emit, effect, STDOUT_FILENO, STDIN_FILENO, to_int32, ptr_sub, WORD]

/-- The pointer checks of `exec`, `create`, `remove` and `open`, and the first
pass of the loops of `read` and `write` on a kernel address, end in `exit (-1)`
before anything else is called. -/
theorem bad_pointer_terminates {W : Type} (x : Collab W) (fuel : Nat) (p : Nat) (k : Kernel W)
    (hp : p = 0 ∨ is_user_vaddr p = false) :
    exec x fuel p k = .exited (exit_state (-1) k) ∧
    (∀ n, create x p n k = .exited (exit_state (-1) k)) ∧
    remove x p k = .exited (exit_state (-1) k) ∧
    «open» x p k = .exited (exit_state (-1) k) ∧
    (p ≠ 0 → ∀ fd size, read x fd p size k = .exited (exit_state (-1) k)) ∧
    (p ≠ 0 → ∀ fd size, write x fd p size k = .exited (exit_state (-1) k)) := by
  have hv : is_valid_pointer x p k = .ret false k := (is_valid_pointer_spec x p k).2 hp |>.1
  refine ⟨?_, ?_, ?_, ?_, ?_, ?_⟩
  · simp [exec, bind_apply, K.bind, hv, exit_eval]
  · intro n; simp [create, bind_apply, K.bind, hv, exit_eval]
  · simp [remove, bind_apply, K.bind, hv, exit_eval]
  · simp [«open», bind_apply, K.bind, hv, exit_eval]
  · intro h0 fd size
    have hu : is_user_vaddr p = false := by
      rcases hp with h | h
      · exact absurd h h0
      · exact h
    simp [read, read_loop, read_probe, is_valid_vaddr, bind_apply, K.bind, h0, hu, exit_eval]
  · intro h0 fd size
    simp [write, write_loop, bind_apply, K.bind, h0, hv, exit_eval]

theorem is_valid_pointer_mapped {W : Type} (x : Collab W) (p : Nat) (k : Kernel W) :
    ∃ evs, is_valid_pointer x p k =
        .ret (decide (mapped_user x k.world p)) { k with trace := k.trace ++ evs } ∧
      ∀ e ∈ evs, ∃ a, e = Event.pagedir_get_page a := by
  rw [is_valid_pointer_eval]
  by_cases h : p ≠ 0 ∧ is_user_vaddr p = true
  · rw [if_pos h]
    refine ⟨[Event.pagedir_get_page p], ?_, ?_⟩
    · simp [mapped_user, h.1, h.2]
    · intro e he; exact ⟨p, by simpa using he⟩
  · rw [if_neg h]
    refine ⟨[], ?_, by simp⟩
    have : ¬ mapped_user x k.world p := fun hm => h ⟨hm.1, hm.2.1⟩
    simp [this]

theorem args_valid_eval {W : Type} (x : Collab W) (k : Kernel W) :
    ∃ evs, args_valid x k =
        .ret (decide (four_args_mapped x k.world k.esp)) { k with trace := k.trace ++ evs } ∧
      ∀ e ∈ evs, ∃ a, e = Event.pagedir_get_page a := by
  obtain ⟨e0, h0, p0⟩ := is_valid_pointer_mapped x k.esp k
  by_cases m0 : mapped_user x k.world k.esp
  swap
  · refine ⟨e0, ?_, p0⟩
    simp [args_valid, bind_apply, K.bind, get_state, h0, m0, pure_apply, four_args_mapped]
  obtain ⟨e1, h1, p1⟩ := is_valid_pointer_mapped x (ptr_add k.esp 4)
    { k with trace := k.trace ++ e0 }
  simp only [List.append_assoc] at h1
  by_cases m1 : mapped_user x k.world (ptr_add k.esp 4)
  swap
  · refine ⟨e0 ++ e1, ?_, ?_⟩
    · simp [args_valid, bind_apply, K.bind, get_state, h0, h1, m0, m1, pure_apply,
        four_args_mapped]
    · intro e he
      rcases List.mem_append.1 he with he | he
      · exact p0 e he
      · exact p1 e he
  obtain ⟨e2, h2, p2⟩ := is_valid_pointer_mapped x (ptr_add k.esp 8)
    { k with trace := k.trace ++ e0 ++ e1 }
  simp only [List.append_assoc] at h2
  by_cases m2 : mapped_user x k.world (ptr_add k.esp 8)
  swap
  · refine ⟨e0 ++ e1 ++ e2, ?_, ?_⟩
    · simp [args_valid, bind_apply, K.bind, get_state, h0, h1, h2, m0, m1, m2, pure_apply,
        four_args_mapped]
    · intro e he
      simp only [List.mem_append] at he
      rcases he with (he | he) | he
      · exact p0 e he
      · exact p1 e he
      · exact p2 e he
  obtain ⟨e3, h3, p3⟩ := is_valid_pointer_mapped x (ptr_add k.esp 12)
    { k with trace := k.trace ++ e0 ++ e1 ++ e2 }
  simp only [List.append_assoc] at h3
  refine ⟨e0 ++ e1 ++ e2 ++ e3, ?_, ?_⟩
  · simp [args_valid, bind_apply, K.bind, get_state, h0, h1, h2, h3, m0, m1, m2, pure_apply,
      four_args_mapped]
  · intro e he
    simp only [List.mem_append] at he
    rcases he with ((he | he) | he) | he
    · exact p0 e he
    · exact p1 e he
    · exact p2 e he
    · exact p3 e he
theorem arg_bind {W β : Type} (x : Collab W) (n : Nat) (f : Nat → K W β) (k : Kernel W) :
    K.bind (arg x n) f k = f (x.user_word k.world (ptr_add k.esp (4 * n))) k := rfl

theorem syscall_switch_HALT {W : Type} (x : Collab W) (fuel : Nat) (k1 : Kernel W)
    (h : to_int32 (x.user_word k1.world (ptr_add k1.esp 0)) = SYS_HALT) :
    syscall_switch x fuel k1 =
      halt k1 := by
  unfold syscall_switch
  simp only [bind_apply, arg_bind, Nat.mul_zero]
  simp only [h, SYS_HALT, SYS_EXIT, SYS_EXEC, SYS_WAIT, SYS_CREATE, SYS_REMOVE, SYS_OPEN,
    SYS_FILESIZE, SYS_READ, SYS_WRITE, SYS_SEEK, SYS_TELL, SYS_CLOSE, SYS_MMAP, SYS_MUNMAP,
    Int.reduceEq, if_false, if_true, arg_bind, bind_apply]

theorem syscall_switch_EXIT {W : Type} (x : Collab W) (fuel : Nat) (k1 : Kernel W)
    (h : to_int32 (x.user_word k1.world (ptr_add k1.esp 0)) = SYS_EXIT) :
    syscall_switch x fuel k1 =
      exit (to_int32 (x.user_word k1.world (ptr_add k1.esp (4 * 1)))) k1 := by
  unfold syscall_switch
  simp only [bind_apply, arg_bind, Nat.mul_zero]
  simp only [h, SYS_HALT, SYS_EXIT, SYS_EXEC, SYS_WAIT, SYS_CREATE, SYS_REMOVE, SYS_OPEN,
    SYS_FILESIZE, SYS_READ, SYS_WRITE, SYS_SEEK, SYS_TELL, SYS_CLOSE, SYS_MMAP, SYS_MUNMAP,
    Int.reduceEq, if_false, if_true, arg_bind, bind_apply]

theorem syscall_switch_EXEC {W : Type} (x : Collab W) (fuel : Nat) (k1 : Kernel W)
    (h : to_int32 (x.user_word k1.world (ptr_add k1.esp 0)) = SYS_EXEC) :
    syscall_switch x fuel k1 =
      ((exec x fuel (x.user_word k1.world (ptr_add k1.esp (4 * 1)))).bind (fun r => set_eax (of_int32 r))) k1 := by
  unfold syscall_switch
  simp only [bind_apply, arg_bind, Nat.mul_zero]
  simp only [h, SYS_HALT, SYS_EXIT, SYS_EXEC, SYS_WAIT, SYS_CREATE, SYS_REMOVE, SYS_OPEN,
    SYS_FILESIZE, SYS_READ, SYS_WRITE, SYS_SEEK, SYS_TELL, SYS_CLOSE, SYS_MMAP, SYS_MUNMAP,
    Int.reduceEq, if_false, if_true, arg_bind, bind_apply]

theorem syscall_switch_WAIT {W : Type} (x : Collab W) (fuel : Nat) (k1 : Kernel W)
    (h : to_int32 (x.user_word k1.world (ptr_add k1.esp 0)) = SYS_WAIT) :
    syscall_switch x fuel k1 =
      ((wait x (to_int32 (x.user_word k1.world (ptr_add k1.esp (4 * 1))))).bind (fun r => set_eax (of_int32 r))) k1 := by
  unfold syscall_switch
  simp only [bind_apply, arg_bind, Nat.mul_zero]
  simp only [h, SYS_HALT, SYS_EXIT, SYS_EXEC, SYS_WAIT, SYS_CREATE, SYS_REMOVE, SYS_OPEN,
    SYS_FILESIZE, SYS_READ, SYS_WRITE, SYS_SEEK, SYS_TELL, SYS_CLOSE, SYS_MMAP, SYS_MUNMAP,
    Int.reduceEq, if_false, if_true, arg_bind, bind_apply]

theorem syscall_switch_CREATE {W : Type} (x : Collab W) (fuel : Nat) (k1 : Kernel W)
    (h : to_int32 (x.user_word k1.world (ptr_add k1.esp 0)) = SYS_CREATE) :
    syscall_switch x fuel k1 =
      ((create x (x.user_word k1.world (ptr_add k1.esp (4 * 1))) (x.user_word k1.world (ptr_add k1.esp (4 * 2)))).bind (fun r => set_eax (if r then 1 else 0))) k1 := by
  unfold syscall_switch
  simp only [bind_apply, arg_bind, Nat.mul_zero]
  simp only [h, SYS_HALT, SYS_EXIT, SYS_EXEC, SYS_WAIT, SYS_CREATE, SYS_REMOVE, SYS_OPEN,
    SYS_FILESIZE, SYS_READ, SYS_WRITE, SYS_SEEK, SYS_TELL, SYS_CLOSE, SYS_MMAP, SYS_MUNMAP,
    Int.reduceEq, if_false, if_true, arg_bind, bind_apply]

theorem syscall_switch_REMOVE {W : Type} (x : Collab W) (fuel : Nat) (k1 : Kernel W)
    (h : to_int32 (x.user_word k1.world (ptr_add k1.esp 0)) = SYS_REMOVE) :
    syscall_switch x fuel k1 =
      ((remove x (x.user_word k1.world (ptr_add k1.esp (4 * 1)))).bind (fun r => set_eax (if r then 1 else 0))) k1 := by
  unfold syscall_switch
  simp only [bind_apply, arg_bind, Nat.mul_zero]
  simp only [h, SYS_HALT, SYS_EXIT, SYS_EXEC, SYS_WAIT, SYS_CREATE, SYS_REMOVE, SYS_OPEN,
    SYS_FILESIZE, SYS_READ, SYS_WRITE, SYS_SEEK, SYS_TELL, SYS_CLOSE, SYS_MMAP, SYS_MUNMAP,
    Int.reduceEq, if_false, if_true, arg_bind, bind_apply]

theorem syscall_switch_OPEN {W : Type} (x : Collab W) (fuel : Nat) (k1 : Kernel W)
    (h : to_int32 (x.user_word k1.world (ptr_add k1.esp 0)) = SYS_OPEN) :
    syscall_switch x fuel k1 =
      ((«open» x (x.user_word k1.world (ptr_add k1.esp (4 * 1)))).bind (fun r => set_eax (of_int32 r))) k1 := by
  unfold syscall_switch
  simp only [bind_apply, arg_bind, Nat.mul_zero]
  simp only [h, SYS_HALT, SYS_EXIT, SYS_EXEC, SYS_WAIT, SYS_CREATE, SYS_REMOVE, SYS_OPEN,
    SYS_FILESIZE, SYS_READ, SYS_WRITE, SYS_SEEK, SYS_TELL, SYS_CLOSE, SYS_MMAP, SYS_MUNMAP,
    Int.reduceEq, if_false, if_true, arg_bind, bind_apply]

theorem syscall_switch_FILESIZE {W : Type} (x : Collab W) (fuel : Nat) (k1 : Kernel W)
    (h : to_int32 (x.user_word k1.world (ptr_add k1.esp 0)) = SYS_FILESIZE) :
    syscall_switch x fuel k1 =
      ((filesize x (to_int32 (x.user_word k1.world (ptr_add k1.esp (4 * 1))))).bind (fun r => set_eax (of_int32 r))) k1 := by
  unfold syscall_switch
  simp only [bind_apply, arg_bind, Nat.mul_zero]
  simp only [h, SYS_HALT, SYS_EXIT, SYS_EXEC, SYS_WAIT, SYS_CREATE, SYS_REMOVE, SYS_OPEN,
    SYS_FILESIZE, SYS_READ, SYS_WRITE, SYS_SEEK, SYS_TELL, SYS_CLOSE, SYS_MMAP, SYS_MUNMAP,
    Int.reduceEq, if_false, if_true, arg_bind, bind_apply]

theorem syscall_switch_READ {W : Type} (x : Collab W) (fuel : Nat) (k1 : Kernel W)
    (h : to_int32 (x.user_word k1.world (ptr_add k1.esp 0)) = SYS_READ) :
    syscall_switch x fuel k1 =
      ((read x (to_int32 (x.user_word k1.world (ptr_add k1.esp (4 * 1)))) (x.user_word k1.world (ptr_add k1.esp (4 * 2))) (x.user_word k1.world (ptr_add k1.esp (4 * 3)))).bind (fun r => set_eax (of_int32 r))) k1 := by
  unfold syscall_switch
  simp only [bind_apply, arg_bind, Nat.mul_zero]
  simp only [h, SYS_HALT, SYS_EXIT, SYS_EXEC, SYS_WAIT, SYS_CREATE, SYS_REMOVE, SYS_OPEN,
    SYS_FILESIZE, SYS_READ, SYS_WRITE, SYS_SEEK, SYS_TELL, SYS_CLOSE, SYS_MMAP, SYS_MUNMAP,
    Int.reduceEq, if_false, if_true, arg_bind, bind_apply]

theorem syscall_switch_WRITE {W : Type} (x : Collab W) (fuel : Nat) (k1 : Kernel W)
    (h : to_int32 (x.user_word k1.world (ptr_add k1.esp 0)) = SYS_WRITE) :
    syscall_switch x fuel k1 =
      ((write x (to_int32 (x.user_word k1.world (ptr_add k1.esp (4 * 1)))) (x.user_word k1.world (ptr_add k1.esp (4 * 2))) (x.user_word k1.world (ptr_add k1.esp (4 * 3)))).bind (fun r => set_eax (of_int32 r))) k1 := by
  unfold syscall_switch
  simp only [bind_apply, arg_bind, Nat.mul_zero]
  simp only [h, SYS_HALT, SYS_EXIT, SYS_EXEC, SYS_WAIT, SYS_CREATE, SYS_REMOVE, SYS_OPEN,
    SYS_FILESIZE, SYS_READ, SYS_WRITE, SYS_SEEK, SYS_TELL, SYS_CLOSE, SYS_MMAP, SYS_MUNMAP,
    Int.reduceEq, if_false, if_true, arg_bind, bind_apply]

theorem syscall_switch_SEEK {W : Type} (x : Collab W) (fuel : Nat) (k1 : Kernel W)
    (h : to_int32 (x.user_word k1.world (ptr_add k1.esp 0)) = SYS_SEEK) :
    syscall_switch x fuel k1 =
      seek x (to_int32 (x.user_word k1.world (ptr_add k1.esp (4 * 1)))) (x.user_word k1.world (ptr_add k1.esp (4 * 2))) k1 := by
  unfold syscall_switch
  simp only [bind_apply, arg_bind, Nat.mul_zero]
  simp only [h, SYS_HALT, SYS_EXIT, SYS_EXEC, SYS_WAIT, SYS_CREATE, SYS_REMOVE, SYS_OPEN,
    SYS_FILESIZE, SYS_READ, SYS_WRITE, SYS_SEEK, SYS_TELL, SYS_CLOSE, SYS_MMAP, SYS_MUNMAP,
    Int.reduceEq, if_false, if_true, arg_bind, bind_apply]

theorem syscall_switch_TELL {W : Type} (x : Collab W) (fuel : Nat) (k1 : Kernel W)
    (h : to_int32 (x.user_word k1.world (ptr_add k1.esp 0)) = SYS_TELL) :
    syscall_switch x fuel k1 =
      ((tell x (to_int32 (x.user_word k1.world (ptr_add k1.esp (4 * 1))))).bind (fun r => set_eax r)) k1 := by
  unfold syscall_switch
  simp only [bind_apply, arg_bind, Nat.mul_zero]
  simp only [h, SYS_HALT, SYS_EXIT, SYS_EXEC, SYS_WAIT, SYS_CREATE, SYS_REMOVE, SYS_OPEN,
    SYS_FILESIZE, SYS_READ, SYS_WRITE, SYS_SEEK, SYS_TELL, SYS_CLOSE, SYS_MMAP, SYS_MUNMAP,
    Int.reduceEq, if_false, if_true, arg_bind, bind_apply]

theorem syscall_switch_CLOSE {W : Type} (x : Collab W) (fuel : Nat) (k1 : Kernel W)
    (h : to_int32 (x.user_word k1.world (ptr_add k1.esp 0)) = SYS_CLOSE) :
    syscall_switch x fuel k1 =
      close x (to_int32 (x.user_word k1.world (ptr_add k1.esp (4 * 1)))) k1 := by
  unfold syscall_switch
  simp only [bind_apply, arg_bind, Nat.mul_zero]
  simp only [h, SYS_HALT, SYS_EXIT, SYS_EXEC, SYS_WAIT, SYS_CREATE, SYS_REMOVE, SYS_OPEN,
    SYS_FILESIZE, SYS_READ, SYS_WRITE, SYS_SEEK, SYS_TELL, SYS_CLOSE, SYS_MMAP, SYS_MUNMAP,
    Int.reduceEq, if_false, if_true, arg_bind, bind_apply]

theorem syscall_switch_MMAP {W : Type} (x : Collab W) (fuel : Nat) (k1 : Kernel W)
    (h : to_int32 (x.user_word k1.world (ptr_add k1.esp 0)) = SYS_MMAP) :
    syscall_switch x fuel k1 =
      ((mmap x (to_int32 (x.user_word k1.world (ptr_add k1.esp (4 * 1)))) (x.user_word k1.world (ptr_add k1.esp (4 * 2)))).bind (fun r => set_eax (of_int32 r))) k1 := by
  unfold syscall_switch
  simp only [bind_apply, arg_bind, Nat.mul_zero]
  simp only [h, SYS_HALT, SYS_EXIT, SYS_EXEC, SYS_WAIT, SYS_CREATE, SYS_REMOVE, SYS_OPEN,
    SYS_FILESIZE, SYS_READ, SYS_WRITE, SYS_SEEK, SYS_TELL, SYS_CLOSE, SYS_MMAP, SYS_MUNMAP,
    Int.reduceEq, if_false, if_true, arg_bind, bind_apply]

theorem syscall_switch_MUNMAP {W : Type} (x : Collab W) (fuel : Nat) (k1 : Kernel W)
    (h : to_int32 (x.user_word k1.world (ptr_add k1.esp 0)) = SYS_MUNMAP) :
    syscall_switch x fuel k1 =
      munmap x (to_int32 (x.user_word k1.world (ptr_add k1.esp (4 * 1)))) k1 := by
  unfold syscall_switch
  simp only [bind_apply, arg_bind, Nat.mul_zero]
  simp only [h, SYS_HALT, SYS_EXIT, SYS_EXEC, SYS_WAIT, SYS_CREATE, SYS_REMOVE, SYS_OPEN,
    SYS_FILESIZE, SYS_READ, SYS_WRITE, SYS_SEEK, SYS_TELL, SYS_CLOSE, SYS_MMAP, SYS_MUNMAP,
    Int.reduceEq, if_false, if_true, arg_bind, bind_apply]

theorem syscall_nr_default (n : Int) (h : n < 0 ∨ 14 < n) :
    ¬ n = SYS_HALT ∧ ¬ n = SYS_EXIT ∧ ¬ n = SYS_EXEC ∧ ¬ n = SYS_WAIT ∧ ¬ n = SYS_CREATE ∧
    ¬ n = SYS_REMOVE ∧ ¬ n = SYS_OPEN ∧ ¬ n = SYS_FILESIZE ∧ ¬ n = SYS_READ ∧ ¬ n = SYS_WRITE ∧
    ¬ n = SYS_SEEK ∧ ¬ n = SYS_TELL ∧ ¬ n = SYS_CLOSE ∧ ¬ n = SYS_MMAP ∧ ¬ n = SYS_MUNMAP := by
  unfold SYS_HALT SYS_EXIT SYS_EXEC SYS_WAIT SYS_CREATE SYS_REMOVE SYS_OPEN SYS_FILESIZE SYS_READ
    SYS_WRITE SYS_SEEK SYS_TELL SYS_CLOSE SYS_MMAP SYS_MUNMAP
  omega

theorem syscall_switch_default {W : Type} (x : Collab W) (fuel : Nat) (k1 : Kernel W)
    (h : to_int32 (x.user_word k1.world (ptr_add k1.esp 0)) < 0 ∨
      14 < to_int32 (x.user_word k1.world (ptr_add k1.esp 0))) :
    syscall_switch x fuel k1 = .ret () k1 := by
  obtain ⟨h0, h1, h2, h3, h4, h5, h6, h7, h8, h9, h10, h11, h12, h13, h14⟩ :=
    syscall_nr_default _ h
  unfold syscall_switch
  simp only [bind_apply, arg_bind, Nat.mul_zero]
  simp only [if_neg h0, if_neg h1, if_neg h2, if_neg h3, if_neg h4, if_neg h5, if_neg h6,
    if_neg h7, if_neg h8, if_neg h9, if_neg h10, if_neg h11, if_neg h12, if_neg h13, if_neg h14,
    pure_apply]

/-- C3. `syscall_handler` first records `esp` and looks the four argument words
up in the page directory, and nothing else. If one of them fails
`is_valid_pointer` it ends in `exit (-1)`: the trap frame, and with it `eax`,
and the world are as before, and the trace grows only by the look-ups, the exit
line for status -1, lock calls on child locks and `thread_exit`. If all four
pass, it runs exactly the handler that the word at `esp` selects, on the
argument words that follow it, and stores a result in `eax` only for the calls
that return one; for a number outside 0..14 it returns with nothing changed. -/
theorem syscall_handler_spec {W : Type} (x : Collab W) (fuel : Nat) (k : Kernel W) :
    ∃ evs k1, (∀ e ∈ evs, ∃ a, e = Event.pagedir_get_page a) ∧
      k1 = { k with esp := k.intr.esp, trace := k.trace ++ evs } ∧
      (¬ four_args_mapped x k.world k.intr.esp →
        syscall_handler x fuel k = .exited (exit_state (-1) k1) ∧
        (exit_state (-1) k1).intr = k.intr ∧ (exit_state (-1) k1).world = k.world ∧
        ∃ locks, (exit_state (-1) k1).trace =
            k.trace ++ evs ++ [Event.printf (exit_line k.cur.name (-1))] ++ locks
              ++ [Event.thread_exit] ∧
          ∀ e ∈ locks, ∃ t, e = Event.lock_acquire (.child_lock t) ∨
            e = Event.lock_release (.child_lock t)) ∧
      (four_args_mapped x k.world k.intr.esp →
        ∀ nr a1 a2 a3 : Nat,
        x.user_word k.world (ptr_add k.intr.esp 0) = nr →
        x.user_word k.world (ptr_add k.intr.esp 4) = a1 →
        x.user_word k.world (ptr_add k.intr.esp 8) = a2 →
        x.user_word k.world (ptr_add k.intr.esp 12) = a3 →
        (to_int32 nr = SYS_HALT → syscall_handler x fuel k = halt k1) ∧
        (to_int32 nr = SYS_EXIT → syscall_handler x fuel k = exit (to_int32 a1) k1) ∧
        (to_int32 nr = SYS_EXEC → syscall_handler x fuel k =
          ((exec x fuel a1).bind (fun r => set_eax (of_int32 r))) k1) ∧
        (to_int32 nr = SYS_WAIT → syscall_handler x fuel k =
          ((wait x (to_int32 a1)).bind (fun r => set_eax (of_int32 r))) k1) ∧
        (to_int32 nr = SYS_CREATE → syscall_handler x fuel k =
          ((create x a1 a2).bind (fun r => set_eax (if r then 1 else 0))) k1) ∧
        (to_int32 nr = SYS_REMOVE → syscall_handler x fuel k =
          ((remove x a1).bind (fun r => set_eax (if r then 1 else 0))) k1) ∧
        (to_int32 nr = SYS_OPEN → syscall_handler x fuel k =
          ((«open» x a1).bind (fun r => set_eax (of_int32 r))) k1) ∧
        (to_int32 nr = SYS_FILESIZE → syscall_handler x fuel k =
          ((filesize x (to_int32 a1)).bind (fun r => set_eax (of_int32 r))) k1) ∧
        (to_int32 nr = SYS_READ → syscall_handler x fuel k =
          ((read x (to_int32 a1) a2 a3).bind (fun r => set_eax (of_int32 r))) k1) ∧
        (to_int32 nr = SYS_WRITE → syscall_handler x fuel k =
          ((write x (to_int32 a1) a2 a3).bind (fun r => set_eax (of_int32 r))) k1) ∧
        (to_int32 nr = SYS_SEEK → syscall_handler x fuel k = seek x (to_int32 a1) a2 k1) ∧
        (to_int32 nr = SYS_TELL → syscall_handler x fuel k =
          ((tell x (to_int32 a1)).bind (fun r => set_eax r)) k1) ∧
        (to_int32 nr = SYS_CLOSE → syscall_handler x fuel k = close x (to_int32 a1) k1) ∧
        (to_int32 nr = SYS_MMAP → syscall_handler x fuel k =
          ((mmap x (to_int32 a1) a2).bind (fun r => set_eax (of_int32 r))) k1) ∧
        (to_int32 nr = SYS_MUNMAP → syscall_handler x fuel k = munmap x (to_int32 a1) k1) ∧
        (to_int32 nr < 0 ∨ 14 < to_int32 nr → syscall_handler x fuel k = .ret () k1)) := by
  obtain ⟨evs, hv, hp⟩ := args_valid_eval x { k with esp := k.intr.esp }
  simp only at hv
  refine ⟨evs, _, hp, rfl, ?_, ?_⟩
  · intro hm
    refine ⟨?_, (exit_state_frame _ _).2.1, (exit_state_frame _ _).1, ?_⟩
    · simp [syscall_handler, capture_esp, bind_apply, K.bind, hv, hm, exit_eval]
    · obtain ⟨locks, ht, hl⟩ := (exit_state_frame (-1)
        { k with esp := k.intr.esp, trace := k.trace ++ evs }).2.2.2.2.2.2
      exact ⟨locks, ht, hl⟩
  · intro hm nr a1 a2 a3 hnr h1 h2 h3
    have hsw : syscall_handler x fuel k =
        syscall_switch x fuel { k with esp := k.intr.esp, trace := k.trace ++ evs } := by
      simp [syscall_handler, capture_esp, bind_apply, K.bind, hv, hm]
    rw [hsw]
    subst hnr h1 h2 h3
    generalize hk1 : ({ k with esp := k.intr.esp, trace := k.trace ++ evs } : Kernel W) = k1
    have hw : k.world = k1.world := by rw [← hk1]
    have he : k.intr.esp = k1.esp := by rw [← hk1]
    rw [hw, he]
    exact ⟨syscall_switch_HALT x fuel k1, syscall_switch_EXIT x fuel k1,
      syscall_switch_EXEC x fuel k1, syscall_switch_WAIT x fuel k1,
      syscall_switch_CREATE x fuel k1, syscall_switch_REMOVE x fuel k1,
      syscall_switch_OPEN x fuel k1, syscall_switch_FILESIZE x fuel k1,
      syscall_switch_READ x fuel k1, syscall_switch_WRITE x fuel k1,
      syscall_switch_SEEK x fuel k1, syscall_switch_TELL x fuel k1,
      syscall_switch_CLOSE x fuel k1, syscall_switch_MMAP x fuel k1,
      syscall_switch_MUNMAP x fuel k1, syscall_switch_default x fuel k1⟩

theorem exit_state_no_transfer {W : Type} (status : Int) (k : Kernel W) :
    ∃ evs, (exit_state status k).trace = k.trace ++ evs ∧
      (∀ e ∈ evs, e.is_transfer = false) ∧
      (∀ e ∈ evs, ∀ a, e ≠ Event.increase_stack a) ∧
      (exit_state status k).esp = k.esp := by
  obtain ⟨_, _, hesp, _, _, _, locks, ht, hl⟩ := exit_state_frame status k
  refine ⟨[Event.printf (exit_line k.cur.name status)] ++ locks ++ [Event.thread_exit], ?_, ?_, ?_,
    hesp⟩
  · rw [ht]; simp
  · intro e he
    simp only [List.mem_append, List.mem_singleton] at he
    rcases he with (he | he) | he
    · subst he; rfl
    · obtain ⟨t, h | h⟩ := hl e he <;> subst h <;> rfl
    · subst he; rfl
  · intro e he a
    simp only [List.mem_append, List.mem_singleton] at he
    rcases he with (he | he) | he
    · subst he; simp
    · obtain ⟨t, h | h⟩ := hl e he <;> subst h <;> simp
    · subst he; simp

theorem bind_eq {W α β : Type} (m : K W α) (f : α → K W β) : (m >>= f) = K.bind m f := rfl

theorem pure_eq {W α : Type} (a : α) : (pure a : K W α) = K.pure a := rfl

theorem kpure_apply {W α : Type} (a : α) (k : Kernel W) : K.pure a k = .ret a k := rfl

theorem query_bind {W α β : Type} (e : Event) (q : W → α) (f : α → K W β) (k : Kernel W) :
    K.bind (query e q) f k = f (q k.world) { k with trace := k.trace ++ [e] } := rfl

theorem command_bind {W α β : Type} (e : Event) (c : W → W × α) (f : α → K W β) (k : Kernel W) :
    K.bind (command e c) f k =
      f (c k.world).2 { k with world := (c k.world).1, trace := k.trace ++ [e] } := rfl

theorem effect_bind {W β : Type} (e : Event) (c : W → W) (f : Unit → K W β) (k : Kernel W) :
    K.bind (effect e c) f k = f () { k with world := c k.world, trace := k.trace ++ [e] } := rfl

theorem emit_bind {W β : Type} (e : Event) (f : Unit → K W β) (k : Kernel W) :
    K.bind (emit e) f k = f () { k with trace := k.trace ++ [e] } := rfl

theorem get_state_bind {W β : Type} (f : Kernel W → K W β) (k : Kernel W) :
    K.bind get_state f k = f k k := rfl

theorem pure_bind_apply {W α β : Type} (a : α) (f : α → K W β) (k : Kernel W) :
    K.bind (K.pure a) f k = f a k := rfl

theorem exit_bind {W β : Type} (status : Int) (f : Unit → K W β) (k : Kernel W) :
    K.bind (exit status) f k = .exited (exit_state status k) := rfl

theorem effect_apply {W : Type} (e : Event) (c : W → W) (k : Kernel W) :
    effect e c k = .ret () { k with world := c k.world, trace := k.trace ++ [e] } := rfl

/-- One pass of `read`'s loop, as a function of the state. -/
theorem read_probe_eval {W : Type} (x : Collab W) (a : Nat) (k : Kernel W) :
    read_probe x a k =
      if is_valid_vaddr a = false then .exited (exit_state (-1) k)
      else if x.pagedir_get_page k.world a ≠ 0 then
        .ret () { k with trace := k.trace ++ [Event.pagedir_get_page a] }
      else
        match x.find_supple_entry k.world (pg_round_down a) with
        | some e =>
          if e.is_loaded = false then
            .ret () { k with
              world := x.load_data k.world e,
              trace := k.trace ++ [Event.pagedir_get_page a,
                Event.find_supple_entry (pg_round_down a), Event.load_data e] }
          else
            .exited (exit_state (-1) { k with
              trace := k.trace ++ [Event.pagedir_get_page a,
                Event.find_supple_entry (pg_round_down a)] })
        | none =>
          if stack_window_low k.esp ≤ a then
            .ret () { k with
              world := x.increase_stack k.world a,
              trace := k.trace ++ [Event.pagedir_get_page a,
                Event.find_supple_entry (pg_round_down a), Event.increase_stack a] }
          else
            .exited (exit_state (-1) { k with
              trace := k.trace ++ [Event.pagedir_get_page a,
                Event.find_supple_entry (pg_round_down a)] }) := by
  unfold read_probe pagedir_get_page find_supple_entry load_data increase_stack stack_window_low
  simp only [bind_eq, pure_eq]
  by_cases hv : is_valid_vaddr a = false
  · simp only [hv, Bool.not_false, if_true, exit_bind]
  · have hv2 : is_valid_vaddr a = true := by simpa using hv
    simp only [hv2, Bool.not_true, Bool.false_eq_true, if_false, pure_bind_apply, query_bind]
    by_cases hp : x.pagedir_get_page k.world a = 0
    · simp only [hp, if_true, ne_eq, not_true_eq_false, if_false, query_bind, get_state_bind,
        List.append_assoc, List.singleton_append]
      cases he : x.find_supple_entry k.world (pg_round_down a) with
      | none =>
        simp only
        by_cases hw : ptr_sub k.esp (32 * 4) ≤ a
        · simp only [hw, if_true, if_false, Bool.true_eq_false, effect_apply, List.append_assoc, List.cons_append,
            List.nil_append]
        · simp only [hw, if_false, Bool.true_eq_false, exit_eval]
      | some e =>
        simp only
        cases hl : e.is_loaded
        · simp only [Bool.not_false, if_true, if_false, Bool.true_eq_false, effect_apply, List.append_assoc, List.cons_append,
            List.nil_append]
        · simp only [Bool.not_true, Bool.false_eq_true, Bool.true_eq_false, if_false, exit_eval]
    · simp only [hp, if_false, ne_eq, not_false_eq_true, if_true, Bool.true_eq_false, kpure_apply]

/-- C4, as amended. In `read`'s loop, for a non-null user address `a` that is
not resident and has no supplemental entry, the stack is grown exactly when `a`
is at or above `esp - 32` words (128 bytes below the recorded stack pointer, in
32-bit arithmetic), with no upper end at `esp`; below that the process ends in
`exit (-1)` and no `increase_stack` is called. With `esp` at least 128, the
address `esp - 4` grows the stack and `esp - 10000` terminates. -/
theorem read_probe_stack_growth {W : Type} (x : Collab W) (a : Nat) (k : Kernel W)
    (h0 : a ≠ 0) (hu : is_user_vaddr a = true)
    (hres : x.pagedir_get_page k.world a = 0)
    (hent : x.find_supple_entry k.world (pg_round_down a) = none) :
    (stack_window_low k.esp ≤ a →
      read_probe x a k = .ret () { k with
        world := x.increase_stack k.world a,
        trace := k.trace ++ [Event.pagedir_get_page a,
          Event.find_supple_entry (pg_round_down a), Event.increase_stack a] }) ∧
    (a < stack_window_low k.esp →
      ∃ k1 evs, read_probe x a k = .exited k1 ∧ k1.world = k.world ∧
        k1.trace = k.trace ++ evs ∧ Event.printf (exit_line k.cur.name (-1)) ∈ evs ∧
        ∀ e ∈ evs, ∀ b, e ≠ Event.increase_stack b) ∧
    (128 ≤ k.esp → k.esp < WORD → a = k.esp - 4 → stack_window_low k.esp ≤ a) ∧
    (128 ≤ k.esp → k.esp < WORD → a = k.esp - 10000 → a < stack_window_low k.esp) := by
  have hv : is_valid_vaddr a = true := by simp [is_valid_vaddr, h0, hu]
  refine ⟨?_, ?_, ?_, ?_⟩
  · intro hw
    rw [read_probe_eval]
    simp only [hv, Bool.true_eq_false, if_false, hres, ne_eq, not_true_eq_false, hent, hw, if_true]
  · intro hw
    have hw2 : ¬ stack_window_low k.esp ≤ a := Nat.not_le.2 hw
    obtain ⟨evs, ht, _, hn, _⟩ := exit_state_no_transfer (-1)
      { k with trace := k.trace ++ [Event.pagedir_get_page a,
        Event.find_supple_entry (pg_round_down a)] }
    obtain ⟨hworld, _, _, _, _, _, locks, ht2, _⟩ := exit_state_frame (-1)
      { k with trace := k.trace ++ [Event.pagedir_get_page a,
        Event.find_supple_entry (pg_round_down a)] }
    refine ⟨_, [Event.pagedir_get_page a, Event.find_supple_entry (pg_round_down a)] ++ evs,
      ?_, hworld, ?_, ?_, ?_⟩
    · rw [read_probe_eval]
      simp only [hv, Bool.true_eq_false, if_false, hres, ne_eq, not_true_eq_false, hent, hw2]
    · rw [ht]; simp
    · have : evs = [Event.printf (exit_line k.cur.name (-1))] ++ locks ++ [Event.thread_exit] := by
        have h := ht.symm.trans ht2
        simp only [List.append_assoc] at h
        have h2 := List.append_cancel_left (List.append_cancel_left h)
        rw [h2]; simp
      rw [this]; simp
    · intro e he b
      simp only [List.mem_append, List.mem_cons, List.mem_singleton, List.not_mem_nil,
        or_false] at he
      rcases he with (he | he) | he
      · subst he; simp
      · subst he; simp
      · exact hn e he b
  · intro h1 h2 h3
    unfold stack_window_low ptr_sub
    unfold WORD at h2 ⊢
    omega
  · intro h1 h2 h3
    unfold stack_window_low ptr_sub
    unfold WORD at h2 ⊢
    omega

/-- C4, witness: with the stack pointer at `0xB0000000` and nothing mapped, the
address `esp - 4` is a non-null, non-resident user address without an entry. -/
theorem read_probe_stack_growth_witness :
    (0xAFFFFFFC ≠ 0 ∧ is_user_vaddr 0xAFFFFFFC = true ∧
      demo.pagedir_get_page bare_kernel.world 0xAFFFFFFC = 0 ∧
      demo.find_supple_entry bare_kernel.world (pg_round_down 0xAFFFFFFC) = none) ∧
    read_probe demo 0xAFFFFFFC bare_kernel = .ret () { bare_kernel with
      world := demo.increase_stack bare_kernel.world 0xAFFFFFFC,
      trace := bare_kernel.trace ++ [Event.pagedir_get_page 0xAFFFFFFC,
        Event.find_supple_entry (pg_round_down 0xAFFFFFFC), Event.increase_stack 0xAFFFFFFC] } :=
  ⟨by decide, (read_probe_stack_growth demo 0xAFFFFFFC bare_kernel (by decide) (by decide)
    (by decide) (by decide)).1 (by decide)⟩

/-- C4, counterexample: the address `esp + 4096` lies above the stack pointer,
not among the 32 words below it, yet it is a non-null, non-resident user address
without an entry for which `read`'s loop grows the stack and goes on. -/
theorem stack_grown_above_stack_pointer :
    (0xB0001000 ≠ 0 ∧ is_user_vaddr 0xB0001000 = true ∧
      demo.pagedir_get_page bare_kernel.world 0xB0001000 = 0 ∧
      demo.find_supple_entry bare_kernel.world (pg_round_down 0xB0001000) = none) ∧
    ¬ (bare_kernel.esp - 128 ≤ 0xB0001000 ∧ 0xB0001000 < bare_kernel.esp) ∧
    (read_probe demo 0xB0001000 bare_kernel).is_ret = true ∧
    Event.increase_stack 0xB0001000 ∈ (read_probe demo 0xB0001000 bare_kernel).state.trace := by
  decide

theorem probed_append_left {W : Type} {ok : W → Nat → Prop} {evs : List Event} {a : Nat}
    (more : List Event) (h : probed ok evs a) : probed ok (evs ++ more) a := by
  obtain ⟨b, w, hb, hp, hok⟩ := h
  exact ⟨b, w, List.mem_append_left _ hb, hp, hok⟩

theorem probed_append_right {W : Type} {ok : W → Nat → Prop} {evs : List Event} {a : Nat}
    (before : List Event) (h : probed ok evs a) : probed ok (before ++ evs) a := by
  obtain ⟨b, w, hb, hp, hok⟩ := h
  exact ⟨b, w, List.mem_append_right _ hb, hp, hok⟩

theorem probed_same_page {W : Type} {ok : W → Nat → Prop} {evs : List Event} {a b : Nat}
    (hab : a / PGSIZE = b / PGSIZE) (h : probed ok evs a) : probed ok evs b := by
  obtain ⟨c, w, hc, hp, hok⟩ := h
  exact ⟨c, w, hc, hp.trans hab, hok⟩

/-- One pass of `read`'s loop either ends the process or passes, having looked
the address up; it never takes the file-table lock or moves a byte. -/
theorem read_probe_cases {W : Type} (x : Collab W) (a : Nat) (k : Kernel W) (inv : W → Prop)
    (hkeep : kept_by_read_probe x k.esp inv) (hinv : inv k.world) :
    (∃ k1 evs, read_probe x a k = .exited k1 ∧ k1.trace = k.trace ++ evs ∧
      ∀ e ∈ evs, e.is_transfer = false) ∨
    (∃ k1 evs, read_probe x a k = .ret () k1 ∧ k1.trace = k.trace ++ evs ∧ k1.esp = k.esp ∧
      k1.open_file_list = k.open_file_list ∧ inv k1.world ∧
      (∀ e ∈ evs, e.is_transfer = false) ∧ Event.pagedir_get_page a ∈ evs ∧
      read_probe_passes x k.world k.esp a) := by
  rw [read_probe_eval]
  by_cases hv : is_valid_vaddr a = false
  · rw [if_pos hv]
    obtain ⟨evs, ht, hn, _⟩ := exit_state_no_transfer (-1) k
    exact Or.inl ⟨_, evs, rfl, ht, hn⟩
  · rw [if_neg hv]
    have hv2 : a ≠ 0 ∧ is_user_vaddr a = true := by
      simpa [is_valid_vaddr] using hv
    by_cases hp : x.pagedir_get_page k.world a ≠ 0
    · rw [if_pos hp]
      refine Or.inr ⟨_, [Event.pagedir_get_page a], rfl, rfl, rfl, rfl, hinv, ?_, by simp,
        hv2.1, hv2.2, Or.inl hp⟩
      intro e he
      simp only [List.mem_singleton] at he
      subst he; rfl
    · rw [if_neg hp]
      cases he : x.find_supple_entry k.world (pg_round_down a) with
      | none =>
        simp only
        by_cases hw : stack_window_low k.esp ≤ a
        · rw [if_pos hw]
          refine Or.inr ⟨_, [Event.pagedir_get_page a, Event.find_supple_entry (pg_round_down a),
            Event.increase_stack a], rfl, rfl, rfl, rfl,
            hkeep.2 _ a hinv (not_not.1 hp) he hw, ?_, by simp, hv2.1, hv2.2,
            Or.inr (Or.inr ⟨he, hw⟩)⟩
          intro e h
          simp only [List.mem_cons, List.mem_singleton, List.not_mem_nil, or_false] at h
          rcases h with h | h | h <;> subst h <;> rfl
        · rw [if_neg hw]
          obtain ⟨evs, ht, hn, _⟩ := exit_state_no_transfer (-1)
            { k with trace := k.trace ++ [Event.pagedir_get_page a,
              Event.find_supple_entry (pg_round_down a)] }
          refine Or.inl ⟨_, [Event.pagedir_get_page a,
            Event.find_supple_entry (pg_round_down a)] ++ evs, rfl, ?_, ?_⟩
          · rw [ht]; simp
          · intro e h
            simp only [List.mem_append, List.mem_cons, List.mem_singleton, List.not_mem_nil,
              or_false] at h
            rcases h with (h | h) | h
            · subst h; rfl
            · subst h; rfl
            · exact hn e h
      | some ent =>
        simp only
        by_cases hl : ent.is_loaded = false
        · rw [if_pos hl]
          refine Or.inr ⟨_, [Event.pagedir_get_page a, Event.find_supple_entry (pg_round_down a),
            Event.load_data ent], rfl, rfl, rfl, rfl,
            hkeep.1 _ a ent hinv (not_not.1 hp) he hl, ?_, by simp, hv2.1, hv2.2,
            Or.inr (Or.inl ⟨ent, he, hl⟩)⟩
          intro e h
          simp only [List.mem_cons, List.mem_singleton, List.not_mem_nil, or_false] at h
          rcases h with h | h | h <;> subst h <;> rfl
        · rw [if_neg hl]
          obtain ⟨evs, ht, hn, _⟩ := exit_state_no_transfer (-1)
            { k with trace := k.trace ++ [Event.pagedir_get_page a,
              Event.find_supple_entry (pg_round_down a)] }
          refine Or.inl ⟨_, [Event.pagedir_get_page a,
            Event.find_supple_entry (pg_round_down a)] ++ evs, rfl, ?_, ?_⟩
          · rw [ht]; simp
          · intro e h
            simp only [List.mem_append, List.mem_cons, List.mem_singleton, List.not_mem_nil,
              or_false] at h
            rcases h with (h | h) | h
            · subst h; rfl
            · subst h; rfl
            · exact hn e h

theorem read_loop_null {W : Type} (x : Collab W) (buffer size fuel sob : Nat) (k : Kernel W) :
    read_loop x buffer size fuel sob 0 k = .ret () k := by
  cases fuel <;> simp [read_loop, pure_apply]

theorem read_loop_succ {W : Type} (x : Collab W) (buffer size fuel sob ptr : Nat) (k : Kernel W)
    (h : ptr ≠ 0) :
    read_loop x buffer size (fuel + 1) sob ptr k =
      K.bind (read_probe x ptr) (fun _ =>
        if sob = 0 then read_loop x buffer size fuel sob 0
        else if PGSIZE ≤ sob then
          read_loop x buffer size fuel (sob - PGSIZE) (ptr_add ptr PGSIZE)
        else read_loop x buffer size fuel 0 (ptr_sub (ptr_add buffer size) 1)) k := by
  rw [read_loop, if_neg h]
  rfl
theorem ptr_add_of_lt (p n : Nat) (h : p + n < WORD) : ptr_add p n = p + n :=
  Nat.mod_eq_of_lt h

theorem last_byte_ptr (buffer size p n : Nat) (h : p + n = buffer + size) (hn : 1 ≤ n)
    (hlt : p + n < WORD) : ptr_sub (ptr_add buffer size) 1 = p + n - 1 := by
  unfold ptr_sub ptr_add
  rw [← h]
  unfold WORD at hlt ⊢
  omega

theorem K.bind_ret {W α β : Type} (m : K W α) (f : α → K W β) (k k1 : Kernel W) (a : α)
    (h : m k = .ret a k1) : K.bind m f k = f a k1 := by
  simp [K.bind, h]

theorem K.bind_exited {W α β : Type} (m : K W α) (f : α → K W β) (k k1 : Kernel W)
    (h : m k = .exited k1) : K.bind m f k = .exited k1 := by
  simp [K.bind, h]

theorem mem_append_no_transfer {evs more : List Event}
    (h1 : ∀ e ∈ evs, e.is_transfer = false) (h2 : ∀ e ∈ more, e.is_transfer = false) :
    ∀ e ∈ evs ++ more, e.is_transfer = false := by
  intro e he
  rcases List.mem_append.1 he with h | h
  · exact h1 e h
  · exact h2 e h

/-- The validation loop of `read`, from any pass on: with fuel for the passes
that remain it ends the process or returns after passing look-ups that cover
the bytes still to go. -/
theorem read_loop_outcome {W : Type} (x : Collab W) (buffer size esp : Nat) (inv : W → Prop)
    (hkeep : kept_by_read_probe x esp inv) :
    ∀ (fuel sob ptr : Nat) (k : Kernel W), ptr ≠ 0 → k.esp = esp → inv k.world →
      (sob / PGSIZE + 3 ≤ fuel ∨ (sob = 0 ∧ 1 ≤ fuel)) →
      (sob = 0 ∨ ptr + sob = buffer + size) →
      validation_outcome inv (fun w b => read_probe_passes x w esp b) k ptr sob
        (read_loop x buffer size fuel sob ptr k) := by
  intro fuel
  induction fuel with
  | zero => intro sob ptr k _ _ _ hf _; unfold PGSIZE at hf; omega
  | succ f ih =>
    intro sob ptr k hptr hesp0 hw0 hf hinv
    rw [read_loop_succ _ _ _ _ _ _ _ hptr]
    rcases read_probe_cases x ptr k inv (hesp0 ▸ hkeep) hw0 with
      ⟨k1, evs, hr, ht, hn⟩ | ⟨k1, evs, hr, ht, hesp, hofl, hw1, hn, hmem, hpass⟩
    · rw [K.bind_exited _ _ _ _ hr]
      exact Or.inl ⟨k1, evs, rfl, ht, hn⟩
    · rw [K.bind_ret _ _ _ _ _ hr]
      rw [hesp0] at hpass
      have hprobed : probed (fun w b => inv w ∧ read_probe_passes x w esp b) evs ptr :=
        ⟨ptr, k.world, hmem, rfl, hw0, hpass⟩
      have huser : ptr < PHYS_BASE := by simpa [is_user_vaddr] using hpass.2.1
      have hesp1 : k1.esp = esp := hesp.trans hesp0
      by_cases h0 : sob = 0
      · simp only [h0, if_true]
        rw [read_loop_null]
        refine Or.inr ⟨k1, evs, rfl, ht, hesp, hofl, hw1, hn, hprobed, ?_⟩
        intro i hi; omega
      · have hsum : ptr + sob = buffer + size := by
          rcases hinv with h | h
          · exact absurd h h0
          · exact h
        simp only [h0, if_false]
        by_cases hpg : PGSIZE ≤ sob
        · simp only [hpg, if_true]
          have hadd : ptr_add ptr PGSIZE = ptr + PGSIZE := by
            apply ptr_add_of_lt
            unfold PHYS_BASE at huser; unfold PGSIZE WORD; omega
          rw [hadd]
          have hnext := ih (sob - PGSIZE) (ptr + PGSIZE) k1 (by unfold PGSIZE; omega) hesp1 hw1
            (by unfold PGSIZE at hf hpg ⊢; omega) (by right; unfold PGSIZE at hpg ⊢; omega)
          rcases hnext with
            ⟨k2, evs2, hr2, ht2, hn2⟩ | ⟨k2, evs2, hr2, ht2, hesp2, hofl2, hw2, hn2, hp0, hcov⟩
          · refine Or.inl ⟨k2, evs ++ evs2, hr2, ?_, mem_append_no_transfer hn hn2⟩
            rw [ht2, ht, List.append_assoc]
          · refine Or.inr ⟨k2, evs ++ evs2, hr2, ?_, hesp2.trans hesp, hofl2.trans hofl, hw2,
              mem_append_no_transfer hn hn2, probed_append_left evs2 hprobed, ?_⟩
            · rw [ht2, ht, List.append_assoc]
            · intro i hi
              by_cases hi2 : i < PGSIZE
              · by_cases hsame : (ptr + i) / PGSIZE = ptr / PGSIZE
                · exact probed_same_page hsame.symm (probed_append_left evs2 hprobed)
                · refine probed_same_page ?_ (probed_append_right evs hp0)
                  unfold PGSIZE at hi2 hsame ⊢; omega
              · have h := hcov (i - PGSIZE) (by unfold PGSIZE at hi2 hpg ⊢; omega)
                have he : ptr + PGSIZE + (i - PGSIZE) = ptr + i := by
                  unfold PGSIZE at hi2 ⊢; omega
                rw [he] at h
                exact probed_append_right evs h
        · simp only [hpg, if_false]
          have hq : ptr_sub (ptr_add buffer size) 1 = ptr + sob - 1 := by
            apply last_byte_ptr _ _ _ _ hsum (by omega)
            unfold PHYS_BASE at huser; unfold PGSIZE at hpg; unfold WORD; omega
          rw [hq]
          have hnext := ih 0 (ptr + sob - 1) k1 (by omega) hesp1 hw1
            (by right; unfold PGSIZE at hf hpg; omega) (Or.inl rfl)
          rcases hnext with
            ⟨k2, evs2, hr2, ht2, hn2⟩ | ⟨k2, evs2, hr2, ht2, hesp2, hofl2, hw2, hn2, hp0, _⟩
          · refine Or.inl ⟨k2, evs ++ evs2, hr2, ?_, mem_append_no_transfer hn hn2⟩
            rw [ht2, ht, List.append_assoc]
          · refine Or.inr ⟨k2, evs ++ evs2, hr2, ?_, hesp2.trans hesp, hofl2.trans hofl, hw2,
              mem_append_no_transfer hn hn2, probed_append_left evs2 hprobed, ?_⟩
            · rw [ht2, ht, List.append_assoc]
            · intro i hi
              by_cases hsame : (ptr + i) / PGSIZE = ptr / PGSIZE
              · exact probed_same_page hsame.symm (probed_append_left evs2 hprobed)
              · refine probed_same_page ?_ (probed_append_right evs hp0)
                unfold PGSIZE at hpg hsame ⊢; omega
theorem write_loop_null {W : Type} (x : Collab W) (buffer size fuel sob : Nat) (k : Kernel W) :
    write_loop x buffer size fuel sob 0 k = .ret () k := by
  cases fuel <;> simp [write_loop, pure_apply]

theorem write_loop_succ {W : Type} (x : Collab W) (buffer size fuel sob ptr : Nat)
    (k : Kernel W) (h : ptr ≠ 0) :
    write_loop x buffer size (fuel + 1) sob ptr k =
      K.bind (is_valid_pointer x ptr) (fun ok =>
        if (!ok) = true then
          K.bind (exit (-1)) (fun _ =>
            if PGSIZE < sob then
              write_loop x buffer size fuel (sob - PGSIZE) (ptr_add ptr PGSIZE)
            else if sob = 0 then write_loop x buffer size fuel sob 0
            else write_loop x buffer size fuel 0 (ptr_sub (ptr_add buffer size) 1))
        else
          K.bind (K.pure PUnit.unit) (fun _ =>
            if PGSIZE < sob then
              write_loop x buffer size fuel (sob - PGSIZE) (ptr_add ptr PGSIZE)
            else if sob = 0 then write_loop x buffer size fuel sob 0
            else write_loop x buffer size fuel 0 (ptr_sub (ptr_add buffer size) 1))) k := by
  rw [write_loop, if_neg h]
  rfl

/-- One pass of `write`'s loop either ends the process or finds the address
mapped; it leaves the world as it is. -/
theorem write_probe_cases {W : Type} (x : Collab W) (a : Nat) (k : Kernel W)
    {β : Type} (f : Unit → K W β) :
    (∃ k1 evs, K.bind (is_valid_pointer x a) (fun ok =>
        if (!ok) = true then K.bind (exit (-1)) f else K.bind (K.pure PUnit.unit) f) k =
          .exited k1 ∧
      k1.trace = k.trace ++ evs ∧ ∀ e ∈ evs, e.is_transfer = false) ∨
    (mapped_user x k.world a ∧
      K.bind (is_valid_pointer x a) (fun ok =>
        if (!ok) = true then K.bind (exit (-1)) f else K.bind (K.pure PUnit.unit) f) k =
        f () { k with trace := k.trace ++ [Event.pagedir_get_page a] }) := by
  by_cases hm : mapped_user x k.world a
  · right
    refine ⟨hm, ?_⟩
    have hv := is_valid_pointer_eval x a k
    rw [if_pos ⟨hm.1, hm.2.1⟩] at hv
    rw [K.bind_ret _ _ _ _ _ hv]
    simp only [hm.2.2, ne_eq, not_false_eq_true, decide_True, Bool.not_true, Bool.false_eq_true,
      if_false]
    rfl
  · left
    obtain ⟨evs, hv, hp⟩ := is_valid_pointer_mapped x a k
    rw [K.bind_ret _ _ _ _ _ hv]
    simp only [hm, decide_False, Bool.not_false, if_true]
    obtain ⟨evs2, ht, hn, _⟩ := exit_state_no_transfer (-1) { k with trace := k.trace ++ evs }
    refine ⟨exit_state (-1) { k with trace := k.trace ++ evs }, evs ++ evs2, rfl, ?_, ?_⟩
    · rw [ht]; simp
    · intro e he
      rcases List.mem_append.1 he with h | h
      · obtain ⟨b, hb⟩ := hp e h
        subst hb; rfl
      · exact hn e h

/-- The validation loop of `write`, from any pass on: with fuel for the passes
that remain it ends the process or returns after finding mapped an address in
the page of every byte still to go, the world being as at the start. -/
theorem write_loop_outcome {W : Type} (x : Collab W) (buffer size : Nat) (w0 : W) :
    ∀ (fuel sob ptr : Nat) (k : Kernel W), ptr ≠ 0 → k.world = w0 →
      (sob / PGSIZE + 3 ≤ fuel ∨ (sob = 0 ∧ 1 ≤ fuel)) →
      (sob = 0 ∨ ptr + sob = buffer + size) →
      validation_outcome (fun w => w = w0) (fun w b => mapped_user x w b) k ptr sob
        (write_loop x buffer size fuel sob ptr k) := by
  intro fuel
  induction fuel with
  | zero => intro sob ptr k _ _ hf _; unfold PGSIZE at hf; omega
  | succ f ih =>
    intro sob ptr k hptr hw0 hf hinv
    rw [write_loop_succ _ _ _ _ _ _ _ hptr]
    rcases write_probe_cases x ptr k (fun _ =>
        if PGSIZE < sob then
          write_loop x buffer size f (sob - PGSIZE) (ptr_add ptr PGSIZE)
        else if sob = 0 then write_loop x buffer size f sob 0
        else write_loop x buffer size f 0 (ptr_sub (ptr_add buffer size) 1)) with
      ⟨k1, evs, hr, ht, hn⟩ | ⟨hm, hr⟩
    · rw [hr]
      exact Or.inl ⟨k1, evs, rfl, ht, hn⟩
    · rw [hr]
      have hprobed : probed (fun w b => w = w0 ∧ mapped_user x w b)
          [Event.pagedir_get_page ptr] ptr :=
        ⟨ptr, k.world, by simp, rfl, hw0, hm⟩
      have hn1 : ∀ e ∈ [Event.pagedir_get_page ptr], e.is_transfer = false := by
        intro e he
        simp only [List.mem_singleton] at he
        subst he; rfl
      have huser : ptr < PHYS_BASE := by simpa [is_user_vaddr] using hm.2.1
      by_cases hpg : PGSIZE < sob
      · simp only [hpg, if_true]
        have hsum : ptr + sob = buffer + size := by
          rcases hinv with h | h
          · unfold PGSIZE at hpg; omega
          · exact h
        have hadd : ptr_add ptr PGSIZE = ptr + PGSIZE := by
          apply ptr_add_of_lt
          unfold PHYS_BASE at huser; unfold PGSIZE WORD; omega
        rw [hadd]
        have hnext := ih (sob - PGSIZE) (ptr + PGSIZE)
          { k with trace := k.trace ++ [Event.pagedir_get_page ptr] }
          (by unfold PGSIZE; omega) hw0
          (by unfold PGSIZE at hf hpg ⊢; omega) (by right; unfold PGSIZE at hpg ⊢; omega)
        rcases hnext with
          ⟨k2, evs2, hr2, ht2, hn2⟩ | ⟨k2, evs2, hr2, ht2, hesp2, hofl2, hw2, hn2, hp0, hcov⟩
        · refine Or.inl ⟨k2, [Event.pagedir_get_page ptr] ++ evs2, hr2, ?_,
            mem_append_no_transfer hn1 hn2⟩
          rw [ht2, List.append_assoc]
        · refine Or.inr ⟨k2, [Event.pagedir_get_page ptr] ++ evs2, hr2, ?_, hesp2, hofl2, hw2,
            mem_append_no_transfer hn1 hn2, probed_append_left evs2 hprobed, ?_⟩
          · rw [ht2, List.append_assoc]
          · intro i hi
            by_cases hi2 : i < PGSIZE
            · by_cases hsame : (ptr + i) / PGSIZE = ptr / PGSIZE
              · exact probed_same_page hsame.symm (probed_append_left evs2 hprobed)
              · refine probed_same_page ?_ (probed_append_right _ hp0)
                unfold PGSIZE at hi2 hsame ⊢; omega
            · have h := hcov (i - PGSIZE) (by unfold PGSIZE at hi2 hpg ⊢; omega)
              have he : ptr + PGSIZE + (i - PGSIZE) = ptr + i := by
                unfold PGSIZE at hi2 ⊢; omega
              rw [he] at h
              exact probed_append_right _ h
      · simp only [hpg, if_false]
        by_cases h0 : sob = 0
        · simp only [h0, if_true]
          rw [write_loop_null]
          refine Or.inr ⟨_, [Event.pagedir_get_page ptr], rfl, rfl, rfl, rfl, hw0, hn1, hprobed,
            ?_⟩
          intro i hi; omega
        · simp only [h0, if_false]
          have hsum : ptr + sob = buffer + size := by
            rcases hinv with h | h
            · exact absurd h h0
            · exact h
          have hq : ptr_sub (ptr_add buffer size) 1 = ptr + sob - 1 := by
            apply last_byte_ptr _ _ _ _ hsum (by omega)
            unfold PHYS_BASE at huser; unfold PGSIZE at hpg; unfold WORD; omega
          rw [hq]
          have hnext := ih 0 (ptr + sob - 1)
            { k with trace := k.trace ++ [Event.pagedir_get_page ptr] } (by omega) hw0
            (by right; unfold PGSIZE at hf hpg; omega) (Or.inl rfl)
          rcases hnext with
            ⟨k2, evs2, hr2, ht2, hn2⟩ | ⟨k2, evs2, hr2, ht2, hesp2, hofl2, hw2, hn2, hp0, _⟩
          · refine Or.inl ⟨k2, [Event.pagedir_get_page ptr] ++ evs2, hr2, ?_,
              mem_append_no_transfer hn1 hn2⟩
            rw [ht2, List.append_assoc]
          · refine Or.inr ⟨k2, [Event.pagedir_get_page ptr] ++ evs2, hr2, ?_, hesp2, hofl2, hw2,
              mem_append_no_transfer hn1 hn2, probed_append_left evs2 hprobed, ?_⟩
            · rw [ht2, List.append_assoc]
            · intro i hi
              by_cases hsame : (ptr + i) / PGSIZE = ptr / PGSIZE
              · exact probed_same_page hsame.symm (probed_append_left evs2 hprobed)
              · refine probed_same_page ?_ (probed_append_right _ hp0)
                unfold PGSIZE at hpg hsame ⊢; omega

/-- C5. For a non-null buffer the validation loops of `read` and of `write`
end within their fuel: either the process ended in `thread_exit`, or the loop
returned after a passing look-up of `buffer` and of an address in the page of
every byte of `[buffer, buffer + size)`; in both cases before the file-table
lock is taken or a byte is moved, which only the part after the loop does.
Hence, if some page of the range fails the look-up in every world the loop can
be in (for `read`: not resident, no entry left to load, below the stack
window; for `write`: not mapped), the call ends in `thread_exit` without the
lock taken or a byte moved. -/
theorem buffer_validation_covers {W : Type} (x : Collab W) (fd : Int) (buffer size : Nat)
    (k : Kernel W) (h0 : buffer ≠ 0) :
    validation_outcome (fun _ => True) (fun w b => read_probe_passes x w k.esp b) k buffer size
      (read_loop x buffer size (size / PGSIZE + 3) size buffer k) ∧
    read x fd buffer size k =
      K.bind (read_loop x buffer size (size / PGSIZE + 3) size buffer)
        (fun _ => read_transfer x fd buffer size) k ∧
    validation_outcome (fun w => w = k.world) (fun w b => mapped_user x w b) k buffer size
      (write_loop x buffer size (size / PGSIZE + 3) size buffer k) ∧
    write x fd buffer size k =
      K.bind (write_loop x buffer size (size / PGSIZE + 3) size buffer)
        (fun _ => write_transfer x fd buffer size) k ∧
    (∀ inv : W → Prop, kept_by_read_probe x k.esp inv → inv k.world →
      (∃ i, i < size ∧ ∀ w b, inv w → b / PGSIZE = (buffer + i) / PGSIZE →
        ¬ read_probe_passes x w k.esp b) →
      ∃ k1 evs, read x fd buffer size k = .exited k1 ∧ k1.trace = k.trace ++ evs ∧
        ∀ e ∈ evs, e.is_transfer = false) ∧
    ((∃ i, i < size ∧ ∀ b, b / PGSIZE = (buffer + i) / PGSIZE → ¬ mapped_user x k.world b) →
      ∃ k1 evs, write x fd buffer size k = .exited k1 ∧ k1.trace = k.trace ++ evs ∧
        ∀ e ∈ evs, e.is_transfer = false) := by
  have hkeepT : kept_by_read_probe x k.esp (fun _ => True) :=
    ⟨fun _ _ _ _ _ _ _ => trivial, fun _ _ _ _ _ _ => trivial⟩
  refine ⟨?_, rfl, ?_, rfl, ?_, ?_⟩
  · exact read_loop_outcome x buffer size k.esp _ hkeepT _ size buffer k h0 rfl trivial
      (Or.inl (Nat.le_refl _)) (Or.inr rfl)
  · exact write_loop_outcome x buffer size k.world _ size buffer k h0 rfl
      (Or.inl (Nat.le_refl _)) (Or.inr rfl)
  · intro inv hkeep hinv ⟨i, hi, hdead⟩
    have h := read_loop_outcome x buffer size k.esp inv hkeep _ size buffer k h0 rfl hinv
      (Or.inl (Nat.le_refl _)) (Or.inr rfl)
    rcases h with ⟨k1, evs, hr, ht, hn⟩ | ⟨k1, evs, hr, _, _, _, _, _, _, hcov⟩
    · refine ⟨k1, evs, ?_, ht, hn⟩
      show K.bind (read_loop x buffer size (size / PGSIZE + 3) size buffer)
        (fun _ => read_transfer x fd buffer size) k = _
      rw [K.bind_exited _ _ _ _ hr]
    · obtain ⟨b, w, _, hpage, hw, hpass⟩ := hcov i hi
      exact absurd hpass (hdead w b hw hpage)
  · intro ⟨i, hi, hdead⟩
    have h := write_loop_outcome x buffer size k.world _ size buffer k h0 rfl
      (Or.inl (Nat.le_refl _)) (Or.inr rfl)
    rcases h with ⟨k1, evs, hr, ht, hn⟩ | ⟨k1, evs, hr, _, _, _, _, _, _, hcov⟩
    · refine ⟨k1, evs, ?_, ht, hn⟩
      show K.bind (write_loop x buffer size (size / PGSIZE + 3) size buffer)
        (fun _ => write_transfer x fd buffer size) k = _
      rw [K.bind_exited _ _ _ _ hr]
    · obtain ⟨b, w, _, hpage, hw, hpass⟩ := hcov i hi
      rw [hw] at hpass
      exact absurd hpass (hdead b hpage)

theorem second_page_kept : kept_by_read_probe demo 0xBFFFF000 second_page_unmapped := by
  constructor
  · intro w a e hw _ hf _
    have hf2 : (if pg_round_down a ∈ w.entries then
        some ({ uvaddr := pg_round_down a, is_loaded := false } : supple_page_table_entry)
        else none) = some e := hf
    by_cases hmem : pg_round_down a ∈ w.entries
    · rw [if_pos hmem] at hf2
      have he : e.uvaddr = pg_round_down a := by
        cases hf2; rfl
      have hne : pg_round_down a ≠ 0xB0001000 := fun h => hw.2 (h ▸ hmem)
      refine ⟨?_, hw.2⟩
      show 0xB0001 ∉ e.uvaddr / PGSIZE :: w.resident
      rw [he]
      simp only [List.mem_cons, not_or]
      refine ⟨?_, hw.1⟩
      unfold pg_round_down PGSIZE at hne ⊢
      omega
    · rw [if_neg hmem] at hf2
      cases hf2
  · intro w a hw _ _ hwin
    refine ⟨?_, hw.2⟩
    show 0xB0001 ∉ a / PGSIZE :: w.resident
    simp only [List.mem_cons, not_or]
    refine ⟨?_, hw.1⟩
    unfold stack_window_low ptr_sub WORD at hwin
    unfold PGSIZE
    omega

theorem second_page_fails (w : Demo) (b : Nat) (hw : second_page_unmapped w)
    (hb : b / PGSIZE = (0xB0000F00 + 4096) / PGSIZE) :
    ¬ read_probe_passes demo w 0xBFFFF000 b := by
  have hpage : b / PGSIZE = 0xB0001 := by rw [hb]; decide
  rintro ⟨_, _, h | ⟨e, h, _⟩ | ⟨_, h⟩⟩
  · have : demo.pagedir_get_page w b = 0 := by
      show (if b / PGSIZE ∈ w.resident then PHYS_BASE + b % PGSIZE else 0) = 0
      rw [hpage, if_neg hw.1]
    exact h this
  · have hrd : pg_round_down b = 0xB0001000 := by
      unfold pg_round_down; unfold PGSIZE at hpage ⊢; omega
    have : demo.find_supple_entry w (pg_round_down b) = none := by
      show (if pg_round_down b ∈ w.entries then _ else none) = none
      rw [hrd, if_neg hw.2]
    rw [this] at h
    cases h
  · unfold stack_window_low ptr_sub WORD at h
    unfold PGSIZE at hpage
    omega

/-- C5, witness: a 5000-byte `read` into the non-null buffer `0xB0000F00`,
whose second page `0xB0001000` is unmapped and far below the stack, ends in
`thread_exit` without the file-table lock taken or a byte moved. -/
theorem buffer_validation_covers_witness :
    (0xB0000F00 : Nat) ≠ 0 ∧
    ∃ k1 evs, read demo 5 0xB0000F00 5000 two_page_kernel = .exited k1 ∧
      k1.trace = two_page_kernel.trace ++ evs ∧ ∀ e ∈ evs, e.is_transfer = false :=
  ⟨by decide,
    (buffer_validation_covers demo 5 0xB0000F00 5000 two_page_kernel (by decide)).2.2.2.2.1
      second_page_unmapped second_page_kept (by unfold second_page_unmapped; decide)
      ⟨4096, by decide, fun w b hw hb => second_page_fails w b hw hb⟩⟩

theorem mmap_loop_step {W : Type} (x : Collab W) (address : Nat) (length : Int) (fuel : Nat)
    (ofs : Int) (k : Kernel W) (h : ofs < length) :
    mmap_loop x address length (fuel + 1) ofs k =
      if (x.find_supple_entry k.world (ptr_add address ofs.toNat)).isSome = true then
        .ret false { k with
          trace := k.trace ++ [Event.find_supple_entry (ptr_add address ofs.toNat)] }
      else if x.pagedir_get_page k.world (ptr_add address ofs.toNat) ≠ 0 then
        .ret false { k with
          trace := k.trace ++ [Event.find_supple_entry (ptr_add address ofs.toNat),
            Event.pagedir_get_page (ptr_add address ofs.toNat)] }
      else if INT_MAX < ofs + PGSIZE then
        .undefined { k with
          trace := k.trace ++ [Event.find_supple_entry (ptr_add address ofs.toNat),
            Event.pagedir_get_page (ptr_add address ofs.toNat)] }
      else
        mmap_loop x address length fuel (ofs + PGSIZE) { k with
          trace := k.trace ++ [Event.find_supple_entry (ptr_add address ofs.toNat),
            Event.pagedir_get_page (ptr_add address ofs.toNat)] } := by
  rw [mmap_loop, if_pos h]
  unfold find_supple_entry pagedir_get_page undefined_behaviour
  simp only [bind_eq, pure_eq]
  by_cases he : (x.find_supple_entry k.world (ptr_add address ofs.toNat)).isSome = true
  · simp only [query_bind, he, if_true, kpure_apply]
  · by_cases hp : x.pagedir_get_page k.world (ptr_add address ofs.toNat) ≠ 0
    · simp only [query_bind, he, hp, if_true, if_false, kpure_apply, List.append_assoc,
        List.singleton_append, Bool.false_eq_true, ne_eq, not_false_eq_true]
    · by_cases hov : INT_MAX < ofs + PGSIZE
      · simp only [query_bind, he, hp, hov, if_true, if_false, List.append_assoc,
          List.singleton_append, Bool.false_eq_true]
      · simp only [query_bind, he, hp, hov, if_true, if_false, List.append_assoc,
          List.singleton_append, Bool.false_eq_true]

theorem mmap_loop_done {W : Type} (x : Collab W) (address : Nat) (length : Int) (fuel : Nat)
    (ofs : Int) (k : Kernel W) (h : ¬ ofs < length) :
    mmap_loop x address length fuel ofs k = .ret true k := by
  cases fuel <;> simp [mmap_loop, h, pure_apply]

/-- The loop of `mmap` from page number `n` on: it only looks pages up, and it
returns `false` at an occupied page of the range, returns `true` with every
page from `n` on free, or reaches the overflow of `ofs` with every page whose
offset is an `int` free. -/
theorem mmap_loop_spec {W : Type} (x : Collab W) (address : Nat) (length : Int) :
    ∀ (fuel n : Nat) (k : Kernel W), length - (n * PGSIZE : Nat) ≤ (fuel * PGSIZE : Nat) →
      ∃ evs, (∀ e ∈ evs, e.is_lookup = true) ∧
        ((mmap_loop x address length fuel (n * PGSIZE : Nat) k =
            .ret false { k with trace := k.trace ++ evs } ∧
          ∃ m, n ≤ m ∧ ((m * PGSIZE : Nat) : Int) < length ∧
            occupied x k.world (ptr_add address (m * PGSIZE))) ∨
        (mmap_loop x address length fuel (n * PGSIZE : Nat) k =
            .ret true { k with trace := k.trace ++ evs } ∧
          ∀ m, n ≤ m → ((m * PGSIZE : Nat) : Int) < length →
            ¬ occupied x k.world (ptr_add address (m * PGSIZE))) ∨
        (mmap_loop x address length fuel (n * PGSIZE : Nat) k =
            .undefined { k with trace := k.trace ++ evs } ∧
          ∀ m, n ≤ m → ((m * PGSIZE : Nat) : Int) < length →
            ((m * PGSIZE : Nat) : Int) ≤ INT_MAX →
            ¬ occupied x k.world (ptr_add address (m * PGSIZE)))) := by
  intro fuel
  induction fuel with
  | zero =>
    intro n k hf
    refine ⟨[], by simp, Or.inr (Or.inl ⟨?_, ?_⟩)⟩
    · rw [mmap_loop_done _ _ _ _ _ _ (by simp at hf; omega)]
      simp
    · intro m hm hlt
      exfalso
      have : (n * PGSIZE : Nat) ≤ m * PGSIZE := Nat.mul_le_mul_right _ hm
      simp at hf
      omega
  | succ f ih =>
    intro n k hf
    by_cases hlt : ((n * PGSIZE : Nat) : Int) < length
    swap
    · refine ⟨[], by simp, Or.inr (Or.inl ⟨?_, ?_⟩)⟩
      · rw [mmap_loop_done _ _ _ _ _ _ hlt]
        simp
      · intro m hm hlt2
        exfalso
        have : (n * PGSIZE : Nat) ≤ m * PGSIZE := Nat.mul_le_mul_right _ hm
        omega
    rw [mmap_loop_step _ _ _ _ _ _ hlt]
    simp only [Int.toNat_ofNat]
    by_cases he : (x.find_supple_entry k.world (ptr_add address (n * PGSIZE))).isSome = true
    · rw [if_pos he]
      refine ⟨[Event.find_supple_entry (ptr_add address (n * PGSIZE))], ?_,
        Or.inl ⟨rfl, n, Nat.le_refl _, hlt, Or.inl ?_⟩⟩
      · intro e h
        simp only [List.mem_singleton] at h
        subst h; rfl
      · intro hnone
        rw [hnone] at he
        cases he
    · rw [if_neg he]
      have hnone : x.find_supple_entry k.world (ptr_add address (n * PGSIZE)) = none := by
        cases h : x.find_supple_entry k.world (ptr_add address (n * PGSIZE)) with
        | none => rfl
        | some v => rw [h] at he; exact absurd rfl he
      have hlook : ∀ e ∈ [Event.find_supple_entry (ptr_add address (n * PGSIZE)),
          Event.pagedir_get_page (ptr_add address (n * PGSIZE))], e.is_lookup = true := by
        intro e h
        simp only [List.mem_cons, List.mem_singleton, List.not_mem_nil, or_false] at h
        rcases h with h | h <;> subst h <;> rfl
      by_cases hp : x.pagedir_get_page k.world (ptr_add address (n * PGSIZE)) ≠ 0
      · rw [if_pos hp]
        exact ⟨_, hlook, Or.inl ⟨rfl, n, Nat.le_refl _, hlt, Or.inr hp⟩⟩
      · rw [if_neg hp]
        have hfree : ¬ occupied x k.world (ptr_add address (n * PGSIZE)) := by
          rintro (h | h)
          · exact h hnone
          · exact hp h
        by_cases hov : INT_MAX < ((n * PGSIZE : Nat) : Int) + (PGSIZE : Nat)
        · rw [if_pos hov]
          refine ⟨_, hlook, Or.inr (Or.inr ⟨rfl, ?_⟩)⟩
          intro m hm _ hmax
          have hmn : m = n := by
            by_contra hne
            have h1 : n + 1 ≤ m := by omega
            have h2 : ((n + 1) * PGSIZE : Nat) ≤ m * PGSIZE := Nat.mul_le_mul_right _ h1
            have h3 : ((n + 1) * PGSIZE : Nat) = n * PGSIZE + PGSIZE := by ring
            omega
          rw [hmn]; exact hfree
        · rw [if_neg hov]
          have hcast : ((n * PGSIZE : Nat) : Int) + (PGSIZE : Nat) = (((n + 1) * PGSIZE : Nat) : Int) := by
            push_cast; ring
          rw [hcast]
          obtain ⟨evs, hl, hres⟩ := ih (n + 1)
            { k with trace := k.trace ++ [Event.find_supple_entry (ptr_add address (n * PGSIZE)),
              Event.pagedir_get_page (ptr_add address (n * PGSIZE))] }
            (by push_cast at hf ⊢; linarith)
          have hall : ∀ e ∈ [Event.find_supple_entry (ptr_add address (n * PGSIZE)),
              Event.pagedir_get_page (ptr_add address (n * PGSIZE))] ++ evs,
              e.is_lookup = true := by
            intro e h
            rcases List.mem_append.1 h with h | h
            · exact hlook e h
            · exact hl e h
          refine ⟨_, hall, ?_⟩
          simp only [List.append_assoc] at hres
          rcases hres with ⟨hr, m, hm, hml, hocc⟩ | ⟨hr, hfr⟩ | ⟨hr, hfr⟩
          · exact Or.inl ⟨hr, m, by omega, hml, hocc⟩
          · refine Or.inr (Or.inl ⟨hr, ?_⟩)
            intro m hm hml
            by_cases hmn : m = n
            · rw [hmn]; exact hfree
            · exact hfr m (by omega) hml
          · refine Or.inr (Or.inr ⟨hr, ?_⟩)
            intro m hm hml hmax
            by_cases hmn : m = n
            · rw [hmn]; exact hfree
            · exact hfr m (by omega) hml hmax

theorem mmap_fuel (len : Int) (h : 0 < len) :
    len - ((0 * PGSIZE : Nat) : Int) ≤ (((len / PGSIZE + 1).toNat * PGSIZE : Nat) : Int) := by
  have h1 : (0 : Int) ≤ len / (PGSIZE : Nat) + 1 := by
    have : (0 : Int) ≤ len / (PGSIZE : Nat) := Int.ediv_nonneg (le_of_lt h) (by unfold PGSIZE; norm_num)
    omega
  push_cast
  rw [Int.toNat_of_nonneg h1]
  unfold PGSIZE
  push_cast
  omega

/-- The part of `mmap` after the loop found every page free (lines 479-485). -/
theorem mmap_tail_eval {W : Type} (x : Collab W) (fd : file_descriptor) (address : Nat)
    (length : Int) (k : Kernel W) :
    (do
      lock_acquire .fileLock
      let f ← command (.file_reopen fd.file) (fun w => x.file_reopen w fd.file)
      lock_release .fileLock
      if f = 0 then pure (-1)
      else command (.add_mmf address f length) (fun w => x.add_mmf w address f length) :
        K W Int) k =
      if (x.file_reopen k.world fd.file).2 = 0 then
        .ret (-1) { k with
          world := (x.file_reopen k.world fd.file).1,
          trace := k.trace ++ [Event.lock_acquire .fileLock, Event.file_reopen fd.file,
            Event.lock_release .fileLock] }
      else
        .ret (x.add_mmf (x.file_reopen k.world fd.file).1 address
            (x.file_reopen k.world fd.file).2 length).2
          { k with
            world := (x.add_mmf (x.file_reopen k.world fd.file).1 address
              (x.file_reopen k.world fd.file).2 length).1,
            trace := k.trace ++ [Event.lock_acquire .fileLock, Event.file_reopen fd.file,
              Event.lock_release .fileLock,
              Event.add_mmf address (x.file_reopen k.world fd.file).2 length] } := by
  unfold lock_acquire lock_release
  simp only [bind_eq, pure_eq, emit_bind, command_bind]
  by_cases hf : (x.file_reopen k.world fd.file).2 = 0
  · simp only [hf, if_true, kpure_apply, List.append_assoc, List.singleton_append,
      List.cons_append, List.nil_append]
  · simp only [hf, if_false, command, List.append_assoc, List.singleton_append,
      List.cons_append, List.nil_append]

/-- The function `mmap` up to its loop. -/
theorem mmap_eval {W : Type} (x : Collab W) (file_desc : Int) (address : Nat) (k : Kernel W) :
    mmap x file_desc address k =
      if address = 0 ∨ pg_ofs address ≠ 0 then .ret (-1) k
      else if file_desc = 0 ∨ file_desc = 1 then .ret (-1) k
      else
        match get_current_file file_desc k.open_file_list with
        | none => .ret (-1) k
        | some fd =>
          if x.file_length k.world fd.file ≤ 0 then
            .ret (-1) { k with trace := k.trace ++ [Event.file_length fd.file] }
          else
            K.bind (mmap_loop x address (x.file_length k.world fd.file)
                (x.file_length k.world fd.file / PGSIZE + 1).toNat 0)
              (fun free =>
                if (!free) = true then K.pure (-1)
                else do
                  lock_acquire .fileLock
                  let f ← command (.file_reopen fd.file) (fun w => x.file_reopen w fd.file)
                  lock_release .fileLock
                  if f = 0 then pure (-1)
                  else
                    let len := x.file_length k.world fd.file
                    command (.add_mmf address f len) (fun w => x.add_mmf w address f len))
              { k with trace := k.trace ++ [Event.file_length fd.file] } := by
  unfold mmap
  by_cases h1 : address = 0 ∨ pg_ofs address ≠ 0
  · rw [if_pos h1]
    rcases h1 with h | h
    · simp [h, pure_apply]
    · simp [h, pure_apply]
  · rw [if_neg h1]
    have ha : address ≠ 0 := fun h => h1 (Or.inl h)
    have hp : pg_ofs address = 0 := by
      by_contra h; exact h1 (Or.inr h)
    by_cases h2 : file_desc = 0 ∨ file_desc = 1
    · rw [if_pos h2]
      rcases h2 with h | h
      · simp [ha, hp, h, pure_apply]
      · simp [ha, hp, h, pure_apply]
    · rw [if_neg h2]
      have hf0 : file_desc ≠ 0 := fun h => h2 (Or.inl h)
      have hf1 : file_desc ≠ 1 := fun h => h2 (Or.inr h)
      simp only [ha, hp, hf0, hf1, decide_False, Bool.or_self, Bool.false_eq_true, if_false,
        ne_eq, not_true_eq_false, bind_eq, get_state_bind]
      cases hg : get_current_file file_desc k.open_file_list with
      | none => simp only [pure_eq, kpure_apply]
      | some fd =>
        simp only [query_bind]
        by_cases hl : x.file_length k.world fd.file ≤ 0
        · simp only [hl, if_true, pure_eq, kpure_apply]
        · simp only [hl, if_false, pure_eq]

/-- Every way `mmap` can end. -/
theorem mmap_cases {W : Type} (x : Collab W) (file_desc : Int) (address : Nat) (k : Kernel W) :
    ((address = 0 ∨ pg_ofs address ≠ 0 ∨ file_desc = 0 ∨ file_desc = 1 ∨
        get_current_file file_desc k.open_file_list = none) ∧
      mmap x file_desc address k = .ret (-1) k) ∨
    ∃ fd, get_current_file file_desc k.open_file_list = some fd ∧
      address ≠ 0 ∧ pg_ofs address = 0 ∧ file_desc ≠ 0 ∧ file_desc ≠ 1 ∧
      ((x.file_length k.world fd.file ≤ 0 ∧
        mmap x file_desc address k =
          .ret (-1) { k with trace := k.trace ++ [Event.file_length fd.file] }) ∨
      (0 < x.file_length k.world fd.file ∧
        ∃ evs, (∀ e ∈ evs, e.is_lookup = true) ∧
          ((mmap x file_desc address k =
              .ret (-1) { k with trace := k.trace ++ Event.file_length fd.file :: evs } ∧
            ∃ m, ((m * PGSIZE : Nat) : Int) < x.file_length k.world fd.file ∧
              occupied x k.world (ptr_add address (m * PGSIZE))) ∨
          (mmap x file_desc address k =
              .undefined { k with trace := k.trace ++ Event.file_length fd.file :: evs } ∧
            ∀ m, ((m * PGSIZE : Nat) : Int) < x.file_length k.world fd.file →
              ((m * PGSIZE : Nat) : Int) ≤ INT_MAX →
              ¬ occupied x k.world (ptr_add address (m * PGSIZE))) ∨
          ((∀ m, ((m * PGSIZE : Nat) : Int) < x.file_length k.world fd.file →
              ¬ occupied x k.world (ptr_add address (m * PGSIZE))) ∧
            (x.file_reopen k.world fd.file).2 = 0 ∧
            mmap x file_desc address k = .ret (-1) { k with
              world := (x.file_reopen k.world fd.file).1,
              trace := k.trace ++ Event.file_length fd.file :: evs ++
                [Event.lock_acquire .fileLock, Event.file_reopen fd.file,
                  Event.lock_release .fileLock] }) ∨
          ((∀ m, ((m * PGSIZE : Nat) : Int) < x.file_length k.world fd.file →
              ¬ occupied x k.world (ptr_add address (m * PGSIZE))) ∧
            (x.file_reopen k.world fd.file).2 ≠ 0 ∧
            mmap x file_desc address k =
              .ret (x.add_mmf (x.file_reopen k.world fd.file).1 address
                  (x.file_reopen k.world fd.file).2 (x.file_length k.world fd.file)).2
                { k with
                  world := (x.add_mmf (x.file_reopen k.world fd.file).1 address
                    (x.file_reopen k.world fd.file).2 (x.file_length k.world fd.file)).1,
                  trace := k.trace ++ Event.file_length fd.file :: evs ++
                    [Event.lock_acquire .fileLock, Event.file_reopen fd.file,
                      Event.lock_release .fileLock,
                      Event.add_mmf address (x.file_reopen k.world fd.file).2
                        (x.file_length k.world fd.file)] })))) := by
  rw [mmap_eval]
  by_cases h1 : address = 0 ∨ pg_ofs address ≠ 0
  · rw [if_pos h1]
    rcases h1 with h | h
    · exact Or.inl ⟨Or.inl h, rfl⟩
    · exact Or.inl ⟨Or.inr (Or.inl h), rfl⟩
  rw [if_neg h1]
  have ha : address ≠ 0 := fun h => h1 (Or.inl h)
  have hp : pg_ofs address = 0 := by
    by_contra h; exact h1 (Or.inr h)
  by_cases h2 : file_desc = 0 ∨ file_desc = 1
  · rw [if_pos h2]
    rcases h2 with h | h
    · exact Or.inl ⟨Or.inr (Or.inr (Or.inl h)), rfl⟩
    · exact Or.inl ⟨Or.inr (Or.inr (Or.inr (Or.inl h))), rfl⟩
  rw [if_neg h2]
  have hf0 : file_desc ≠ 0 := fun h => h2 (Or.inl h)
  have hf1 : file_desc ≠ 1 := fun h => h2 (Or.inr h)
  cases hg : get_current_file file_desc k.open_file_list with
  | none => exact Or.inl ⟨Or.inr (Or.inr (Or.inr (Or.inr rfl))), rfl⟩
  | some fd =>
    refine Or.inr ⟨fd, rfl, ha, hp, hf0, hf1, ?_⟩
    simp only
    by_cases hl : x.file_length k.world fd.file ≤ 0
    · rw [if_pos hl]
      exact Or.inl ⟨hl, rfl⟩
    · rw [if_neg hl]
      have hpos : 0 < x.file_length k.world fd.file := not_le.1 hl
      refine Or.inr ⟨hpos, ?_⟩
      obtain ⟨evs, hlook, hres⟩ := mmap_loop_spec x address (x.file_length k.world fd.file)
        (x.file_length k.world fd.file / PGSIZE + 1).toNat 0
        { k with trace := k.trace ++ [Event.file_length fd.file] } (mmap_fuel _ hpos)
      simp only [Nat.zero_mul, Nat.cast_zero, Nat.zero_le, true_implies, true_and,
        List.append_assoc, List.singleton_append] at hres
      refine ⟨evs, hlook, ?_⟩
      rcases hres with ⟨hr, hocc⟩ | ⟨hr, hfree⟩ | ⟨hr, hfree⟩
      · refine Or.inl ⟨?_, hocc⟩
        rw [K.bind_ret _ _ _ _ _ hr]
        rfl
      · refine Or.inr (Or.inr ?_)
        rw [K.bind_ret _ _ _ _ _ hr]
        simp only [Bool.not_true, Bool.false_eq_true, if_false]
        rw [mmap_tail_eval]
        by_cases hf : (x.file_reopen k.world fd.file).2 = 0
        · refine Or.inl ⟨hfree, hf, ?_⟩
          simp only [hf, if_true, List.append_assoc, List.cons_append]
        · refine Or.inr ⟨hfree, hf, ?_⟩
          simp only [hf, if_false, List.append_assoc, List.cons_append]
      · refine Or.inr (Or.inl ⟨?_, hfree⟩)
        simp only [K.bind, hr]

/-- C6. `mmap (fd, address)` returns -1 when `address` is null or not
page-aligned, `fd` is 0 or 1, `fd` is not in the open-file table, or the file's
length is zero or negative; the call returns (the process goes on), the world
and every part of the state but the trace are as before, and the only call it
may have made is `file_length`: no file is reopened and no mapping is added. -/
theorem mmap_rejects_bad_request {W : Type} (x : Collab W) (file_desc : Int) (address : Nat)
    (k : Kernel W)
    (h : address = 0 ∨ pg_ofs address ≠ 0 ∨ file_desc = 0 ∨ file_desc = 1 ∨
      get_current_file file_desc k.open_file_list = none ∨
      ∃ fd, get_current_file file_desc k.open_file_list = some fd ∧
        x.file_length k.world fd.file ≤ 0) :
    ∃ evs, mmap x file_desc address k = .ret (-1) { k with trace := k.trace ++ evs } ∧
      ∀ e ∈ evs, ∃ f, e = Event.file_length f := by
  have hnil : mmap x file_desc address k = .ret (-1) k →
      ∃ evs, mmap x file_desc address k = .ret (-1) { k with trace := k.trace ++ evs } ∧
        ∀ e ∈ evs, ∃ f, e = Event.file_length f := by
    intro hr
    exact ⟨[], by rw [hr, List.append_nil], by simp⟩
  rcases mmap_cases x file_desc address k with ⟨_, hr⟩ | ⟨fd, hg, ha, hp, hf0, hf1, hrest⟩
  · exact hnil hr
  · rcases h with h | h | h | h | h | ⟨fd2, hg2, hl⟩
    · exact absurd h ha
    · exact absurd hp h
    · exact absurd h hf0
    · exact absurd h hf1
    · rw [hg] at h; cases h
    · rw [hg] at hg2
      cases hg2
      rcases hrest with ⟨_, hr⟩ | ⟨hpos, _⟩
      · refine ⟨[Event.file_length fd.file], hr, ?_⟩
        intro e he
        exact ⟨fd.file, by simpa using he⟩
      · omega

/-- C6, witness: descriptor 0 is rejected. -/
theorem mmap_rejects_bad_request_witness :
    ∃ evs, mmap demo 0 0x10000000 one_file_kernel =
        .ret (-1) { one_file_kernel with trace := one_file_kernel.trace ++ evs } ∧
      ∀ e ∈ evs, ∃ f, e = Event.file_length f :=
  mmap_rejects_bad_request demo 0 0x10000000 one_file_kernel (Or.inr (Or.inr (Or.inl rfl)))

theorem mmap_occupied_rejected {W : Type} (x : Collab W) (file_desc : Int) (address : Nat)
    (k : Kernel W) (fd : file_descriptor)
    (hfd : get_current_file file_desc k.open_file_list = some fd)
    (hint : x.file_length k.world fd.file ≤ INT_MAX)
    (hocc : ∃ m : Nat, ((m * PGSIZE : Nat) : Int) < x.file_length k.world fd.file ∧
      occupied x k.world (ptr_add address (m * PGSIZE))) :
    ∃ k1, mmap x file_desc address k = .ret (-1) k1 ∧ k1.world = k.world := by
  obtain ⟨m, hm, ho⟩ := hocc
  rcases mmap_cases x file_desc address k with ⟨_, hr⟩ | ⟨fd2, hg, _, _, _, _, hrest⟩
  · exact ⟨k, hr, rfl⟩
  · rw [hfd] at hg
    cases hg
    rcases hrest with ⟨_, hr⟩ | ⟨_, evs, _, hcase⟩
    · exact ⟨_, hr, rfl⟩
    · rcases hcase with ⟨hr, _⟩ | ⟨_, hfree⟩ | ⟨hfree, _⟩ | ⟨hfree, _⟩
      · exact ⟨_, hr, rfl⟩
      · exact absurd ho (hfree m hm (le_trans (le_of_lt hm) hint))
      · exact absurd ho (hfree m hm)
      · exact absurd ho (hfree m hm)

theorem mmap_success_installs {W : Type} (x : Collab W) (hinst : installs_entries x)
    (file_desc : Int) (address : Nat) (k : Kernel W) (fd : file_descriptor)
    (hfd : get_current_file file_desc k.open_file_list = some fd)
    (id : Int) (k1 : Kernel W) (hr : mmap x file_desc address k = .ret id k1) (hid : id ≠ -1) :
    ∀ m : Nat, ((m * PGSIZE : Nat) : Int) < x.file_length k.world fd.file →
      x.find_supple_entry k1.world (ptr_add address (m * PGSIZE)) ≠ none := by
  rcases mmap_cases x file_desc address k with ⟨_, hr2⟩ | ⟨fd2, hg, _, _, _, _, hrest⟩
  · rw [hr] at hr2; cases hr2; exact absurd rfl hid
  · rw [hfd] at hg
    cases hg
    rcases hrest with ⟨_, hr2⟩ | ⟨_, evs, _, hcase⟩
    · rw [hr] at hr2; cases hr2; exact absurd rfl hid
    · rcases hcase with ⟨hr2, _⟩ | ⟨hr2, _⟩ | ⟨_, _, hr2⟩ | ⟨_, _, hr2⟩
      · rw [hr] at hr2; cases hr2; exact absurd rfl hid
      · rw [hr] at hr2; cases hr2
      · rw [hr] at hr2; cases hr2; exact absurd rfl hid
      · rw [hr] at hr2
        cases hr2
        intro m hm
        exact hinst _ _ _ _ hid m hm

/-- C7. `mmap` returns -1, with the world as it was, whenever some page of
`[address, address + length)`, `length` being the file's length, already has a
supplemental entry or a resident mapping. Hence, if a mapping that is made
installs an entry for each of its pages: a call that succeeds while the entries
of an earlier successful call are still there maps a range with no page in
common with the earlier one, and a call whose range shares a page with an
earlier successful one is rejected. -/
theorem mmap_no_overlap {W : Type} (x : Collab W) (file_desc : Int) (address : Nat)
    (k : Kernel W) (fd : file_descriptor)
    (hfd : get_current_file file_desc k.open_file_list = some fd)
    (hint : x.file_length k.world fd.file ≤ INT_MAX) :
    ((∃ m : Nat, ((m * PGSIZE : Nat) : Int) < x.file_length k.world fd.file ∧
        occupied x k.world (ptr_add address (m * PGSIZE))) →
      ∃ k1, mmap x file_desc address k = .ret (-1) k1 ∧ k1.world = k.world) ∧
    (installs_entries x →
      ∀ (file_desc0 : Int) (address0 : Nat) (k0 : Kernel W) (fd0 : file_descriptor) (id0 : Int)
        (k0r : Kernel W),
        get_current_file file_desc0 k0.open_file_list = some fd0 →
        mmap x file_desc0 address0 k0 = .ret id0 k0r → id0 ≠ -1 →
        entries_persist x k0r.world k.world →
        (∀ id k1, mmap x file_desc address k = .ret id k1 → id ≠ -1 →
          ∀ i j : Nat, ((i * PGSIZE : Nat) : Int) < x.file_length k0.world fd0.file →
            ((j * PGSIZE : Nat) : Int) < x.file_length k.world fd.file →
            ptr_add address0 (i * PGSIZE) ≠ ptr_add address (j * PGSIZE)) ∧
        ((∃ i j : Nat, ((i * PGSIZE : Nat) : Int) < x.file_length k0.world fd0.file ∧
            ((j * PGSIZE : Nat) : Int) < x.file_length k.world fd.file ∧
            ptr_add address0 (i * PGSIZE) = ptr_add address (j * PGSIZE)) →
          ∃ k1, mmap x file_desc address k = .ret (-1) k1 ∧ k1.world = k.world)) := by
  refine ⟨mmap_occupied_rejected x file_desc address k fd hfd hint, ?_⟩
  intro hinst file_desc0 address0 k0 fd0 id0 k0r hfd0 hr0 hid0 hpers
  have hrej : (∃ i j : Nat, ((i * PGSIZE : Nat) : Int) < x.file_length k0.world fd0.file ∧
      ((j * PGSIZE : Nat) : Int) < x.file_length k.world fd.file ∧
      ptr_add address0 (i * PGSIZE) = ptr_add address (j * PGSIZE)) →
      ∃ k1, mmap x file_desc address k = .ret (-1) k1 ∧ k1.world = k.world := by
    rintro ⟨i, j, hi, hj, heq⟩
    have hent := mmap_success_installs x hinst file_desc0 address0 k0 fd0 hfd0 id0 k0r hr0 hid0 i hi
    have hent2 := hpers _ hent
    rw [heq] at hent2
    exact mmap_occupied_rejected x file_desc address k fd hfd hint ⟨j, hj, Or.inl hent2⟩
  refine ⟨?_, hrej⟩
  intro id k1 hr hid i j hi hj heq
  obtain ⟨k2, hr2, _⟩ := hrej ⟨i, j, hi, hj, heq⟩
  rw [hr] at hr2
  cases hr2
  exact hid rfl

theorem demo_installs : installs_entries demo := by
  intro w address f length _ m hm
  show (if ptr_add address (m * PGSIZE) ∈ demo_pages address length ++ w.entries then
      some ({ uvaddr := ptr_add address (m * PGSIZE), is_loaded := false } :
        supple_page_table_entry) else none) ≠ none
  have hmem : ptr_add address (m * PGSIZE) ∈ demo_pages address length := by
    unfold demo_pages
    refine List.mem_map.2 ⟨m, List.mem_range.2 ?_, rfl⟩
    unfold PGSIZE at hm ⊢
    push_cast at hm
    omega
  rw [if_pos (List.mem_append_left _ hmem)]
  simp

/-- C7, witness: after `mmap (3, 0x10000000)` has mapped the 5000-byte file, a
request at `0x10001000`, the second page of that range, is rejected. -/
theorem mmap_no_overlap_witness :
    ∃ k1, mmap demo 3 0x10001000 (mmap demo 3 0x10000000 one_file_kernel).state = .ret (-1) k1 ∧
      k1.world = (mmap demo 3 0x10000000 one_file_kernel).state.world :=
  ((mmap_no_overlap demo 3 0x10001000 (mmap demo 3 0x10000000 one_file_kernel).state
    { fd_num := 3, file_owner := 2, file := 55 } rfl (by decide)).2 demo_installs
    3 0x10000000 one_file_kernel { fd_num := 3, file_owner := 2, file := 55 } 7 _ rfl rfl
    (by decide) (fun _ h => h)).2 ⟨1, 0, by decide, by decide, by decide⟩

theorem checked_out_after_append (l : List palloc_call) (e : palloc_call) (acc : List Nat) :
    checked_out_after (l ++ [e]) acc = checked_out_after [e] (checked_out_after l acc) := by
  induction l generalizing acc with
  | nil => rfl
  | cons c rest ih =>
    cases c with
    | get_page fl pg => simp only [List.cons_append, checked_out_after]; exact ih _
    | free_page pg => simp only [List.cons_append, checked_out_after]; exact ih _

theorem delete_frame_loop_sublist (a : Nat) (l : List frame) :
    (delete_frame_loop a l).Sublist l := by
  induction l with
  | nil => exact List.Sublist.refl _
  | cons r rest ih =>
    rw [delete_frame_loop]
    split_ifs
    · exact List.sublist_cons_self _ _
    · exact ih.cons₂ _

theorem delete_frame_loop_removes (a : Nat) (l : List frame)
    (h : (l.map (fun r => r.frame)).Nodup) :
    a ∉ (delete_frame_loop a l).map (fun r => r.frame) := by
  induction l with
  | nil => simp [delete_frame_loop]
  | cons r rest ih =>
    simp only [List.map_cons, List.nodup_cons] at h
    rw [delete_frame_loop]
    split_ifs with hr
    · rw [← hr]; exact h.1
    · simp only [List.map_cons, List.mem_cons, not_or]
      exact ⟨fun e => hr e.symm, ih h.2⟩

theorem delete_frame_loop_keeps (a : Nat) (l : List frame) (r : frame) (hr : r ∈ l)
    (hne : r.frame ≠ a) : r ∈ delete_frame_loop a l := by
  induction l with
  | nil => cases hr
  | cons q rest ih =>
    rw [delete_frame_loop]
    rcases List.mem_cons.1 hr with h | h
    · subst h
      rw [if_neg hne]
      exact List.mem_cons_self _ _
    · split_ifs
      · exact h
      · exact List.mem_cons_of_mem _ (ih h)

theorem get_frame_loop_record (a : Nat) (l : List frame) (p : frame_ptr) (i j : Nat)
    (h : get_frame_loop a p i l = .record j) (hp : ∀ n, p ≠ .record n) :
    i ≤ j ∧ ∃ r, l.get? (j - i) = some r ∧ r.frame = a := by
  induction l generalizing p i with
  | nil => rw [get_frame_loop] at h; exact absurd h (hp j)
  | cons q rest ih =>
    rw [get_frame_loop] at h
    split_ifs at h with hq
    · cases h
      exact ⟨Nat.le_refl _, q, by simp, hq⟩
    · obtain ⟨hle, r, hr, hra⟩ := ih .null (i + 1) h (by intro n; simp)
      refine ⟨by omega, r, ?_, hra⟩
      have : j - i = (j - (i + 1)) + 1 := by omega
      rw [this]
      simpa using hr

theorem modify_frames_addresses (l : List frame) (pte paddr i : Nat) :
    (l.modify (fun r => { r with page_table_entry := pte, uvpaddr := paddr }) i).map
      (fun r => r.frame) = l.map (fun r => r.frame) := by
  induction l generalizing i with
  | nil => cases i <;> rfl
  | cons q rest ih =>
    cases i with
    | zero => rfl
    | succ n =>
      simp only [List.modify_succ_cons, List.map_cons]
      rw [ih]

/-- What `set_frame_usr` leaves of the table when it is defined: the same
frame addresses in the same order, and the same allocator calls. -/
theorem set_frame_usr_addresses (junk a pte paddr : Nat) (s s1 : vm_state)
    (h : set_frame_usr junk a pte paddr s = some s1) :
    s1.frames.map (fun r => r.frame) = s.frames.map (fun r => r.frame) ∧
      s1.palloc = s.palloc := by
  unfold set_frame_usr at h
  split at h
  · cases h; exact ⟨rfl, rfl⟩
  · cases h
    exact ⟨modify_frames_addresses _ _ _ _, rfl⟩
  · split_ifs at h
    cases h; exact ⟨rfl, rfl⟩

/-- What a call of `allocate_frame` that returns has done. -/
theorem allocate_frame_returned (tid : Int) (page : Nat) (calloc_ok : Bool) (pflags a : Nat)
    (s s1 : vm_state) (h : allocate_frame tid page calloc_ok pflags s = .returned a s1) :
    a = page ∧ page ≠ 0 ∧ pflags &&& PAL_USER ≠ 0 ∧
    (∃ fl, s1.palloc = s.palloc ++ [palloc_call.get_page fl page]) ∧
    s1.frames = if calloc_ok then
      s.frames ++ [{ thread := tid, frame := page, page_table_entry := 0, uvpaddr := 0 }]
      else s.frames := by
  unfold allocate_frame at h
  by_cases hu : pflags &&& PAL_USER ≠ 0
  · by_cases hz : pflags &&& PAL_ZERO ≠ 0
    · simp only [hu, hz, if_true] at h
      split_ifs at h with hp
      cases h
      refine ⟨rfl, hp, hu, ⟨PAL_USER ||| PAL_ZERO, ?_⟩, ?_⟩
      · cases calloc_ok <;> simp [insert_frame, palloc_get_page]
      · cases calloc_ok <;> simp [insert_frame, palloc_get_page]
    · simp only [hu, hz, if_true, if_false] at h
      split_ifs at h with hp
      cases h
      refine ⟨rfl, hp, hu, ⟨PAL_USER, ?_⟩, ?_⟩
      · cases calloc_ok <;> simp [insert_frame, palloc_get_page]
      · cases calloc_ok <;> simp [insert_frame, palloc_get_page]
  · simp only [hu, if_false, ne_eq, not_true_eq_false] at h
    cases h

/-- The invariant behind C9: no two records share a frame address, and every
record's page is checked out of the allocator. -/
theorem reachable_invariant (s : vm_state) (h : reachable s) :
    (s.frames.map (fun r => r.frame)).Nodup ∧
      ∀ a ∈ s.frames.map (fun r => r.frame), a ∈ checked_out s := by
  induction h with
  | init s hp => exact ⟨List.nodup_nil, by intro a ha; simp [init_vm_frame] at ha⟩
  | alloc s s1 tid page calloc_ok pflags a hs hfresh hr ih =>
    obtain ⟨_, hp0, _, ⟨fl, hlog⟩, hfr⟩ := allocate_frame_returned _ _ _ _ _ _ _ hr
    have hout : checked_out s1 = page :: checked_out s := by
      unfold checked_out
      rw [hlog, checked_out_after_append]
      simp [checked_out_after, hp0]
    cases calloc_ok with
    | false =>
      simp only [Bool.false_eq_true, if_false] at hfr
      rw [hfr, hout]
      exact ⟨ih.1, fun b hb => List.mem_cons_of_mem _ (ih.2 b hb)⟩
    | true =>
      simp only [if_true] at hfr
      rw [hfr, hout]
      simp only [List.map_append, List.map_cons, List.map_nil]
      constructor
      · rw [List.nodup_append]
        refine ⟨ih.1, List.nodup_singleton _, ?_⟩
        intro b hb hb2
        simp only [List.mem_singleton] at hb2
        subst hb2
        exact hfresh (ih.2 _ hb)
      · intro b hb
        rcases List.mem_append.1 hb with h | h
        · exact List.mem_cons_of_mem _ (ih.2 b h)
        · simp only [List.mem_singleton] at h
          subst h
          exact List.mem_cons_self _ _
  | set s s1 junk a pte paddr hs hr ih =>
    obtain ⟨hfr, hlog⟩ := set_frame_usr_addresses _ _ _ _ _ _ hr
    have hout : checked_out s1 = checked_out s := by unfold checked_out; rw [hlog]
    rw [hfr, hout]
    exact ih
  | free s a hs hout ih =>
    have hfr : (free_vm_frame a s).frames = delete_frame_loop a s.frames := rfl
    have hco : checked_out (free_vm_frame a s) = (checked_out s).filter (fun q => q ≠ a) := by
      unfold checked_out
      show checked_out_after (s.palloc ++ [palloc_call.free_page a]) [] = _
      rw [checked_out_after_append]
      rfl
    rw [hfr, hco]
    constructor
    · exact ih.1.sublist ((delete_frame_loop_sublist a s.frames).map _)
    · intro b hb
      have hb2 : b ∈ s.frames.map (fun r => r.frame) :=
        ((delete_frame_loop_sublist a s.frames).map _).subset hb
      have hne : b ≠ a := by
        intro e
        subst e
        exact delete_frame_loop_removes b s.frames ih.1 hb
      exact List.mem_filter.2 ⟨ih.2 b hb2, by simpa using hne⟩

/-- C9. In every frame-table state reached from `init_vm_frame` by calls of
`allocate_frame`, `set_frame_usr` and `free_vm_frame` (the allocator never
handing out a page that is checked out, `free_vm_frame` given checked-out
pages only), at most one record exists for any frame address. -/
theorem one_record_per_frame (s : vm_state) (h : reachable s) (a : Nat) :
    (s.frames.map (fun r => r.frame)).count a ≤ 1 :=
  List.nodup_iff_count_le_one.1 (reachable_invariant s h).1 a

theorem sample_frames_reachable : reachable sample_frames :=
  reachable.free
    ⟨[⟨1, 0xC0100000, 0xC0200000, 0x08048000⟩, ⟨1, 0xC0101000, 0, 0⟩],
      [.get_page PAL_USER 0xC0100000, .get_page (PAL_USER ||| PAL_ZERO) 0xC0101000]⟩
    0xC0100000
    (reachable.set
      ⟨[⟨1, 0xC0100000, 0, 0⟩, ⟨1, 0xC0101000, 0, 0⟩],
        [.get_page PAL_USER 0xC0100000, .get_page (PAL_USER ||| PAL_ZERO) 0xC0101000]⟩
      _ 0xDEAD 0xC0100000 0xC0200000 0x08048000
      (reachable.alloc
        ⟨[⟨1, 0xC0100000, 0, 0⟩], [.get_page PAL_USER 0xC0100000]⟩
        _ 1 0xC0101000 true (PAL_USER ||| PAL_ZERO) 0xC0101000
        (reachable.alloc boot_frames _ 1 0xC0100000 true PAL_USER 0xC0100000
          (reachable.init _ rfl) (by decide) (by decide))
        (by decide) (by decide))
      (by decide))
    (by decide)

/-- C9, witness: the table reached by two allocations, a binding and a release
holds at most one record for the page `0xC0101000`. -/
theorem one_record_per_frame_witness :
    (sample_frames.frames.map (fun r => r.frame)).count 0xC0101000 ≤ 1 :=
  one_record_per_frame sample_frames sample_frames_reachable 0xC0101000

/-- C8, at the failing input. When `palloc_get_page` hands out the page
`0xC0100000` but `calloc` has no memory for the record, `insert_frame` returns
false, `allocate_frame` ignores that and returns the page: the frame table,
empty before, is still empty, so the returned frame has no record. -/
theorem allocate_frame_without_record :
    allocate_frame 1 0xC0100000 false PAL_USER boot_frames =
      .returned 0xC0100000 { frames := [], palloc := [.get_page PAL_USER 0xC0100000] } := by
  decide

theorem delete_frame_loop_last (a : Nat) (l : List frame) (r : frame)
    (h : a ∉ l.map (fun q => q.frame)) (hr : r.frame = a) :
    delete_frame_loop a (l ++ [r]) = l := by
  induction l with
  | nil => simp [delete_frame_loop, hr]
  | cons q rest ih =>
    simp only [List.map_cons, List.mem_cons, not_or] at h
    rw [List.cons_append, delete_frame_loop, if_neg (fun e => h.1 e.symm), ih h.2]

/-- The round trip of C8 when `calloc` succeeds and the page had no record: the
table gains exactly one record for the returned page, owned by the caller, and
`free_vm_frame` of that page restores the table as it was. -/
theorem allocate_release_round_trip (tid : Int) (page pflags : Nat) (s : vm_state)
    (hp : page ≠ 0) (hu : pflags &&& PAL_USER ≠ 0)
    (hnew : page ∉ s.frames.map (fun r => r.frame)) :
    ∃ s1, allocate_frame tid page true pflags s = .returned page s1 ∧
      s1.frames = s.frames ++
        [{ thread := tid, frame := page, page_table_entry := 0, uvpaddr := 0 }] ∧
      (s1.frames.map (fun r => r.frame)).count page = 1 ∧
      (free_vm_frame page s1).frames = s.frames ∧
      page ∉ (free_vm_frame page s1).frames.map (fun r => r.frame) := by
  have hfr : ∀ fl, (insert_frame tid true page (palloc_get_page fl page s)).2.frames =
      s.frames ++ [{ thread := tid, frame := page, page_table_entry := 0, uvpaddr := 0 }] := by
    intro fl; rfl
  have key : ∀ s1 : vm_state, s1.frames = s.frames ++
      [{ thread := tid, frame := page, page_table_entry := 0, uvpaddr := 0 }] →
      (s1.frames.map (fun r => r.frame)).count page = 1 ∧
      (free_vm_frame page s1).frames = s.frames ∧
      page ∉ (free_vm_frame page s1).frames.map (fun r => r.frame) := by
    intro s1 h1
    have hdel : (free_vm_frame page s1).frames = s.frames := by
      show delete_frame_loop page s1.frames = s.frames
      rw [h1]
      exact delete_frame_loop_last page s.frames _ hnew rfl
    refine ⟨?_, hdel, by rw [hdel]; exact hnew⟩
    rw [h1]
    simp [List.count_eq_zero_of_not_mem hnew]
  unfold allocate_frame
  by_cases hz : pflags &&& PAL_ZERO ≠ 0
  · simp only [hu, hz, if_true, hp, ne_eq, not_false_eq_true]
    exact ⟨_, rfl, hfr _, key _ (hfr _)⟩
  · simp only [hu, hz, if_true, if_false, hp, ne_eq, not_false_eq_true]
    exact ⟨_, rfl, hfr _, key _ (hfr _)⟩

/-- C10, at the failing input. On the empty frame table the loop of `get_frame`
never runs, so `get_frame` returns its local `vm_frame` as it was left,
unassigned; holding the non-null value `0xC0DE`, `set_frame_usr` stores the two
back-pointers through it instead of doing nothing. -/
theorem set_frame_usr_on_empty_table :
    get_frame 0xC0DE 0xC0100000 boot_frames = .indeterminate 0xC0DE ∧
    set_frame_usr 0xC0DE 0xC0100000 0xC0200000 0x08048000 boot_frames = none := by
  decide

theorem get_frame_loop_absent (a : Nat) (l : List frame) (p : frame_ptr) (i : Nat)
    (h : a ∉ l.map (fun r => r.frame)) (hl : l ≠ []) : get_frame_loop a p i l = .null := by
  induction l generalizing p i with
  | nil => exact absurd rfl hl
  | cons q rest ih =>
    simp only [List.map_cons, List.mem_cons, not_or] at h
    rw [get_frame_loop, if_neg (fun e => h.1 e.symm)]
    cases rest with
    | nil => rfl
    | cons q2 rest2 => exact ih _ _ h.2 (by simp)

/-- The part of C10 that holds: on a table that is not empty, `set_frame_usr`
for a frame without a record changes nothing, and for a frame with a record it
keeps every record's frame address, the order and the allocator calls. -/
theorem set_frame_usr_nonempty (junk a pte paddr : Nat) (s : vm_state) (hl : s.frames ≠ []) :
    (a ∉ s.frames.map (fun r => r.frame) → set_frame_usr junk a pte paddr s = some s) ∧
    ∃ s1, set_frame_usr junk a pte paddr s = some s1 ∧
      s1.frames.map (fun r => r.frame) = s.frames.map (fun r => r.frame) ∧
      s1.palloc = s.palloc := by
  have hne : ∀ v, get_frame junk a s ≠ .indeterminate v := by
    intro v
    unfold get_frame
    cases hfr : s.frames with
    | nil => exact absurd hfr hl
    | cons q rest =>
      rw [get_frame_loop]
      split_ifs
      · simp
      · intro h
        cases rest with
        | nil => simp [get_frame_loop] at h
        | cons q2 rest2 =>
          by_cases hmem : a ∈ (q2 :: rest2).map (fun r => r.frame)
          · have : ∀ (l : List frame) (i : Nat), a ∈ l.map (fun r => r.frame) →
                ∃ j, get_frame_loop a .null i l = .record j := by
              intro l
              induction l with
              | nil => intro i hm; simp at hm
              | cons r rs ihl =>
                intro i hm
                rw [get_frame_loop]
                split_ifs with hr
                · exact ⟨i, rfl⟩
                · simp only [List.map_cons, List.mem_cons] at hm
                  rcases hm with hm | hm
                  · exact absurd hm.symm hr
                  · exact ihl (i + 1) hm
            obtain ⟨j, hj⟩ := this _ 1 hmem
            rw [hj] at h; cases h
          · rw [get_frame_loop_absent a _ _ _ hmem (by simp)] at h
            cases h
  constructor
  · intro habs
    unfold set_frame_usr get_frame
    rw [get_frame_loop_absent a _ _ _ habs hl]
  · cases hs : set_frame_usr junk a pte paddr s with
    | some s1 => exact ⟨s1, rfl, set_frame_usr_addresses _ _ _ _ _ _ hs⟩
    | none =>
      exfalso
      unfold set_frame_usr at hs
      split at hs
      · cases hs
      · cases hs
      · rename_i v hv
        exact hne v hv

theorem exit_loop_children (parent cur_tid status : Int) (l : List child) :
    (exit_loop parent cur_tid status l).1 =
      l.map (fun c => if c.cid = cur_tid then
        { c with exit_call := true, exit_status := status } else c) := by
  induction l with
  | nil => rfl
  | cons c rest ih =>
    rw [exit_loop]
    split_ifs with hc
    · simp [hc, ih]
    · simp [hc, ih]

theorem findIdx_get {α : Type} (p : α → Bool) (l : List α) (i : Nat)
    (h : l.findIdx? p = some i) : ∃ a, l.get? i = some a ∧ p a = true := by
  rw [List.findIdx?_eq_some_iff_getElem] at h
  obtain ⟨hlt, hp, _⟩ := h
  exact ⟨l[i], by simp [hlt], hp⟩

/-- C12. `exit (status)` never returns: the run ends in `thread_exit`. If
`get_thread (cur->pid)` finds the parent, the parent's child list afterwards is
the old one with exactly the records whose `cid` is the exiting thread's tid
changed, to `exit_call` set and `exit_status = status`, in the same order, and
no other thread is touched; if it finds none, no thread and so no child list
is changed. -/
theorem exit_records_status {W : Type} (status : Int) (k : Kernel W) :
    exit status k = .exited (exit_state status k) ∧
    (get_thread k.threads k.cur.pid = none → (exit_state status k).threads = k.threads) ∧
    (∀ i, get_thread k.threads k.cur.pid = some i →
      ∃ parent, k.threads.get? i = some parent ∧ parent.tid = k.cur.pid ∧
        (exit_state status k).threads = k.threads.set i { parent with
          children := parent.children.map (fun c => if c.cid = k.cur.tid then
            { c with exit_call := true, exit_status := status } else c) }) := by
  refine ⟨rfl, ?_, ?_⟩
  · intro h
    unfold exit_state exit_record
    simp only [h]
  · intro i h
    obtain ⟨parent, hp, htid⟩ := findIdx_get _ _ _ h
    refine ⟨parent, hp, by simpa using htid, ?_⟩
    unfold exit_state exit_record
    simp only [h, hp, exit_loop_children, List.map_reverse, List.reverse_reverse]

theorem exec_wait_done {W : Type} (x : Collab W) (l : Lock) (fuel : Nat) (k : Kernel W)
    (h : x.child_load_success k.world ≠ 0) : exec_wait x l fuel k = .ret () k := by
  cases fuel <;> simp [exec_wait, h]

theorem exec_wait_step {W : Type} (x : Collab W) (l : Lock) (fuel : Nat) (k : Kernel W)
    (h : x.child_load_success k.world = 0) :
    exec_wait x l (fuel + 1) k =
      exec_wait x l fuel { k with
        world := x.cond_wait k.world, trace := k.trace ++ [Event.cond_wait l] } := by
  rw [exec_wait]
  simp only [h, if_true, effect_bind]

/-- The wait loop of `exec` returns only in a world whose flag is non-zero. -/
theorem exec_wait_ret {W : Type} (x : Collab W) (l : Lock) :
    ∀ (fuel : Nat) (k k1 : Kernel W), exec_wait x l fuel k = .ret () k1 →
      x.child_load_success k1.world ≠ 0 := by
  intro fuel
  induction fuel with
  | zero =>
    intro k k1 h
    by_cases hz : x.child_load_success k.world = 0
    · simp [exec_wait, hz] at h
    · rw [exec_wait_done x l _ k hz] at h
      cases h; exact hz
  | succ f ih =>
    intro k k1 h
    by_cases hz : x.child_load_success k.world = 0
    · rw [exec_wait_step x l f k hz] at h
      exact ih _ _ h
    · rw [exec_wait_done x l _ k hz] at h
      cases h; exact hz

/-- The wait loop of `exec` when the flag turns non-zero after `n` waits. -/
theorem exec_wait_after {W : Type} (x : Collab W) (l : Lock) :
    ∀ (n fuel : Nat) (k : Kernel W), n ≤ fuel →
      (∀ j, j < n → x.child_load_success (wait_world x k.world j) = 0) →
      x.child_load_success (wait_world x k.world n) ≠ 0 →
      exec_wait x l fuel k = .ret () { k with
        world := wait_world x k.world n,
        trace := k.trace ++ List.replicate n (Event.cond_wait l) } := by
  intro n
  induction n with
  | zero =>
    intro fuel k _ _ hn
    rw [exec_wait_done x l fuel k hn]
    simp [wait_world]
  | succ m ih =>
    intro fuel k hle hz hn
    cases fuel with
    | zero => omega
    | succ f =>
      rw [exec_wait_step x l f k (hz 0 (by omega))]
      rw [ih f _ (by omega) (fun j hj => hz (j + 1) (by omega)) hn]
      simp [wait_world, List.replicate_succ]

/-- The wait loop of `exec` when the flag stays zero for all its fuel. -/
theorem exec_wait_starved {W : Type} (x : Collab W) (l : Lock) :
    ∀ (fuel : Nat) (k : Kernel W),
      (∀ j, j ≤ fuel → x.child_load_success (wait_world x k.world j) = 0) →
      ∃ k1, exec_wait x l fuel k = .out_of_fuel k1 := by
  intro fuel
  induction fuel with
  | zero =>
    intro k hz
    have h0 : x.child_load_success k.world = 0 := hz 0 (Nat.le_refl _)
    exact ⟨k, by simp [exec_wait, h0]⟩
  | succ f ih =>
    intro k hz
    rw [exec_wait_step x l f k (hz 0 (by omega))]
    exact ih _ (fun j hj => hz (j + 1) (by omega))

/-- The function `exec` on a valid pointer, up to its wait loop. -/
theorem exec_eval {W : Type} (x : Collab W) (fuel cmd_line : Nat) (k : Kernel W)
    (hv : mapped_user x k.world cmd_line) :
    exec x fuel cmd_line k =
      K.bind (exec_wait x (.child_lock k.cur.tid) fuel) (fun _ k2 =>
        .ret (if x.child_load_success k2.world = -1 then -1
            else (x.process_execute (x.set_child_load_success k.world 0) cmd_line).2)
          { k2 with trace := k2.trace ++ [Event.lock_release (.child_lock k.cur.tid)] })
        { k with
          world := (x.process_execute (x.set_child_load_success k.world 0) cmd_line).1,
          trace := k.trace ++ [Event.pagedir_get_page cmd_line, Event.set_child_load_success 0,
            Event.process_execute cmd_line, Event.lock_acquire (.child_lock k.cur.tid)] } := by
  have hp := is_valid_pointer_eval x cmd_line k
  rw [if_pos ⟨hv.1, hv.2.1⟩] at hp
  unfold exec
  simp only [bind_eq]
  rw [K.bind_ret _ _ _ _ _ hp]
  simp only [hv.2.2, ne_eq, not_false_eq_true, decide_True, Bool.not_true, Bool.false_eq_true,
    if_false, pure_eq, pure_bind_apply, effect_bind, command_bind, get_state_bind, lock_acquire,
    lock_release, emit_bind, List.append_assoc, List.singleton_append, List.cons_append,
    List.nil_append]
  rfl

/-- C14. `exec (cmd_line)` on a valid pointer resets the flag, calls
`process_execute` and waits: whenever it returns, the caller's
`child_load_success` is non-zero, the result is -1 if the flag is -1 and the
identifier from `process_execute` otherwise. It does return, after `n` waits,
when the flag turns non-zero after `n` waits within the fuel; while the flag
stays zero it is still waiting. -/
theorem exec_waits_for_load {W : Type} (x : Collab W) (fuel cmd_line : Nat) (k : Kernel W)
    (hv : mapped_user x k.world cmd_line) :
    (∀ r k1, exec x fuel cmd_line k = .ret r k1 →
      x.child_load_success k1.world ≠ 0 ∧
      (x.child_load_success k1.world = -1 → r = -1) ∧
      (x.child_load_success k1.world ≠ -1 →
        r = (x.process_execute (x.set_child_load_success k.world 0) cmd_line).2)) ∧
    (∀ n, n ≤ fuel →
      (∀ j, j < n → x.child_load_success (wait_world x
        (x.process_execute (x.set_child_load_success k.world 0) cmd_line).1 j) = 0) →
      x.child_load_success (wait_world x
        (x.process_execute (x.set_child_load_success k.world 0) cmd_line).1 n) ≠ 0 →
      exec x fuel cmd_line k =
        .ret (if x.child_load_success (wait_world x
            (x.process_execute (x.set_child_load_success k.world 0) cmd_line).1 n) = -1 then -1
          else (x.process_execute (x.set_child_load_success k.world 0) cmd_line).2)
          { k with
            world := wait_world x
              (x.process_execute (x.set_child_load_success k.world 0) cmd_line).1 n,
            trace := k.trace ++ [Event.pagedir_get_page cmd_line,
              Event.set_child_load_success 0, Event.process_execute cmd_line,
              Event.lock_acquire (.child_lock k.cur.tid)] ++
              List.replicate n (Event.cond_wait (.child_lock k.cur.tid)) ++
              [Event.lock_release (.child_lock k.cur.tid)] }) ∧
    ((∀ j, j ≤ fuel → x.child_load_success (wait_world x
        (x.process_execute (x.set_child_load_success k.world 0) cmd_line).1 j) = 0) →
      ∃ k1, exec x fuel cmd_line k = .out_of_fuel k1) := by
  rw [exec_eval x fuel cmd_line k hv]
  refine ⟨?_, ?_, ?_⟩
  · intro r k1 h
    cases hw : exec_wait x (.child_lock k.cur.tid) fuel { k with
        world := (x.process_execute (x.set_child_load_success k.world 0) cmd_line).1,
        trace := k.trace ++ [Event.pagedir_get_page cmd_line, Event.set_child_load_success 0,
          Event.process_execute cmd_line, Event.lock_acquire (.child_lock k.cur.tid)] } with
    | ret u k2 =>
      have hflag := exec_wait_ret x _ fuel _ k2 hw
      rw [K.bind_ret _ _ _ _ _ hw] at h
      cases h
      refine ⟨hflag, ?_, ?_⟩
      · intro h1; simp [h1]
      · intro h1; simp [h1]
    | exited k2 => simp [K.bind, hw] at h
    | halted k2 => simp [K.bind, hw] at h
    | undefined k2 => simp [K.bind, hw] at h
    | out_of_fuel k2 => simp [K.bind, hw] at h
  · intro n hn hz hnz
    rw [K.bind_ret _ _ _ _ _ (exec_wait_after x _ n fuel _ hn hz hnz)]
  · intro hz
    obtain ⟨k1, h1⟩ := exec_wait_starved x (.child_lock k.cur.tid) fuel { k with
        world := (x.process_execute (x.set_child_load_success k.world 0) cmd_line).1,
        trace := k.trace ++ [Event.pagedir_get_page cmd_line, Event.set_child_load_success 0,
          Event.process_execute cmd_line, Event.lock_acquire (.child_lock k.cur.tid)] } hz
    exact ⟨k1, by simp [K.bind, h1]⟩

/-- C14, witness: in the sample world the child has reported success at once,
and `exec` of the mapped command line `0xB0000010` returns the child's id 3
without waiting. -/
theorem exec_waits_for_load_witness :
    mapped_user demo two_page_kernel.world 0xB0000010 ∧
    exec demo 5 0xB0000010 two_page_kernel =
      .ret 3 { two_page_kernel with
        trace := [Event.pagedir_get_page 0xB0000010, Event.set_child_load_success 0,
          Event.process_execute 0xB0000010, Event.lock_acquire (.child_lock 2),
          Event.lock_release (.child_lock 2)] } :=
  ⟨by decide, (exec_waits_for_load demo 5 0xB0000010 two_page_kernel (by decide)).2.1 0
    (by decide) (fun j hj => absurd hj (Nat.not_lt_zero j)) (by decide)⟩

theorem demo_page_resident (w : Demo) (a p : Nat) (hp : p ∈ w.resident) (ha : a / PGSIZE = p)
    (h0 : a ≠ 0) (hu : a < PHYS_BASE) : mapped_user demo w a := by
  refine ⟨h0, by simp [is_user_vaddr, hu], ?_⟩
  show (if a / PGSIZE ∈ w.resident then PHYS_BASE + a % PGSIZE else 0) ≠ 0
  rw [ha, if_pos hp]
  unfold PHYS_BASE
  omega

/-- C16, at the failing input. `mmap (3, 0xC0000000)`, the first address of
kernel space, with descriptor 3 open on a 5000-byte file: the address is never
tested with `is_user_vaddr`; the page directory is asked about the kernel
addresses `0xC0000000` and `0xC0001000`, and the mapping is made. -/
theorem mmap_at_kernel_address :
    is_user_vaddr 0xC0000000 = false ∧
    mmap demo 3 0xC0000000 one_file_kernel =
      .ret 7 { one_file_kernel with
        world := { resident := [], entries := [0xC0000000, 0xC0001000], keys := [] },
        trace := [Event.file_length 55,
          Event.find_supple_entry 0xC0000000, Event.pagedir_get_page 0xC0000000,
          Event.find_supple_entry 0xC0001000, Event.pagedir_get_page 0xC0001000,
          Event.lock_acquire .fileLock, Event.file_reopen 55, Event.lock_release .fileLock,
          Event.add_mmf 0xC0000000 56 5000] } :=
  ⟨by decide, rfl⟩

/-- C18, at the failing input. A buffer of exactly one page, every byte of
which lies in a resident user page: `read (5, 0xB0000000, 4096)` goes on to
probe `0xB0001000`, the first byte after the buffer, and ends in `exit (-1)`
because that page is not mapped; `read (5, 0xBFFFF000, 4096)` goes on to
`0xC0000000`, the start of kernel space, and ends in `exit (-1)`. Neither call
takes the file-table lock. -/
theorem read_probes_past_page_multiple :
    (∀ i, i < 4096 → mapped_user demo two_page_kernel.world (0xB0000000 + i)) ∧
    read demo 5 0xB0000000 4096 two_page_kernel =
      .exited (exit_state (-1) { two_page_kernel with
        trace := [Event.pagedir_get_page 0xB0000000, Event.pagedir_get_page 0xB0001000,
          Event.find_supple_entry 0xB0001000] }) ∧
    (∀ i, i < 4096 → mapped_user demo two_page_kernel.world (0xBFFFF000 + i)) ∧
    read demo 5 0xBFFFF000 4096 two_page_kernel =
      .exited (exit_state (-1) { two_page_kernel with
        trace := [Event.pagedir_get_page 0xBFFFF000] }) := by
  refine ⟨?_, rfl, ?_, rfl⟩
  · intro i hi
    refine demo_page_resident _ _ 0xB0000 (by decide) ?_ (by omega) ?_
    · unfold PGSIZE; omega
    · unfold PHYS_BASE; omega
  · intro i hi
    refine demo_page_resident _ _ 0xBFFFF (by decide) ?_ (by omega) ?_
    · unfold PGSIZE; omega
    · unfold PHYS_BASE; omega

/-- C19, at the failing input. Thread 2 names descriptor 3, whose record
belongs to thread 9: `filesize`, `read`, `write`, `seek`, `tell` and `mmap`
use thread 9's file (they measure, read, write, reposition, query and reopen
handle 55), where for the absent descriptor 4 `filesize` returns -1 and `read`
returns 0 without any file call. Only `close` compares the owner and leaves the
record alone. -/
theorem foreign_descriptor_used :
    foreign_file_kernel.cur.tid = 2 ∧
    foreign_file_kernel.open_file_list = [{ fd_num := 3, file_owner := 9, file := 55 }] ∧
    filesize demo 3 foreign_file_kernel =
      .ret 5000 { foreign_file_kernel with
        trace := [Event.lock_acquire .fileLock, Event.file_length 55,
          Event.lock_release .fileLock] } ∧
    filesize demo 4 foreign_file_kernel =
      .ret (-1) { foreign_file_kernel with
        trace := [Event.lock_acquire .fileLock, Event.lock_release .fileLock] } ∧
    read demo 3 0xB0000000 10 foreign_file_kernel =
      .ret 10 { foreign_file_kernel with
        trace := [Event.pagedir_get_page 0xB0000000, Event.pagedir_get_page 0xB0000009,
          Event.lock_acquire .fileLock, Event.file_read 55 0xB0000000 10,
          Event.lock_release .fileLock] } ∧
    read demo 4 0xB0000000 10 foreign_file_kernel =
      .ret 0 { foreign_file_kernel with
        trace := [Event.pagedir_get_page 0xB0000000, Event.pagedir_get_page 0xB0000009,
          Event.lock_acquire .fileLock, Event.lock_release .fileLock] } ∧
    write demo 3 0xB0000000 10 foreign_file_kernel =
      .ret 10 { foreign_file_kernel with
        trace := [Event.pagedir_get_page 0xB0000000, Event.pagedir_get_page 0xB0000009,
          Event.lock_acquire .fileLock, Event.file_write 55 0xB0000000 10,
          Event.lock_release .fileLock] } ∧
    seek demo 3 7 foreign_file_kernel =
      .ret () { foreign_file_kernel with
        trace := [Event.lock_acquire .fileLock, Event.file_seek 55 7,
          Event.lock_release .fileLock] } ∧
    tell demo 3 foreign_file_kernel =
      .ret 0 { foreign_file_kernel with
        trace := [Event.lock_acquire .fileLock, Event.file_tell 55,
          Event.lock_release .fileLock] } ∧
    (∃ k1, mmap demo 3 0x10000000 foreign_file_kernel = .ret 7 k1 ∧
      Event.file_reopen 55 ∈ k1.trace) ∧
    close demo 3 foreign_file_kernel =
      .ret () { foreign_file_kernel with
        trace := [Event.lock_acquire .fileLock, Event.lock_release .fileLock] } :=
  ⟨rfl, rfl, rfl, rfl, rfl, rfl, rfl, rfl, rfl, ⟨_, rfl, by decide⟩, rfl⟩

/-- C20, at the failing input. `read (STDIN_FILENO, 0xB0000000, 3)` with `a`,
`b`, `c` waiting at the keyboard consumes `a` and `b` and returns 2, but the
loop advances `buffer` instead of `buf`: both characters and the final zero are
stored at the first byte of the buffer, and nothing at `0xB0000001`. With size
0 a zero byte is still stored at the first byte. -/
theorem stdin_read_overwrites_first_byte :
    read demo STDIN_FILENO 0xB0000000 3 keyboard_kernel =
      .ret 2 { keyboard_kernel with
        world := { resident := [0xB0000, 0xBFFFF], entries := [], keys := [99] },
        trace := [Event.pagedir_get_page 0xB0000000, Event.pagedir_get_page 0xB0000002,
          Event.lock_acquire .fileLock,
          Event.input_getc, Event.store_byte 0xB0000000 97,
          Event.input_getc, Event.store_byte 0xB0000000 98,
          Event.store_byte 0xB0000000 0, Event.lock_release .fileLock] } ∧
    read demo STDIN_FILENO 0xB0000000 0 keyboard_kernel =
      .ret 0 { keyboard_kernel with
        trace := [Event.pagedir_get_page 0xB0000000, Event.lock_acquire .fileLock,
          Event.store_byte 0xB0000000 0, Event.lock_release .fileLock] } :=
  ⟨rfl, rfl⟩

/-- C15, at the failing input. Thread 2 closes its descriptor 3 while the word
read through the tail sentinel of `open_file_list` is 3: the scan of
`close_current_file` starts at `list_end`, takes the sentinel for the record
and hands it to `list_remove`, whose assertion fails. The kernel panics with
the file-table lock held; the record stays and its file is not closed. -/
theorem close_unlinks_tail_sentinel :
    one_file_kernel.cur.tid = 2 ∧
    one_file_kernel.open_file_list = [{ fd_num := 3, file_owner := 2, file := 55 }] ∧
    close sentinel_demo 3 one_file_kernel =
      .halted { one_file_kernel with
        trace := [Event.lock_acquire .fileLock, Event.panic] } :=
  ⟨rfl, rfl, rfl⟩

theorem close_scan_eq (fd : Int) (l : List file_descriptor) :
    close_scan fd l =
      (l.find? (fun d => decide (d.fd_num = fd)), l.eraseP (fun d => decide (d.fd_num = fd))) := by
  induction l with
  | nil => rfl
  | cons d rest ih =>
    by_cases h : d.fd_num = fd
    · simp [close_scan, h]
    · simp [close_scan, h, ih]

/-- The function `close` when no record has the number `fd`: only the lock is
taken and released. -/
theorem close_absent {W : Type} (x : Collab W) (fd : Int) (k : Kernel W)
    (h : get_current_file fd k.open_file_list = none) :
    close x fd k = .ret () { k with
      trace := k.trace ++ [Event.lock_acquire .fileLock, Event.lock_release .fileLock] } := by
  unfold close lock_acquire lock_release
  simp only [bind_eq, pure_eq, emit_bind, get_state_bind]
  simp only [h, pure_bind_apply, emit, List.append_assoc, List.singleton_append]

/-- The function `close` on a record of another thread: only the lock is taken
and released. -/
theorem close_foreign {W : Type} (x : Collab W) (fd : Int) (k : Kernel W) (d : file_descriptor)
    (h : get_current_file fd k.open_file_list = some d) (ho : d.file_owner ≠ k.cur.tid) :
    close x fd k = .ret () { k with
      trace := k.trace ++ [Event.lock_acquire .fileLock, Event.lock_release .fileLock] } := by
  unfold close lock_acquire lock_release
  simp only [bind_eq, pure_eq, emit_bind, get_state_bind]
  simp only [h, ho, if_false, pure_bind_apply, emit, List.append_assoc, List.singleton_append]

theorem close_current_file_found {W : Type} (x : Collab W) (fd : Int) (k : Kernel W)
    (d : file_descriptor) (hs : x.tail_fd_num k.world ≠ fd)
    (hf : k.open_file_list.reverse.find? (fun r => decide (r.fd_num = fd)) = some d) :
    close_current_file x fd k = .ret () { k with
      world := x.file_close k.world d.file,
      open_file_list :=
        (k.open_file_list.reverse.eraseP (fun r => decide (r.fd_num = fd))).reverse,
      trace := k.trace ++ [Event.file_close d.file] } := by
  unfold close_current_file
  simp only [bind_eq, pure_eq, get_state_bind, hs, if_false, close_scan_eq, hf]
  rfl

theorem close_current_file_sentinel {W : Type} (x : Collab W) (fd : Int) (k : Kernel W)
    (hs : x.tail_fd_num k.world = fd) :
    close_current_file x fd k = .halted { k with trace := k.trace ++ [Event.panic] } := by
  unfold close_current_file
  simp only [bind_eq, pure_eq, get_state_bind, hs, if_true]
  rfl

/-- The function `close` by the owner, when the word read through the tail
sentinel is not `fd`: the record found from the tail is unlinked and its file
closed; the other records keep their order. -/
theorem close_removes_record {W : Type} (x : Collab W) (fd : Int) (k : Kernel W)
    (d : file_descriptor) (hs : x.tail_fd_num k.world ≠ fd)
    (h : get_current_file fd k.open_file_list = some d) (ho : d.file_owner = k.cur.tid) :
    close x fd k = .ret () { k with
      world := x.file_close k.world d.file,
      open_file_list :=
        (k.open_file_list.reverse.eraseP (fun r => decide (r.fd_num = fd))).reverse,
      trace := k.trace ++ [Event.lock_acquire .fileLock, Event.file_close d.file,
        Event.lock_release .fileLock] } := by
  have hf : k.open_file_list.reverse.find? (fun r => decide (r.fd_num = fd)) = some d := h
  unfold close lock_acquire lock_release
  simp only [bind_eq, pure_eq, emit_bind, get_state_bind]
  simp only [h, ho, if_true]
  have hc := close_current_file_found x fd
    { k with trace := k.trace ++ [Event.lock_acquire .fileLock] } d hs hf
  rw [K.bind_ret _ _ _ _ _ hc]
  simp only [emit, List.append_assoc, List.singleton_append, List.cons_append,
    List.nil_append]

/-- The function `close` when the word read through the tail sentinel is `fd`
and the caller owns a record numbered `fd`: the kernel panics. -/
theorem close_sentinel_panics {W : Type} (x : Collab W) (fd : Int) (k : Kernel W)
    (d : file_descriptor) (hs : x.tail_fd_num k.world = fd)
    (h : get_current_file fd k.open_file_list = some d) (ho : d.file_owner = k.cur.tid) :
    close x fd k = .halted { k with
      trace := k.trace ++ [Event.lock_acquire .fileLock, Event.panic] } := by
  unfold close lock_acquire lock_release
  simp only [bind_eq, pure_eq, emit_bind, get_state_bind]
  simp only [h, ho, if_true]
  have hp := close_current_file_sentinel x fd
    { k with trace := k.trace ++ [Event.lock_acquire .fileLock] } hs
  simp only [K.bind, hp, List.append_assoc, List.singleton_append]

theorem find_eraseP_nodup (fd : Int) (l : List file_descriptor)
    (hd : (l.map (fun r => r.fd_num)).Nodup) :
    (l.eraseP (fun r => decide (r.fd_num = fd))).find? (fun r => decide (r.fd_num = fd)) = none := by
  induction l with
  | nil => rfl
  | cons d rest ih =>
    simp only [List.map_cons, List.nodup_cons] at hd
    by_cases h : d.fd_num = fd
    · simp only [List.eraseP_cons, h, decide_True, cond_true]
      rw [List.find?_eq_none]
      intro r hr hp
      have hp2 : r.fd_num = fd := by simpa using hp
      exact hd.1 (List.mem_map.2 ⟨r, hr, by rw [hp2, h]⟩)
    · simp only [List.eraseP_cons, h, decide_False, cond_false, List.find?_cons]
      exact ih hd.2

/-- After `close` has removed the record numbered `fd` from a table whose
descriptor numbers are pairwise distinct, no record numbered `fd` is left, so a
second `close (fd)` only takes and releases the lock. -/
theorem close_twice {W : Type} (fd : Int) (k : Kernel W)
    (hd : (k.open_file_list.map (fun r => r.fd_num)).Nodup) :
    get_current_file fd
      (k.open_file_list.reverse.eraseP (fun r => decide (r.fd_num = fd))).reverse = none := by
  unfold get_current_file
  rw [List.reverse_reverse]
  apply find_eraseP_nodup
  rw [List.map_reverse]
  exact List.nodup_reverse.2 hd

theorem fd_allocation_eval {W : Type} (k : Kernel W) (h : k.fd_current + 1 ≤ INT_MAX) :
    fd_allocation k = .ret (k.fd_current + 1) { k with fd_current := k.fd_current + 1 } := by
  simp [fd_allocation, h]

theorem range_shift (c : Int) (m : Nat) :
    (c + 1) :: (List.range m).map (fun (i : Nat) => c + 1 + 1 + (i : Int)) =
      (List.range (m + 1)).map (fun (i : Nat) => c + 1 + (i : Int)) := by
  rw [List.range_succ_eq_map, List.map_cons, List.map_map]
  congr 1
  · simp
  · apply List.map_congr_left
    intro i _
    simp only [Function.comp, Nat.succ_eq_add_one, Nat.cast_add, Nat.cast_one]
    omega

theorem fd_allocations_eval {W : Type} :
    ∀ (n : Nat) (k : Kernel W), k.fd_current + n ≤ INT_MAX →
      fd_allocations n k =
        .ret ((List.range n).map (fun (i : Nat) => k.fd_current + 1 + (i : Int)))
          { k with fd_current := k.fd_current + n } := by
  intro n
  induction n with
  | zero => intro k _; simp [fd_allocations, pure_apply]
  | succ m ih =>
    intro k h
    have h1 : k.fd_current + 1 ≤ INT_MAX := by push_cast at h; omega
    have h2 : ({ k with fd_current := k.fd_current + 1 } : Kernel W).fd_current + (m : Int)
        ≤ INT_MAX := by
      show k.fd_current + 1 + (m : Int) ≤ INT_MAX
      push_cast at h; omega
    unfold fd_allocations
    simp only [bind_eq, pure_eq]
    rw [K.bind_ret _ _ _ _ _ (fd_allocation_eval k h1), K.bind_ret _ _ _ _ _ (ih _ h2)]
    simp only [kpure_apply, range_shift]
    congr 2
    push_cast
    omega

/-- The function `open` on a valid pointer, as a function of the state. -/
theorem open_eval {W : Type} (x : Collab W) (file : Nat) (k : Kernel W)
    (hv : mapped_user x k.world file) :
    «open» x file k =
      if (x.filesys_open k.world file).2 ≠ 0 then
        if (x.calloc (x.filesys_open k.world file).1).2 = true then
          if k.fd_current + 1 ≤ INT_MAX then
            .ret (k.fd_current + 1) { k with
              world := (x.calloc (x.filesys_open k.world file).1).1,
              trace := k.trace ++ [Event.pagedir_get_page file, Event.lock_acquire .fileLock,
                Event.filesys_open file, Event.calloc, Event.lock_release .fileLock],
              fd_current := k.fd_current + 1,
              open_file_list := k.open_file_list ++
                [{ fd_num := k.fd_current + 1, file_owner := k.cur.tid,
                   file := (x.filesys_open k.world file).2 }] }
          else
            .undefined { k with
              world := (x.calloc (x.filesys_open k.world file).1).1,
              trace := k.trace ++ [Event.pagedir_get_page file, Event.lock_acquire .fileLock,
                Event.filesys_open file, Event.calloc] }
        else
          .undefined { k with
            world := (x.calloc (x.filesys_open k.world file).1).1,
            trace := k.trace ++ [Event.pagedir_get_page file, Event.lock_acquire .fileLock,
              Event.filesys_open file, Event.calloc] }
      else
        .ret (-1) { k with
          world := (x.filesys_open k.world file).1,
          trace := k.trace ++ [Event.pagedir_get_page file, Event.lock_acquire .fileLock,
            Event.filesys_open file, Event.lock_release .fileLock] } := by
  have hp := is_valid_pointer_eval x file k
  rw [if_pos ⟨hv.1, hv.2.1⟩] at hp
  unfold «open»
  simp only [bind_eq, pure_eq]
  rw [K.bind_ret _ _ _ _ _ hp]
  simp only [hv.2.2, ne_eq, not_false_eq_true, decide_True, Bool.not_true, Bool.false_eq_true,
    if_false, pure_bind_apply, lock_acquire, lock_release, emit_bind, command_bind]
  by_cases hf : (x.filesys_open k.world file).2 = 0
  · simp only [hf, not_true_eq_false, if_false, K.bind, K.pure, emit, List.append_assoc,
      List.singleton_append, List.cons_append, List.nil_append]
  · simp only [hf, not_false_eq_true, if_true]
    by_cases hc : (x.calloc (x.filesys_open k.world file).1).2 = true
    · by_cases ho : k.fd_current + 1 ≤ INT_MAX
      · simp only [K.bind, command, hc, Bool.not_true, Bool.false_eq_true, if_false, K.pure,
          fd_allocation, ho, if_true, get_state, push_open_file, emit, List.append_assoc,
          List.singleton_append, List.cons_append, List.nil_append]
      · simp only [K.bind, command, hc, Bool.not_true, Bool.false_eq_true, if_false, K.pure,
          fd_allocation, ho, if_true, get_state, push_open_file, emit, List.append_assoc,
          List.singleton_append, List.cons_append, List.nil_append]
    · have hc2 : (x.calloc (x.filesys_open k.world file).1).2 = false := by simpa using hc
      simp only [K.bind, command, hc2, Bool.not_false, if_true, undefined_behaviour,
        Bool.false_eq_true, if_false, List.append_assoc, List.singleton_append,
        List.cons_append, List.nil_append]

/-- A call of `open` that returns has failed with -1 and left the counter as
it was, or returns the counter's next value and has advanced the counter. -/
theorem open_cases {W : Type} (x : Collab W) (file : Nat) (k k1 : Kernel W) (r : Int)
    (h : «open» x file k = .ret r k1) :
    (r = -1 ∧ k1.fd_current = k.fd_current) ∨
    (r = k.fd_current + 1 ∧ k1.fd_current = k.fd_current + 1) := by
  by_cases hv : mapped_user x k.world file
  · rw [open_eval x file k hv] at h
    by_cases hf : (x.filesys_open k.world file).2 = 0
    · simp only [hf, ne_eq, not_true_eq_false, if_false] at h
      cases h
      exact Or.inl ⟨rfl, rfl⟩
    · simp only [hf, ne_eq, not_false_eq_true, if_true] at h
      by_cases hc : (x.calloc (x.filesys_open k.world file).1).2 = true
      · by_cases ho : k.fd_current + 1 ≤ INT_MAX
        · simp only [hc, ho, if_true] at h
          cases h
          exact Or.inr ⟨rfl, rfl⟩
        · simp only [hc, ho, if_true, if_false] at h
          cases h
      · simp only [hc, if_false] at h
        cases h
  · have hb : file = 0 ∨ is_user_vaddr file = false ∨ x.pagedir_get_page k.world file = 0 := by
      unfold mapped_user at hv
      by_cases h0 : file = 0
      · exact Or.inl h0
      · by_cases hu : is_user_vaddr file = true
        · right; right
          by_contra hp
          exact hv ⟨h0, hu, hp⟩
        · right; left
          simpa using hu
    have he : «open» x file k = .exited (exit_state (-1) (is_valid_pointer x file k).state) := by
      have hp := is_valid_pointer_eval x file k
      unfold «open»
      simp only [bind_eq, pure_eq]
      by_cases hq : file ≠ 0 ∧ is_user_vaddr file = true
      · have hz : x.pagedir_get_page k.world file = 0 := by
          rcases hb with h0 | hu | hz
          · exact absurd h0 hq.1
          · rw [hq.2] at hu; cases hu
          · exact hz
        rw [if_pos hq] at hp
        rw [K.bind_ret _ _ _ _ _ hp, hp]
        simp only [hz, ne_eq, not_true_eq_false, decide_False, Bool.not_false, if_true,
          K.bind, exit_eval, Res.state]
      · rw [if_neg hq] at hp
        rw [K.bind_ret _ _ _ _ _ hp, hp]
        simp only [Bool.not_false, if_true, K.bind, exit_eval, Res.state]
    rw [he] at h
    cases h

/-- A call of `close` that returns leaves the counter as it was. -/
theorem close_fd_current {W : Type} (x : Collab W) (fd : Int) (k k1 : Kernel W)
    (h : close x fd k = .ret () k1) : k1.fd_current = k.fd_current := by
  cases hg : get_current_file fd k.open_file_list with
  | none =>
    rw [close_absent x fd k hg] at h
    cases h; rfl
  | some d =>
    by_cases ho : d.file_owner = k.cur.tid
    · by_cases hs : x.tail_fd_num k.world = fd
      · rw [close_sentinel_panics x fd k d hs hg ho] at h
        cases h
      · rw [close_removes_record x fd k d hs hg ho] at h
        cases h; rfl
    · rw [close_foreign x fd k d hg ho] at h
      cases h; rfl

theorem descriptors_cons_fail (rs : List Int) : descriptors (-1 :: rs) = descriptors rs := by
  simp [descriptors]

theorem descriptors_cons (r : Int) (rs : List Int) (h : r ≠ -1) :
    descriptors (r :: rs) = r :: descriptors rs := by
  simp [descriptors, h]

/-- A run of `open` and `close` calls, started with the counter at `c`: the
descriptors returned are `c + 1`, `c + 2`, ... in this order, and the counter
has advanced by their number. -/
theorem run_fd_ops_spec {W : Type} (x : Collab W) :
    ∀ (ops : List fd_op) (k k1 : Kernel W) (rs : List Int), 1 ≤ k.fd_current →
      run_fd_ops x ops k = .ret rs k1 →
      descriptors rs =
        (List.range (descriptors rs).length).map (fun (i : Nat) => k.fd_current + 1 + (i : Int)) ∧
      k1.fd_current = k.fd_current + (descriptors rs).length := by
  intro ops
  induction ops with
  | nil =>
    intro k k1 rs _ h
    simp only [run_fd_ops, pure_apply] at h
    cases h
    simp [descriptors]
  | cons op rest ih =>
    intro k k1 rs hc h
    cases op with
    | «open» file =>
      unfold run_fd_ops at h
      simp only [bind_eq, pure_eq] at h
      cases ho : «open» x file k with
      | ret r k2 =>
        rw [K.bind_ret _ _ _ _ _ ho] at h
        cases hr : run_fd_ops x rest k2 with
        | ret rs2 k3 =>
          rw [K.bind_ret _ _ _ _ _ hr, kpure_apply] at h
          cases h
          rcases open_cases x file k k2 r ho with ⟨h1, h2⟩ | ⟨h1, h2⟩
          · have := ih k2 _ rs2 (by rw [h2]; exact hc) hr
            rw [h2] at this
            rw [h1, descriptors_cons_fail]
            exact this
          · have := ih k2 _ rs2 (by rw [h2]; omega) hr
            rw [h2] at this
            rw [descriptors_cons r rs2 (by omega), List.length_cons, this.2]
            refine ⟨?_, by push_cast; omega⟩
            rw [← range_shift, h1]
            congr 1
            exact this.1
        | exited k3 => simp [K.bind, hr] at h
        | halted k3 => simp [K.bind, hr] at h
        | undefined k3 => simp [K.bind, hr] at h
        | out_of_fuel k3 => simp [K.bind, hr] at h
      | exited k2 => simp [K.bind, ho] at h
      | halted k2 => simp [K.bind, ho] at h
      | undefined k2 => simp [K.bind, ho] at h
      | out_of_fuel k2 => simp [K.bind, ho] at h
    | close fd =>
      unfold run_fd_ops at h
      simp only [bind_eq, pure_eq] at h
      cases hcl : close x fd k with
      | ret u k2 =>
        rw [K.bind_ret _ _ _ _ _ hcl] at h
        have h2 := close_fd_current x fd k k2 hcl
        have := ih k2 k1 rs (by rw [h2]; exact hc) h
        rw [h2] at this
        exact this
      | exited k2 => simp [K.bind, hcl] at h
      | halted k2 => simp [K.bind, hcl] at h
      | undefined k2 => simp [K.bind, hcl] at h
      | out_of_fuel k2 => simp [K.bind, hcl] at h

/-- C17. With the counter at its initial value 1, `n` calls of `fd_allocation`
in a row (for `n` up to 2^31 - 2) return 2, 3, ..., `n + 1`: the k-th call
returns k + 1. In every run of `open` and `close` calls that returns, the
descriptors returned by the successful `open` calls are 2, 3, 4, ... in this
order: each is at least 2, each is greater than all returned before it, also
after a `close`, and the counter has advanced by the number of successful
`open` calls only, an `open` that returns -1 using up no number. -/
theorem descriptors_increase {W : Type} (x : Collab W) (k : Kernel W) (h0 : k.fd_current = 1) :
    (∀ n : Nat, (n : Int) + 1 ≤ INT_MAX →
      fd_allocations n k =
        .ret ((List.range n).map (fun (i : Nat) => (i : Int) + 2))
          { k with fd_current := (n : Int) + 1 }) ∧
    (∀ (ops : List fd_op) (rs : List Int) (k1 : Kernel W),
      run_fd_ops x ops k = .ret rs k1 →
      descriptors rs =
        (List.range (descriptors rs).length).map (fun (i : Nat) => (i : Int) + 2) ∧
      (∀ r ∈ rs, r = -1 ∨ 2 ≤ r) ∧
      (descriptors rs).Pairwise (fun a b => a < b) ∧
      k1.fd_current = 1 + ((descriptors rs).length : Int)) := by
  constructor
  · intro n hn
    rw [fd_allocations_eval n k (by rw [h0]; omega), h0]
    congr 2
    · funext i
      omega
    · omega
  · intro ops rs k1 h
    obtain ⟨h1, h2⟩ := run_fd_ops_spec x ops k k1 rs (by rw [h0]) h
    rw [h0] at h1 h2
    have hd : descriptors rs =
        (List.range (descriptors rs).length).map (fun (i : Nat) => (i : Int) + 2) := by
      rw [h1]
      simp only [List.length_map, List.length_range]
      apply List.map_congr_left
      intro i _
      omega
    refine ⟨hd, ?_, ?_, h2⟩
    · intro r hr
      by_cases hm : r = -1
      · exact Or.inl hm
      · right
        have hin : r ∈ descriptors rs := by
          simp only [descriptors, List.mem_filter]
          exact ⟨hr, by simpa using hm⟩
        rw [hd] at hin
        obtain ⟨i, _, hi⟩ := List.mem_map.1 hin
        omega
    · rw [hd, List.pairwise_map]
      exact (List.pairwise_lt_range _).imp (fun hab => by omega)

theorem run_fd_ops_open {W : Type} (x : Collab W) (file : Nat) (rest : List fd_op)
    (k k1 k2 : Kernel W) (r : Int) (rs : List Int) (h1 : «open» x file k = .ret r k1)
    (h2 : run_fd_ops x rest k1 = .ret rs k2) :
    run_fd_ops x (.open file :: rest) k = .ret (r :: rs) k2 := by
  unfold run_fd_ops
  simp only [bind_eq, pure_eq]
  rw [K.bind_ret _ _ _ _ _ h1, K.bind_ret _ _ _ _ _ h2]
  rfl

theorem run_fd_ops_close {W : Type} (x : Collab W) (fd : Int) (rest : List fd_op)
    (k k1 k2 : Kernel W) (rs : List Int) (h1 : close x fd k = .ret () k1)
    (h2 : run_fd_ops x rest k1 = .ret rs k2) :
    run_fd_ops x (.close fd :: rest) k = .ret rs k2 := by
  unfold run_fd_ops
  simp only [bind_eq, pure_eq]
  rw [K.bind_ret _ _ _ _ _ h1, h2]

theorem sample_fd_ops_run :
    run_fd_ops picky_demo sample_fd_ops two_page_kernel =
      .ret [2, -1, 3] { two_page_kernel with
        trace := [Event.pagedir_get_page 0xB0000010, Event.lock_acquire .fileLock,
          Event.filesys_open 0xB0000010, Event.calloc, Event.lock_release .fileLock,
          Event.pagedir_get_page 0xB0000020, Event.lock_acquire .fileLock,
          Event.filesys_open 0xB0000020, Event.lock_release .fileLock,
          Event.lock_acquire .fileLock, Event.file_close 100, Event.lock_release .fileLock,
          Event.pagedir_get_page 0xB0000010, Event.lock_acquire .fileLock,
          Event.filesys_open 0xB0000010, Event.calloc, Event.lock_release .fileLock],
        open_file_list := [{ fd_num := 3, file_owner := 2, file := 100 }],
        fd_current := 3 } := by
  have h1 : «open» picky_demo 0xB0000010 two_page_kernel =
      .ret 2 { two_page_kernel with
        trace := [Event.pagedir_get_page 0xB0000010, Event.lock_acquire .fileLock,
          Event.filesys_open 0xB0000010, Event.calloc, Event.lock_release .fileLock],
        open_file_list := [{ fd_num := 2, file_owner := 2, file := 100 }],
        fd_current := 2 } := rfl
  have h2 : «open» picky_demo 0xB0000020 { two_page_kernel with
        trace := [Event.pagedir_get_page 0xB0000010, Event.lock_acquire .fileLock,
          Event.filesys_open 0xB0000010, Event.calloc, Event.lock_release .fileLock],
        open_file_list := [{ fd_num := 2, file_owner := 2, file := 100 }],
        fd_current := 2 } =
      .ret (-1) { two_page_kernel with
        trace := [Event.pagedir_get_page 0xB0000010, Event.lock_acquire .fileLock,
          Event.filesys_open 0xB0000010, Event.calloc, Event.lock_release .fileLock,
          Event.pagedir_get_page 0xB0000020, Event.lock_acquire .fileLock,
          Event.filesys_open 0xB0000020, Event.lock_release .fileLock],
        open_file_list := [{ fd_num := 2, file_owner := 2, file := 100 }],
        fd_current := 2 } := rfl
  have h3 : close picky_demo 2 { two_page_kernel with
        trace := [Event.pagedir_get_page 0xB0000010, Event.lock_acquire .fileLock,
          Event.filesys_open 0xB0000010, Event.calloc, Event.lock_release .fileLock,
          Event.pagedir_get_page 0xB0000020, Event.lock_acquire .fileLock,
          Event.filesys_open 0xB0000020, Event.lock_release .fileLock],
        open_file_list := [{ fd_num := 2, file_owner := 2, file := 100 }],
        fd_current := 2 } =
      .ret () { two_page_kernel with
        trace := [Event.pagedir_get_page 0xB0000010, Event.lock_acquire .fileLock,
          Event.filesys_open 0xB0000010, Event.calloc, Event.lock_release .fileLock,
          Event.pagedir_get_page 0xB0000020, Event.lock_acquire .fileLock,
          Event.filesys_open 0xB0000020, Event.lock_release .fileLock,
          Event.lock_acquire .fileLock, Event.file_close 100, Event.lock_release .fileLock],
        open_file_list := [],
        fd_current := 2 } := rfl
  have h4 : «open» picky_demo 0xB0000010 { two_page_kernel with
        trace := [Event.pagedir_get_page 0xB0000010, Event.lock_acquire .fileLock,
          Event.filesys_open 0xB0000010, Event.calloc, Event.lock_release .fileLock,
          Event.pagedir_get_page 0xB0000020, Event.lock_acquire .fileLock,
          Event.filesys_open 0xB0000020, Event.lock_release .fileLock,
          Event.lock_acquire .fileLock, Event.file_close 100, Event.lock_release .fileLock],
        open_file_list := [],
        fd_current := 2 } =
      .ret 3 { two_page_kernel with
        trace := [Event.pagedir_get_page 0xB0000010, Event.lock_acquire .fileLock,
          Event.filesys_open 0xB0000010, Event.calloc, Event.lock_release .fileLock,
          Event.pagedir_get_page 0xB0000020, Event.lock_acquire .fileLock,
          Event.filesys_open 0xB0000020, Event.lock_release .fileLock,
          Event.lock_acquire .fileLock, Event.file_close 100, Event.lock_release .fileLock,
          Event.pagedir_get_page 0xB0000010, Event.lock_acquire .fileLock,
          Event.filesys_open 0xB0000010, Event.calloc, Event.lock_release .fileLock],
        open_file_list := [{ fd_num := 3, file_owner := 2, file := 100 }],
        fd_current := 3 } := rfl
  exact run_fd_ops_open _ _ _ _ _ _ _ _ h1 (run_fd_ops_open _ _ _ _ _ _ _ _ h2
    (run_fd_ops_close _ _ _ _ _ _ _ h3 (run_fd_ops_open _ _ _ _ _ _ _ _ h4 rfl)))

/-- C17, witness: with the counter at 1, thread 2 opens a file, fails to open
a file that does not exist, closes descriptor 2 and opens a file again: the
calls return 2, -1 and 3, and the counter ends at 3. -/
theorem descriptors_increase_witness :
    two_page_kernel.fd_current = 1 ∧
    run_fd_ops picky_demo sample_fd_ops two_page_kernel =
      .ret [2, -1, 3] (run_fd_ops picky_demo sample_fd_ops two_page_kernel).state ∧
    descriptors [2, -1, 3] =
      (List.range (descriptors [2, -1, 3]).length).map (fun (i : Nat) => (i : Int) + 2) ∧
    (∀ r ∈ [2, -1, 3], r = -1 ∨ (2 : Int) ≤ r) ∧
    (descriptors [2, -1, 3]).Pairwise (fun a b => a < b) ∧
    (run_fd_ops picky_demo sample_fd_ops two_page_kernel).state.fd_current =
      1 + ((descriptors [2, -1, 3]).length : Int) := by
  have h : run_fd_ops picky_demo sample_fd_ops two_page_kernel =
      .ret [2, -1, 3] (run_fd_ops picky_demo sample_fd_ops two_page_kernel).state := by
    rw [sample_fd_ops_run]
    rfl
  exact ⟨rfl, h, (descriptors_increase picky_demo two_page_kernel rfl).2 _ _ _ h⟩

theorem quiet_step_refl {W : Type} (k : Kernel W) : quiet_step k k :=
  ⟨[], by simp, rfl, rfl, by simp⟩

theorem quiet_step_trans {W : Type} {a b c : Kernel W} (h1 : quiet_step a b)
    (h2 : quiet_step b c) : quiet_step a c := by
  obtain ⟨e1, t1, th1, c1, q1⟩ := h1
  obtain ⟨e2, t2, th2, c2, q2⟩ := h2
  refine ⟨e1 ++ e2, by rw [t2, t1, List.append_assoc], th2.trans th1, c2.trans c1, ?_⟩
  intro e he
  rcases List.mem_append.1 he with h | h
  · exact q1 e h
  · exact q2 e h

/-- One more call that is neither `printf` nor `thread_exit`. -/
theorem quiet_step_event {W : Type} (k : Kernel W) (w : W) (e : Event)
    (he : e.is_exit_call = false) :
    quiet_step k { k with world := w, trace := k.trace ++ [e] } :=
  ⟨[e], rfl, rfl, rfl, by simpa using he⟩

theorem tidy_run_of_step {W α : Type} {P : Int → Prop} {k k0 : Kernel W} (h : quiet_step k k0)
    {r : Res W α} (hr : tidy_run P k0 r) : tidy_run P k r := by
  cases r with
  | ret a k1 => exact quiet_step_trans h hr
  | exited k1 =>
    obtain ⟨status, k2, hp, hq, he⟩ := hr
    exact ⟨status, k2, hp, quiet_step_trans h hq, he⟩
  | halted k1 => exact quiet_step_trans h hr
  | undefined k1 => exact quiet_step_trans h hr
  | out_of_fuel k1 => exact quiet_step_trans h hr

theorem tidy_run_mono {W α : Type} {P Q : Int → Prop} (hPQ : ∀ s, P s → Q s) {k : Kernel W}
    {r : Res W α} (hr : tidy_run P k r) : tidy_run Q k r := by
  cases r with
  | ret a k1 => exact hr
  | exited k1 =>
    obtain ⟨status, k2, hp, hq, he⟩ := hr
    exact ⟨status, k2, hPQ _ hp, hq, he⟩
  | halted k1 => exact hr
  | undefined k1 => exact hr
  | out_of_fuel k1 => exact hr

theorem tidy_apply {W α : Type} {P : Int → Prop} {m : K W α} (h : tidy P m) (k : Kernel W) :
    tidy_run P k (m k) := by
  unfold tidy at h
  exact h k

theorem tidy_intro {W α : Type} {P : Int → Prop} {m : K W α} (h : ∀ k, tidy_run P k (m k)) :
    tidy P m := by
  unfold tidy
  exact h

theorem tidy_bind {W α β : Type} (P : Int → Prop) (m : K W α) (f : α → K W β)
    (hm : tidy P m) (hf : ∀ a, tidy P (f a)) : tidy P (K.bind m f) := by
  apply tidy_intro
  intro k
  have h := tidy_apply hm k
  unfold K.bind
  cases hmk : m k with
  | ret a k1 =>
    rw [hmk] at h
    exact tidy_run_of_step h (tidy_apply (hf a) k1)
  | exited k1 => rw [hmk] at h; exact h
  | halted k1 => rw [hmk] at h; exact h
  | undefined k1 => rw [hmk] at h; exact h
  | out_of_fuel k1 => rw [hmk] at h; exact h

theorem tidy_pure {W α : Type} (P : Int → Prop) (a : α) : tidy P (K.pure a : K W α) :=
  tidy_intro (fun k => quiet_step_refl k)

theorem tidy_ite {W α : Type} (P : Int → Prop) (c : Prop) [Decidable c] (a b : K W α)
    (ha : tidy P a) (hb : tidy P b) : tidy P (if c then a else b) := by
  split_ifs
  · exact ha
  · exact hb

theorem tidy_exit {W : Type} (P : Int → Prop) (status : Int) (h : P status) :
    tidy P (exit status : K W Unit) :=
  tidy_intro (fun k => ⟨status, k, h, quiet_step_refl k, rfl⟩)

theorem tidy_get_state {W : Type} (P : Int → Prop) : tidy P (get_state : K W (Kernel W)) :=
  tidy_intro (fun k => quiet_step_refl k)

theorem tidy_emit {W : Type} (P : Int → Prop) (e : Event) (he : e.is_exit_call = false) :
    tidy P (emit e : K W Unit) :=
  tidy_intro (fun k => quiet_step_event k k.world e he)

theorem tidy_query {W α : Type} (P : Int → Prop) (e : Event) (q : W → α)
    (he : e.is_exit_call = false) : tidy P (query e q) :=
  tidy_intro (fun k => quiet_step_event k k.world e he)

theorem tidy_command {W α : Type} (P : Int → Prop) (e : Event) (c : W → W × α)
    (he : e.is_exit_call = false) : tidy P (command e c) :=
  tidy_intro (fun k => quiet_step_event k _ e he)

theorem tidy_effect {W : Type} (P : Int → Prop) (e : Event) (c : W → W)
    (he : e.is_exit_call = false) : tidy P (effect e c) :=
  tidy_intro (fun k => quiet_step_event k _ e he)

theorem tidy_undefined {W α : Type} (P : Int → Prop) :
    tidy P (undefined_behaviour : K W α) :=
  tidy_intro (fun k => quiet_step_refl k)

theorem tidy_out_of_fuel {W α : Type} (P : Int → Prop) : tidy P (out_of_fuel : K W α) :=
  tidy_intro (fun k => quiet_step_refl k)

theorem tidy_panic {W α : Type} (P : Int → Prop) : tidy P (kernel_panic : K W α) :=
  tidy_intro (fun k => quiet_step_event k k.world .panic rfl)

theorem tidy_halt {W : Type} (P : Int → Prop) : tidy P (halt : K W Unit) :=
  tidy_intro (fun k => quiet_step_event k k.world .shutdown_power_off rfl)

theorem tidy_fd_allocation {W : Type} (P : Int → Prop) : tidy P (fd_allocation : K W Int) := by
  apply tidy_intro
  intro k
  unfold fd_allocation
  split_ifs
  · exact ⟨[], by simp, rfl, rfl, by simp⟩
  · exact quiet_step_refl k

theorem tidy_push_open_file {W : Type} (P : Int → Prop) (d : file_descriptor) :
    tidy P (push_open_file d : K W Unit) :=
  tidy_intro (fun k => ⟨[], by simp [push_open_file], rfl, rfl, by simp⟩)

theorem tidy_set_eax {W : Type} (P : Int → Prop) (v : Nat) : tidy P (set_eax v : K W Unit) :=
  tidy_intro (fun k => ⟨[], by simp [set_eax], rfl, rfl, by simp⟩)

theorem tidy_capture_esp {W : Type} (P : Int → Prop) : tidy P (capture_esp : K W Unit) :=
  tidy_intro (fun k => ⟨[], by simp [capture_esp], rfl, rfl, by simp⟩)

theorem tidy_arg {W : Type} (P : Int → Prop) (x : Collab W) (n : Nat) : tidy P (arg x n) :=
  tidy_intro (fun k => quiet_step_refl k)

/-- The unlinking step of `close_current_file`. -/
theorem tidy_unlink {W : Type} (P : Int → Prop) (e : Event) (c : W → W)
    (l : List file_descriptor) (he : e.is_exit_call = false) :
    tidy P (fun k1 : Kernel W => effect e c { k1 with open_file_list := l }) :=
  tidy_intro (fun k => ⟨[e], rfl, rfl, rfl, by simpa using he⟩)

theorem tidy_is_valid_pointer {W : Type} (P : Int → Prop) (x : Collab W) (p : Nat) :
    tidy P (is_valid_pointer x p) := by
  unfold is_valid_pointer pagedir_get_page
  simp only [bind_eq, pure_eq]
  apply tidy_ite
  · exact tidy_bind _ _ _ (tidy_query _ _ _ rfl) (fun _ => tidy_pure _ _)
  · exact tidy_pure _ _

theorem tidy_exec_wait {W : Type} (P : Int → Prop) (x : Collab W) (l : Lock) :
    ∀ fuel, tidy P (exec_wait x l fuel) := by
  intro fuel
  induction fuel with
  | zero =>
    apply tidy_intro
    intro k
    unfold exec_wait
    split_ifs
    · exact quiet_step_refl k
    · exact quiet_step_refl k
  | succ f ih =>
    apply tidy_intro
    intro k
    unfold exec_wait
    split_ifs
    · exact tidy_apply (tidy_bind _ _ _ (tidy_effect P (.cond_wait l) x.cond_wait rfl)
        (fun _ => ih)) k
    · exact quiet_step_refl k

theorem tidy_exec {W : Type} (P : Int → Prop) (hP : P (-1)) (x : Collab W) (fuel cmd_line : Nat) :
    tidy P (exec x fuel cmd_line) := by
  unfold exec lock_acquire lock_release
  simp only [bind_eq, pure_eq]
  repeat' first
    | exact tidy_pure _ _
    | exact tidy_exit _ _ hP
    | exact tidy_get_state _
    | exact tidy_emit _ _ rfl
    | exact tidy_query _ _ _ rfl
    | exact tidy_command _ _ _ rfl
    | exact tidy_effect _ _ _ rfl
    | exact tidy_is_valid_pointer _ _ _
    | exact tidy_undefined _
    | exact tidy_panic _
    | exact tidy_out_of_fuel _
    | exact tidy_fd_allocation _
    | exact tidy_push_open_file _ _
    | exact tidy_unlink _ _ _ _ rfl
    | exact tidy_exec_wait _ _ _ _
    | apply tidy_bind
    | apply tidy_ite
    | intro _

theorem tidy_create {W : Type} (P : Int → Prop) (hP : P (-1)) (x : Collab W) (file initial_size : Nat) :
    tidy P (create x file initial_size) := by
  unfold create lock_acquire lock_release
  simp only [bind_eq, pure_eq]
  repeat' first
    | exact tidy_pure _ _
    | exact tidy_exit _ _ hP
    | exact tidy_get_state _
    | exact tidy_emit _ _ rfl
    | exact tidy_query _ _ _ rfl
    | exact tidy_command _ _ _ rfl
    | exact tidy_effect _ _ _ rfl
    | exact tidy_is_valid_pointer _ _ _
    | exact tidy_undefined _
    | exact tidy_panic _
    | exact tidy_out_of_fuel _
    | exact tidy_fd_allocation _
    | exact tidy_push_open_file _ _
    | exact tidy_unlink _ _ _ _ rfl
    | exact tidy_exec_wait _ _ _ _
    | apply tidy_bind
    | apply tidy_ite
    | intro _

theorem tidy_remove {W : Type} (P : Int → Prop) (hP : P (-1)) (x : Collab W) (file : Nat) :
    tidy P (remove x file) := by
  unfold remove lock_acquire lock_release
  simp only [bind_eq, pure_eq]
  repeat' first
    | exact tidy_pure _ _
    | exact tidy_exit _ _ hP
    | exact tidy_get_state _
    | exact tidy_emit _ _ rfl
    | exact tidy_query _ _ _ rfl
    | exact tidy_command _ _ _ rfl
    | exact tidy_effect _ _ _ rfl
    | exact tidy_is_valid_pointer _ _ _
    | exact tidy_undefined _
    | exact tidy_panic _
    | exact tidy_out_of_fuel _
    | exact tidy_fd_allocation _
    | exact tidy_push_open_file _ _
    | exact tidy_unlink _ _ _ _ rfl
    | exact tidy_exec_wait _ _ _ _
    | apply tidy_bind
    | apply tidy_ite
    | intro _

theorem tidy_open {W : Type} (P : Int → Prop) (hP : P (-1)) (x : Collab W) (file : Nat) :
    tidy P («open» x file) := by
  unfold «open» lock_acquire lock_release
  simp only [bind_eq, pure_eq]
  repeat' first
    | exact tidy_pure _ _
    | exact tidy_exit _ _ hP
    | exact tidy_get_state _
    | exact tidy_emit _ _ rfl
    | exact tidy_query _ _ _ rfl
    | exact tidy_command _ _ _ rfl
    | exact tidy_effect _ _ _ rfl
    | exact tidy_is_valid_pointer _ _ _
    | exact tidy_undefined _
    | exact tidy_panic _
    | exact tidy_out_of_fuel _
    | exact tidy_fd_allocation _
    | exact tidy_push_open_file _ _
    | exact tidy_unlink _ _ _ _ rfl
    | exact tidy_exec_wait _ _ _ _
    | apply tidy_bind
    | apply tidy_ite
    | intro _

theorem tidy_filesize {W : Type} (P : Int → Prop) (x : Collab W) (fd : Int) :
    tidy P (filesize x fd) := by
  unfold filesize lock_acquire lock_release
  simp only [bind_eq, pure_eq]
  repeat' first
    | exact tidy_pure _ _
    | exact tidy_get_state _
    | exact tidy_emit _ _ rfl
    | exact tidy_query _ _ _ rfl
    | exact tidy_command _ _ _ rfl
    | exact tidy_effect _ _ _ rfl
    | exact tidy_is_valid_pointer _ _ _
    | exact tidy_undefined _
    | exact tidy_panic _
    | exact tidy_out_of_fuel _
    | exact tidy_fd_allocation _
    | exact tidy_push_open_file _ _
    | exact tidy_unlink _ _ _ _ rfl
    | exact tidy_exec_wait _ _ _ _
    | apply tidy_bind
    | apply tidy_ite
    | intro _
    | split

theorem tidy_seek {W : Type} (P : Int → Prop) (x : Collab W) (fd : Int) (position : Nat) :
    tidy P (seek x fd position) := by
  unfold seek lock_acquire lock_release
  simp only [bind_eq, pure_eq]
  repeat' first
    | exact tidy_pure _ _
    | exact tidy_get_state _
    | exact tidy_emit _ _ rfl
    | exact tidy_query _ _ _ rfl
    | exact tidy_command _ _ _ rfl
    | exact tidy_effect _ _ _ rfl
    | exact tidy_is_valid_pointer _ _ _
    | exact tidy_undefined _
    | exact tidy_panic _
    | exact tidy_out_of_fuel _
    | exact tidy_fd_allocation _
    | exact tidy_push_open_file _ _
    | exact tidy_unlink _ _ _ _ rfl
    | exact tidy_exec_wait _ _ _ _
    | apply tidy_bind
    | apply tidy_ite
    | intro _
    | split

theorem tidy_tell {W : Type} (P : Int → Prop) (x : Collab W) (fd : Int) :
    tidy P (tell x fd) := by
  unfold tell lock_acquire lock_release
  simp only [bind_eq, pure_eq]
  repeat' first
    | exact tidy_pure _ _
    | exact tidy_get_state _
    | exact tidy_emit _ _ rfl
    | exact tidy_query _ _ _ rfl
    | exact tidy_command _ _ _ rfl
    | exact tidy_effect _ _ _ rfl
    | exact tidy_is_valid_pointer _ _ _
    | exact tidy_undefined _
    | exact tidy_panic _
    | exact tidy_out_of_fuel _
    | exact tidy_fd_allocation _
    | exact tidy_push_open_file _ _
    | exact tidy_unlink _ _ _ _ rfl
    | exact tidy_exec_wait _ _ _ _
    | apply tidy_bind
    | apply tidy_ite
    | intro _
    | split

theorem tidy_close_current_file {W : Type} (P : Int → Prop) (x : Collab W) (fd : Int) :
    tidy P (close_current_file x fd) := by
  unfold close_current_file
  simp only [bind_eq, pure_eq]
  repeat' first
    | exact tidy_pure _ _
    | exact tidy_get_state _
    | exact tidy_emit _ _ rfl
    | exact tidy_query _ _ _ rfl
    | exact tidy_command _ _ _ rfl
    | exact tidy_effect _ _ _ rfl
    | exact tidy_is_valid_pointer _ _ _
    | exact tidy_undefined _
    | exact tidy_panic _
    | exact tidy_out_of_fuel _
    | exact tidy_fd_allocation _
    | exact tidy_push_open_file _ _
    | exact tidy_unlink _ _ _ _ rfl
    | exact tidy_exec_wait _ _ _ _
    | apply tidy_bind
    | apply tidy_ite
    | intro _
    | split

theorem quiet_step_events {W : Type} (k : Kernel W) (w : W) (evs : List Event)
    (h : evs.all (fun e => !e.is_exit_call) = true) :
    quiet_step k { k with world := w, trace := k.trace ++ evs } := by
  refine ⟨evs, rfl, rfl, rfl, ?_⟩
  intro e he
  have := List.all_eq_true.1 h e he
  simpa using this

theorem tidy_run_ite {W α : Type} (P : Int → Prop) (k : Kernel W) (c : Prop) [Decidable c]
    (a b : Res W α) (ha : c → tidy_run P k a) (hb : ¬ c → tidy_run P k b) :
    tidy_run P k (if c then a else b) := by
  split_ifs with h
  · exact ha h
  · exact hb h

theorem tidy_read_probe {W : Type} (P : Int → Prop) (hP : P (-1)) (x : Collab W)
    (buffer_ptr : Nat) : tidy P (read_probe x buffer_ptr) := by
  apply tidy_intro
  intro k
  rw [read_probe_eval]
  generalize stack_window_low k.esp = low
  apply tidy_run_ite
  · intro _
    exact ⟨-1, k, hP, quiet_step_refl k, rfl⟩
  intro _
  apply tidy_run_ite
  · intro _
    exact quiet_step_events k k.world [Event.pagedir_get_page buffer_ptr] rfl
  intro _
  cases he : x.find_supple_entry k.world (pg_round_down buffer_ptr) with
  | none =>
    simp only
    apply tidy_run_ite
    · intro _
      exact quiet_step_events k _ [Event.pagedir_get_page buffer_ptr,
        Event.find_supple_entry (pg_round_down buffer_ptr), Event.increase_stack buffer_ptr] rfl
    · intro _
      exact ⟨-1, _, hP, quiet_step_events k k.world [Event.pagedir_get_page buffer_ptr,
        Event.find_supple_entry (pg_round_down buffer_ptr)] rfl, rfl⟩
  | some ent =>
    simp only
    apply tidy_run_ite
    · intro _
      exact quiet_step_events k _ [Event.pagedir_get_page buffer_ptr,
        Event.find_supple_entry (pg_round_down buffer_ptr), Event.load_data ent] rfl
    · intro _
      exact ⟨-1, _, hP, quiet_step_events k k.world [Event.pagedir_get_page buffer_ptr,
        Event.find_supple_entry (pg_round_down buffer_ptr)] rfl, rfl⟩

theorem tidy_read_loop {W : Type} (P : Int → Prop) (hP : P (-1)) (x : Collab W)
    (buffer size : Nat) : ∀ fuel sob ptr, tidy P (read_loop x buffer size fuel sob ptr) := by
  intro fuel
  induction fuel with
  | zero =>
    intro sob ptr
    rw [read_loop]
    exact tidy_ite _ _ _ _ (tidy_pure _ _) (tidy_out_of_fuel _)
  | succ f ih =>
    intro sob ptr
    rw [read_loop]
    simp only [bind_eq, pure_eq]
    refine tidy_ite _ _ _ _ (tidy_pure _ _) ?_
    refine tidy_bind _ _ _ (tidy_read_probe P hP x ptr) (fun _ => ?_)
    exact tidy_ite _ _ _ _ (ih _ _) (tidy_ite _ _ _ _ (ih _ _) (ih _ _))

theorem tidy_write_loop {W : Type} (P : Int → Prop) (hP : P (-1)) (x : Collab W)
    (buffer size : Nat) : ∀ fuel sob ptr, tidy P (write_loop x buffer size fuel sob ptr) := by
  intro fuel
  induction fuel with
  | zero =>
    intro sob ptr
    rw [write_loop]
    exact tidy_ite _ _ _ _ (tidy_pure _ _) (tidy_out_of_fuel _)
  | succ f ih =>
    intro sob ptr
    rw [write_loop]
    simp only [bind_eq, pure_eq]
    refine tidy_ite _ _ _ _ (tidy_pure _ _) ?_
    refine tidy_bind _ _ _ (tidy_is_valid_pointer P x ptr) (fun _ => ?_)
    have hrest : tidy P (if PGSIZE < sob then
          write_loop x buffer size f (sob - PGSIZE) (ptr_add ptr PGSIZE)
        else if sob = 0 then write_loop x buffer size f sob 0
        else write_loop x buffer size f 0 (ptr_sub (ptr_add buffer size) 1)) :=
      tidy_ite _ _ _ _ (ih _ _) (tidy_ite _ _ _ _ (ih _ _) (ih _ _))
    exact tidy_ite _ _ _ _ (tidy_bind _ _ _ (tidy_exit _ _ hP) (fun _ => hrest))
      (tidy_bind _ _ _ (tidy_pure _ _) (fun _ => hrest))

theorem tidy_read_stdin_loop {W : Type} (P : Int → Prop) (x : Collab W) (buf : Nat) :
    ∀ fuel counter buffer, tidy P (read_stdin_loop x buf fuel counter buffer) := by
  intro fuel
  induction fuel with
  | zero =>
    intro counter buffer
    rw [read_stdin_loop]
    exact tidy_ite _ _ _ _ (tidy_out_of_fuel _) (tidy_pure _ _)
  | succ f ih =>
    intro counter buffer
    rw [read_stdin_loop]
    simp only [bind_eq, pure_eq]
    refine tidy_ite _ _ _ _ ?_ (tidy_pure _ _)
    refine tidy_bind _ _ _ (tidy_command _ _ _ rfl) (fun c => ?_)
    refine tidy_ite _ _ _ _ ?_ (tidy_pure _ _)
    exact tidy_bind _ _ _ (tidy_effect _ _ _ rfl) (fun _ => ih _ _)

theorem tidy_mmap_loop {W : Type} (P : Int → Prop) (x : Collab W) (address : Nat)
    (length : Int) : ∀ fuel ofs, tidy P (mmap_loop x address length fuel ofs) := by
  intro fuel
  induction fuel with
  | zero =>
    intro ofs
    rw [mmap_loop]
    exact tidy_ite _ _ _ _ (tidy_out_of_fuel _) (tidy_pure _ _)
  | succ f ih =>
    intro ofs
    rw [mmap_loop]
    unfold find_supple_entry pagedir_get_page
    simp only [bind_eq, pure_eq]
    refine tidy_ite _ _ _ _ ?_ (tidy_pure _ _)
    refine tidy_bind _ _ _ (tidy_query _ _ _ rfl) (fun entry => ?_)
    refine tidy_ite _ _ _ _ (tidy_pure _ _) ?_
    refine tidy_bind _ _ _ (tidy_query _ _ _ rfl) (fun page => ?_)
    exact tidy_ite _ _ _ _ (tidy_pure _ _) (tidy_ite _ _ _ _ (tidy_undefined _) (ih _))

theorem tidy_read_transfer {W : Type} (P : Int → Prop) (x : Collab W) (fd : Int)
    (buffer size : Nat) : tidy P (read_transfer x fd buffer size) := by
  unfold read_transfer lock_acquire lock_release
  simp only [bind_eq, pure_eq]
  repeat' first
    | exact tidy_read_stdin_loop _ _ _ _ _ _
    | exact tidy_pure _ _
    | exact tidy_get_state _
    | exact tidy_emit _ _ rfl
    | exact tidy_query _ _ _ rfl
    | exact tidy_command _ _ _ rfl
    | exact tidy_effect _ _ _ rfl
    | exact tidy_is_valid_pointer _ _ _
    | exact tidy_undefined _
    | exact tidy_panic _
    | exact tidy_out_of_fuel _
    | exact tidy_fd_allocation _
    | exact tidy_push_open_file _ _
    | exact tidy_unlink _ _ _ _ rfl
    | exact tidy_exec_wait _ _ _ _
    | apply tidy_bind
    | apply tidy_ite
    | intro _
    | split

theorem tidy_write_transfer {W : Type} (P : Int → Prop) (x : Collab W) (fd : Int)
    (buffer size : Nat) : tidy P (write_transfer x fd buffer size) := by
  unfold write_transfer lock_acquire lock_release
  simp only [bind_eq, pure_eq]
  repeat' first
    | exact tidy_pure _ _
    | exact tidy_get_state _
    | exact tidy_emit _ _ rfl
    | exact tidy_query _ _ _ rfl
    | exact tidy_command _ _ _ rfl
    | exact tidy_effect _ _ _ rfl
    | exact tidy_is_valid_pointer _ _ _
    | exact tidy_undefined _
    | exact tidy_panic _
    | exact tidy_out_of_fuel _
    | exact tidy_fd_allocation _
    | exact tidy_push_open_file _ _
    | exact tidy_unlink _ _ _ _ rfl
    | exact tidy_exec_wait _ _ _ _
    | apply tidy_bind
    | apply tidy_ite
    | intro _
    | split

theorem tidy_read {W : Type} (P : Int → Prop) (hP : P (-1)) (x : Collab W) (fd : Int)
    (buffer size : Nat) : tidy P (read x fd buffer size) := by
  unfold read
  simp only [bind_eq]
  exact tidy_bind _ _ _ (tidy_read_loop P hP x buffer size _ _ _)
    (fun _ => tidy_read_transfer P x fd buffer size)

theorem tidy_write {W : Type} (P : Int → Prop) (hP : P (-1)) (x : Collab W) (fd : Int)
    (buffer size : Nat) : tidy P (write x fd buffer size) := by
  unfold write
  simp only [bind_eq]
  exact tidy_bind _ _ _ (tidy_write_loop P hP x buffer size _ _ _)
    (fun _ => tidy_write_transfer P x fd buffer size)

theorem tidy_close {W : Type} (P : Int → Prop) (x : Collab W) (fd : Int) :
    tidy P (close x fd) := by
  unfold close lock_acquire lock_release
  simp only [bind_eq, pure_eq]
  repeat' first
    | exact tidy_close_current_file _ _ _
    | exact tidy_pure _ _
    | exact tidy_get_state _
    | exact tidy_emit _ _ rfl
    | exact tidy_query _ _ _ rfl
    | exact tidy_command _ _ _ rfl
    | exact tidy_effect _ _ _ rfl
    | exact tidy_is_valid_pointer _ _ _
    | exact tidy_undefined _
    | exact tidy_panic _
    | exact tidy_out_of_fuel _
    | exact tidy_fd_allocation _
    | exact tidy_push_open_file _ _
    | exact tidy_unlink _ _ _ _ rfl
    | exact tidy_exec_wait _ _ _ _
    | apply tidy_bind
    | apply tidy_ite
    | intro _
    | split

theorem tidy_mmap {W : Type} (P : Int → Prop) (x : Collab W) (file_desc : Int)
    (address : Nat) : tidy P (mmap x file_desc address) := by
  unfold mmap lock_acquire lock_release
  simp only [bind_eq, pure_eq]
  repeat' first
    | exact tidy_mmap_loop _ _ _ _ _ _
    | exact tidy_pure _ _
    | exact tidy_get_state _
    | exact tidy_emit _ _ rfl
    | exact tidy_query _ _ _ rfl
    | exact tidy_command _ _ _ rfl
    | exact tidy_effect _ _ _ rfl
    | exact tidy_is_valid_pointer _ _ _
    | exact tidy_undefined _
    | exact tidy_panic _
    | exact tidy_out_of_fuel _
    | exact tidy_fd_allocation _
    | exact tidy_push_open_file _ _
    | exact tidy_unlink _ _ _ _ rfl
    | exact tidy_exec_wait _ _ _ _
    | apply tidy_bind
    | apply tidy_ite
    | intro _
    | split

theorem tidy_munmap {W : Type} (P : Int → Prop) (x : Collab W) (map : Int) :
    tidy P (munmap x map) :=
  tidy_effect _ _ _ rfl

theorem tidy_wait {W : Type} (P : Int → Prop) (x : Collab W) (pid : Int) :
    tidy P (wait x pid) :=
  tidy_command _ _ _ rfl

theorem tidy_args_valid {W : Type} (P : Int → Prop) (x : Collab W) :
    tidy P (args_valid x) := by
  unfold args_valid
  simp only [bind_eq, pure_eq]
  repeat' first
    | exact tidy_pure _ _
    | exact tidy_get_state _
    | exact tidy_emit _ _ rfl
    | exact tidy_query _ _ _ rfl
    | exact tidy_command _ _ _ rfl
    | exact tidy_effect _ _ _ rfl
    | exact tidy_is_valid_pointer _ _ _
    | exact tidy_undefined _
    | exact tidy_panic _
    | exact tidy_out_of_fuel _
    | exact tidy_fd_allocation _
    | exact tidy_push_open_file _ _
    | exact tidy_unlink _ _ _ _ rfl
    | exact tidy_exec_wait _ _ _ _
    | apply tidy_bind
    | apply tidy_ite
    | intro _

/-- A tidy run that ended the process announced its exit. -/
theorem tidy_run_exited {W α : Type} {P : Int → Prop} {k k1 : Kernel W}
    (h : tidy_run P k (.exited k1 : Res W α)) : ∃ status, P status ∧ exit_announced k k1 status := by
  obtain ⟨status, k0, hp, ⟨evs, ht, hth, hc, hq⟩, he⟩ := h
  obtain ⟨_, _, _, _, _, _, locks, hl, hlocks⟩ := exit_state_frame status k0
  refine ⟨status, hp, k0, evs, locks, ht, hth, hc, hq, he, ?_, hlocks⟩
  rw [he, hl, ht, hc]
  rfl

theorem tidy_exited {W α : Type} {P : Int → Prop} {m : K W α} (hm : tidy P m)
    {k k1 : Kernel W} (h : m k = .exited k1) : ∃ status, P status ∧ exit_announced k k1 status := by
  have := tidy_apply hm k
  rw [h] at this
  exact tidy_run_exited this

theorem syscall_nr_cases (n : Int) :
    n = SYS_HALT ∨ n = SYS_EXIT ∨ n = SYS_EXEC ∨ n = SYS_WAIT ∨ n = SYS_CREATE ∨
    n = SYS_REMOVE ∨ n = SYS_OPEN ∨ n = SYS_FILESIZE ∨ n = SYS_READ ∨ n = SYS_WRITE ∨
    n = SYS_SEEK ∨ n = SYS_TELL ∨ n = SYS_CLOSE ∨ n = SYS_MMAP ∨ n = SYS_MUNMAP ∨
    (n < 0 ∨ 14 < n) := by
  unfold SYS_HALT SYS_EXIT SYS_EXEC SYS_WAIT SYS_CREATE SYS_REMOVE SYS_OPEN SYS_FILESIZE SYS_READ
    SYS_WRITE SYS_SEEK SYS_TELL SYS_CLOSE SYS_MMAP SYS_MUNMAP
  omega

/-- The `switch` of `syscall_handler` is tidy: when it ends the process, the
status is the argument of `SYS_EXIT`, or -1. -/
theorem tidy_syscall_switch {W : Type} (P : Int → Prop) (x : Collab W) (fuel : Nat)
    (k1 : Kernel W)
    (hN : ¬ to_int32 (x.user_word k1.world (ptr_add k1.esp 0)) = SYS_EXIT → P (-1))
    (hE : to_int32 (x.user_word k1.world (ptr_add k1.esp 0)) = SYS_EXIT →
      P (to_int32 (x.user_word k1.world (ptr_add k1.esp (4 * 1))))) :
    tidy_run P k1 (syscall_switch x fuel k1) := by
  by_cases hexit : to_int32 (x.user_word k1.world (ptr_add k1.esp 0)) = SYS_EXIT
  · rw [syscall_switch_EXIT x fuel k1 hexit]
    exact ⟨_, k1, hE hexit, quiet_step_refl k1, rfl⟩
  · have hP : P (-1) := hN hexit
    rcases syscall_nr_cases (to_int32 (x.user_word k1.world (ptr_add k1.esp 0))) with
      h | h | h | h | h | h | h | h | h | h | h | h | h | h | h | h
    · rw [syscall_switch_HALT x fuel k1 h]
      exact tidy_apply (tidy_halt _) k1
    · exact absurd h hexit
    · rw [syscall_switch_EXEC x fuel k1 h]
      exact tidy_apply (tidy_bind _ _ _ (tidy_exec P hP x _ _) (fun _ => tidy_set_eax _ _)) k1
    · rw [syscall_switch_WAIT x fuel k1 h]
      exact tidy_apply (tidy_bind _ _ _ (tidy_wait _ x _) (fun _ => tidy_set_eax _ _)) k1
    · rw [syscall_switch_CREATE x fuel k1 h]
      exact tidy_apply (tidy_bind _ _ _ (tidy_create P hP x _ _) (fun _ => tidy_set_eax _ _)) k1
    · rw [syscall_switch_REMOVE x fuel k1 h]
      exact tidy_apply (tidy_bind _ _ _ (tidy_remove P hP x _) (fun _ => tidy_set_eax _ _)) k1
    · rw [syscall_switch_OPEN x fuel k1 h]
      exact tidy_apply (tidy_bind _ _ _ (tidy_open P hP x _) (fun _ => tidy_set_eax _ _)) k1
    · rw [syscall_switch_FILESIZE x fuel k1 h]
      exact tidy_apply (tidy_bind _ _ _ (tidy_filesize _ x _) (fun _ => tidy_set_eax _ _)) k1
    · rw [syscall_switch_READ x fuel k1 h]
      exact tidy_apply (tidy_bind _ _ _ (tidy_read P hP x _ _ _) (fun _ => tidy_set_eax _ _)) k1
    · rw [syscall_switch_WRITE x fuel k1 h]
      exact tidy_apply (tidy_bind _ _ _ (tidy_write P hP x _ _ _) (fun _ => tidy_set_eax _ _)) k1
    · rw [syscall_switch_SEEK x fuel k1 h]
      exact tidy_apply (tidy_seek _ x _ _) k1
    · rw [syscall_switch_TELL x fuel k1 h]
      exact tidy_apply (tidy_bind _ _ _ (tidy_tell _ x _) (fun _ => tidy_set_eax _ _)) k1
    · rw [syscall_switch_CLOSE x fuel k1 h]
      exact tidy_apply (tidy_close _ x _) k1
    · rw [syscall_switch_MMAP x fuel k1 h]
      exact tidy_apply (tidy_bind _ _ _ (tidy_mmap _ x _ _) (fun _ => tidy_set_eax _ _)) k1
    · rw [syscall_switch_MUNMAP x fuel k1 h]
      exact tidy_apply (tidy_munmap _ x _) k1
    · rw [syscall_switch_default x fuel k1 h]
      exact quiet_step_refl k1

/-- What `syscall_handler` does before the `switch`: it records `esp`, looks
the four argument words up, and calls `exit (-1)` if one of them fails. -/
theorem syscall_handler_eval {W : Type} (x : Collab W) (fuel : Nat) (k : Kernel W) :
    ∃ evs, (∀ e ∈ evs, ∃ a, e = Event.pagedir_get_page a) ∧
      (¬ four_args_mapped x k.world k.intr.esp →
        syscall_handler x fuel k =
          .exited (exit_state (-1) { k with esp := k.intr.esp, trace := k.trace ++ evs })) ∧
      (four_args_mapped x k.world k.intr.esp →
        syscall_handler x fuel k =
          syscall_switch x fuel { k with esp := k.intr.esp, trace := k.trace ++ evs }) := by
  obtain ⟨evs, hv, hp⟩ := args_valid_eval x { k with esp := k.intr.esp }
  simp only at hv
  refine ⟨evs, hp, ?_, ?_⟩
  · intro hm
    simp [syscall_handler, capture_esp, bind_apply, K.bind, hv, hm, exit_eval]
  · intro hm
    simp [syscall_handler, capture_esp, bind_apply, K.bind, hv, hm]

theorem quiet_lookups {W : Type} (k : Kernel W) (evs : List Event)
    (h : ∀ e ∈ evs, ∃ a, e = Event.pagedir_get_page a) :
    quiet_step k { k with esp := k.intr.esp, trace := k.trace ++ evs } := by
  refine ⟨evs, rfl, rfl, rfl, ?_⟩
  intro e he
  obtain ⟨a, ha⟩ := h e he
  subst ha
  rfl

/-- C13. Every run of the system-call layer that ends the process ends it by
`exit`: up to that call nothing is printed and no thread's child list is
changed; then the one line `<name>: exit(<status>)` and a newline, with the
running thread's name and the status in decimal, is printed, followed only by
the lock calls around the update of the parent's child record and, last, by
`thread_exit`. For `syscall_handler` the
status is the argument of `SYS_EXIT` when the four argument words are valid and
`SYS_EXIT` is the call, and -1 in every other case; for `exec`, `create`,
`remove`, `open`, `read` and `write` called on their own it is -1. -/
theorem exit_line_before_teardown {W : Type} (x : Collab W) (fuel : Nat) (k : Kernel W) :
    (∀ k1, syscall_handler x fuel k = .exited k1 →
      ∃ status, exit_announced k k1 status ∧
        (four_args_mapped x k.world k.intr.esp ∧
          to_int32 (x.user_word k.world (ptr_add k.intr.esp 0)) = SYS_EXIT →
          status = to_int32 (x.user_word k.world (ptr_add k.intr.esp 4))) ∧
        (¬ (four_args_mapped x k.world k.intr.esp ∧
          to_int32 (x.user_word k.world (ptr_add k.intr.esp 0)) = SYS_EXIT) →
          status = -1)) ∧
    (∀ status, exit status k = .exited (exit_state status k) ∧
      exit_announced k (exit_state status k) status) ∧
    (∀ cmd_line k1, exec x fuel cmd_line k = .exited k1 → exit_announced k k1 (-1)) ∧
    (∀ file initial_size k1, create x file initial_size k = .exited k1 →
      exit_announced k k1 (-1)) ∧
    (∀ file k1, remove x file k = .exited k1 → exit_announced k k1 (-1)) ∧
    (∀ file k1, «open» x file k = .exited k1 → exit_announced k k1 (-1)) ∧
    (∀ fd buffer size k1, read x fd buffer size k = .exited k1 → exit_announced k k1 (-1)) ∧
    (∀ fd buffer size k1, write x fd buffer size k = .exited k1 →
      exit_announced k k1 (-1)) := by
  have one : ∀ {α : Type} (m : K W α), tidy (fun s => s = -1) m →
      ∀ k1, m k = .exited k1 → exit_announced k k1 (-1) := by
    intro α m hm k1 h
    obtain ⟨status, hs, ha⟩ := tidy_exited hm h
    rw [← hs]
    exact ha
  refine ⟨?_, ?_, fun cmd_line => one _ (tidy_exec (fun s => s = -1) rfl x fuel cmd_line), ?_, ?_, ?_, ?_, ?_⟩
  · intro k1 h
    obtain ⟨evs, hp, hbad, hgood⟩ := syscall_handler_eval x fuel k
    by_cases hm : four_args_mapped x k.world k.intr.esp
    · rw [hgood hm] at h
      have hrun := tidy_syscall_switch
        (fun s => s = if to_int32 (x.user_word k.world (ptr_add k.intr.esp 0)) = SYS_EXIT then
            to_int32 (x.user_word k.world (ptr_add k.intr.esp 4)) else -1)
        x fuel { k with esp := k.intr.esp, trace := k.trace ++ evs }
        (by intro he; simp only [he, if_false])
        (by intro he; simp only [he, if_true, Nat.mul_one])
      rw [h] at hrun
      obtain ⟨status, hs, ha⟩ := tidy_run_exited (tidy_run_of_step (quiet_lookups k evs hp) hrun)
      refine ⟨status, ha, ?_, ?_⟩
      · intro hc
        rw [hs, if_pos hc.2]
      · intro hc
        rw [hs, if_neg (fun he => hc ⟨hm, he⟩)]
    · rw [hbad hm] at h
      cases h
      have hrun : tidy_run (fun s => s = -1) k
          (.exited (exit_state (-1) { k with esp := k.intr.esp, trace := k.trace ++ evs }) :
            Res W Unit) :=
        ⟨-1, _, rfl, quiet_lookups k evs hp, rfl⟩
      obtain ⟨status, hs, ha⟩ := tidy_run_exited hrun
      rw [hs] at ha
      exact ⟨-1, ha, fun hc => absurd hc.1 hm, fun _ => rfl⟩
  · intro status
    have hrun : tidy_run (fun s => s = status) k (exit status k) :=
      tidy_apply (tidy_exit (fun s => s = status) status rfl) k
    obtain ⟨s2, hs, ha⟩ := tidy_run_exited hrun
    rw [hs] at ha
    exact ⟨rfl, ha⟩
  · intro file initial_size
    exact one _ (tidy_create (fun s => s = -1) rfl x file initial_size)
  · intro file
    exact one _ (tidy_remove (fun s => s = -1) rfl x file)
  · intro file
    exact one _ (tidy_open (fun s => s = -1) rfl x file)
  · intro fd buffer size
    exact one _ (tidy_read (fun s => s = -1) rfl x fd buffer size)
  · intro fd buffer size
    exact one _ (tidy_write (fun s => s = -1) rfl x fd buffer size)

/-- C13, at a concrete input: with nothing mapped, `syscall_handler` run by the
thread named `child` looks the stack pointer up, prints `child: exit(-1)` and a
newline, takes and releases the child lock of the parent, thread 1, and calls
`thread_exit`. -/
theorem exit_line_before_teardown_witness :
    syscall_handler demo 0 bare_kernel =
      .exited (syscall_handler demo 0 bare_kernel).state ∧
    (syscall_handler demo 0 bare_kernel).state.trace =
      [Event.pagedir_get_page 0xB0000000, Event.printf "child: exit(-1)\n",
        Event.lock_acquire (.child_lock 1), Event.lock_release (.child_lock 1),
        Event.thread_exit] ∧
    ∃ status, exit_announced bare_kernel (syscall_handler demo 0 bare_kernel).state status ∧
      status = -1 :=
  ⟨rfl, by decide, ((exit_line_before_teardown demo 0 bare_kernel).1 _ rfl).imp
    (fun _ h => ⟨h.1, h.2.2 (by decide)⟩)⟩

end Pintos
